import Mathlib

/-
Verification of cachito's content-manifest core (cachito/web/content_manifest.py).

The data model and the operations of `ContentManifest` and `Package` are embedded
from the source file.  Collaborators that live outside the embedded source
(cachito/web/purl.py, cachito/web/utils.py, cachito/common/utils.py and the
gomod worker's `match_parent_module`) are modelled from the specification; their
doc comments say so explicitly.

Conventions of the embedding:
* Python `None` / strings are `Option String` / `String`; Python truthiness of an
  optional string (`if version:`) is `optTruthy` (`None` and `""` are falsy).
* Python dicts keyed by `Package` identity are association lists keyed by
  `PkgId` (the (name, type, version, dev) tuple), because `Package.__hash__` /
  `__eq__` restrict identity to those four fields; dicts keyed by module name
  are association lists keyed by `String`.  Insertion order of a Python dict is
  the list order.
* Exceptions are `Except String`; a raised exception is `.error msg`.
* In-place mutation of a dependency `Package` (done by
  `_get_local_go_package_dep_purl`) is modelled by returning the updated
  dependency and rebuilding the dependency lists.
-/

/-- A package within a content manifest (class `Package`, content_manifest.py).
Field order follows `Package.__init__`. -/
inductive Package where
  | mk (name : String) (type : String) (version : Option String) (dev : Bool)
      (path : Option String) (dependencies : List Package)

def Package.name : Package → String
  | .mk n _ _ _ _ _ => n

def Package.type : Package → String
  | .mk _ t _ _ _ _ => t

def Package.version : Package → Option String
  | .mk _ _ v _ _ _ => v

def Package.dev : Package → Bool
  | .mk _ _ _ d _ _ => d

def Package.path : Package → Option String
  | .mk _ _ _ _ p _ => p

def Package.dependencies : Package → List Package
  | .mk _ _ _ _ _ ds => ds

/-- Replace the `version` field (models the in-place assignment
`dependency.version = ...` in `_get_local_go_package_dep_purl`). -/
def Package.withVersion : Package → Option String → Package
  | .mk n t _ d p ds, v => .mk n t v d p ds

/-- Replace the `dependencies` field (used to rebuild a package after its
dependencies were processed, possibly mutated). -/
def Package.withDependencies : Package → List Package → Package
  | .mk n t v d p _, ds => .mk n t v d p ds

/-- The identity tuple `(name, type, version, dev)` used by `Package.__hash__`
and `Package.__eq__`. -/
abbrev PkgId := String × String × Option String × Bool

def Package.ident (p : Package) : PkgId := (p.name, p.type, p.version, p.dev)

/-- `Package.__eq__`: equality restricted to the four identity fields. -/
def Package.eqPy (p other : Package) : Bool :=
  p.name == other.name && p.type == other.type && p.version == other.version
    && p.dev == other.dev

/-- A pure model of the string hash feeding `hash((name, type, version, dev))`
in `Package.__hash__`: any function of those four fields is an adequate model
of the (implementation defined) Python hash. -/
def strHashModel (s : String) : Nat :=
  s.toList.foldl (fun a c => a * 256 + c.toNat) 7

def optHashModel : Option String → Nat
  | none => 3
  | some s => 5 + strHashModel s

/-- `Package.__hash__`: `hash((self.name, self.type, self.version, self.dev))`. -/
def Package.hashPy (p : Package) : Nat :=
  strHashModel p.name * 2 + optHashModel p.version * 3 + strHashModel p.type * 5
    + (if p.dev then 11 else 13)

/- ----------------------------------------------------------------- -/
/- Kernel-computable string primitives.                              -/
/- The library's `String.startsWith`, `splitOn`, `replace` and the    -/
/- `<` decision procedure are loop-based and do not reduce inside the -/
/- kernel, so the embedding uses these structurally recursive         -/
/- equivalents (same behavior on the data this core handles).         -/
/- ----------------------------------------------------------------- -/

def strStartsWith (s pre : String) : Bool :=
  pre.toList.isPrefixOf s.toList

def strEndsWith (s suf : String) : Bool :=
  suf.toList.reverse.isPrefixOf s.toList.reverse

/-- `s.splitOn sep` on char lists, fuelled for structural recursion. -/
def splitOnAux2 (sep : List Char) : Nat → List Char → List Char → List (List Char)
  | 0, acc, s => [acc.reverse ++ s]
  | _ + 1, acc, [] => [acc.reverse]
  | fuel + 1, acc, c :: cs =>
    if sep.isPrefixOf (c :: cs) then
      acc.reverse :: splitOnAux2 sep fuel [] (List.drop sep.length (c :: cs))
    else splitOnAux2 sep fuel (c :: acc) cs

def strSplitOn (s sep : String) : List String :=
  if sep = "" then [s]
  else (splitOnAux2 sep.toList (s.toList.length + 1) [] s.toList).map
    (fun l => String.mk l)

/-- `s.replace pat repl` on char lists, fuelled for structural recursion. -/
def replaceAux2 (pat repl : List Char) : Nat → List Char → List Char
  | 0, s => s
  | _ + 1, [] => []
  | fuel + 1, c :: cs =>
    if pat.isPrefixOf (c :: cs) then
      repl ++ replaceAux2 pat repl fuel (List.drop pat.length (c :: cs))
    else c :: replaceAux2 pat repl fuel cs

def strReplace (s pat repl : String) : String :=
  if pat = "" then s
  else String.mk (replaceAux2 pat.toList repl.toList (s.toList.length + 1) s.toList)

/-- Lexicographic `<` on strings via their characters. -/
def charListLt : List Char → List Char → Bool
  | [], [] => false
  | [], _ :: _ => true
  | _ :: _, [] => false
  | a :: as, b :: bs => if a = b then charListLt as bs else decide (a < b)

def strLtB (a b : String) : Bool := charListLt a.toList b.toList

/-- The request a manifest is generated for (external collaborator entity;
only `repo` and `ref` are read). -/
structure Request where
  repo : String
  ref : String
  deriving DecidableEq, Repr

/-- Python truthiness of an optional string: `None` and `""` are falsy. -/
def optTruthy : Option String → Bool
  | none => false
  | some s => s != ""

/-- `dependency.version and dependency.version.startswith(".")`. -/
def isLocalVersion (v : Option String) : Bool :=
  optTruthy v && strStartsWith (v.getD "") "."

/- ----------------------------------------------------------------- -/
/- Association-list helpers modelling Python dict operations.        -/
/- ----------------------------------------------------------------- -/

/-- Dict lookup: first entry with the given key. -/
def alFind {κ α : Type} [DecidableEq κ] (k : κ) : List (κ × α) → Option α
  | [] => none
  | (k', v) :: rest => if k' = k then some v else alFind k rest

/-- Dict item assignment for an existing key: replace the value in place. -/
def alSet {κ α : Type} [DecidableEq κ] (k : κ) (v : α) : List (κ × α) → List (κ × α)
  | [] => []
  | (k', v') :: rest => if k' = k then (k', v) :: rest else (k', v') :: alSet k v rest

/-- `dict.setdefault`: keep the entry when the key is present, append otherwise. -/
def alSetd {κ α : Type} [DecidableEq κ] (m : List (κ × α)) (k : κ) (v : α) :
    List (κ × α) :=
  if (alFind k m).isSome then m else m ++ [(k, v)]

/-- Dict assignment `d[k] = v`: replace in place when present, append otherwise. -/
def alPut {κ α : Type} [DecidableEq κ] (m : List (κ × α)) (k : κ) (v : α) :
    List (κ × α) :=
  if (alFind k m).isSome then alSet k v m else m ++ [(k, v)]

/-- Decidable list membership for `PkgId`s (used by the counting spec). -/
def idMem (x : PkgId) : List PkgId → Bool
  | [] => false
  | y :: ys => if y = x then true else idMem x ys

/- ----------------------------------------------------------------- -/
/- Path helpers.                                                     -/
/- ----------------------------------------------------------------- -/

/-- Modelled from the spec: `os.path.join(a, b)` for the relative paths this
core builds (absolute `b` wins, otherwise the components are joined with a
separator). -/
def pathJoin (a b : String) : String :=
  if strStartsWith b "/" then b
  else if a == "" then b
  else if strEndsWith a "/" then a ++ b
  else a ++ "/" ++ b

/-- Stack step of `normpath`: resolve `..` components of a relative path. -/
def normpathAux : List String → List String → List String
  | stack, [] => stack.reverse
  | stack, c :: rest =>
    if c == ".." then
      match stack with
      | [] => normpathAux [".."] rest
      | top :: s => if top == ".." then normpathAux (c :: top :: s) rest
                    else normpathAux s rest
    else normpathAux (c :: stack) rest

/-- Modelled from the spec: `os.path.normpath` on the relative paths this core
builds — drops empty and `.` components and resolves `..` against the stack. -/
def normpath (p : String) : String :=
  let comps := (strSplitOn p "/").filter (fun c => c != "" && c != ".")
  let r := normpathAux [] comps
  if r.isEmpty then "." else String.intercalate "/" r

/-- Modelled from the spec: `Path(p).relative_to(Path(base))` — `.` when they
are equal, the suffix when `base` is a path prefix, an error (`none`) otherwise. -/
def relativeTo (p base : String) : Option String :=
  if p == base then some "."
  else if strStartsWith p (base ++ "/") then some (p.drop (base.length + 1))
  else none

/-- Modelled from the spec: `gomod.match_parent_module(path, module_names)` —
the module name that is the longest exact path-prefix of `path` (equal, or
followed by a path separator), `none` when no candidate matches. -/
def isModuleParentOf (m path : String) : Bool :=
  m == path || strStartsWith path (m ++ "/")

/-- One candidate step of `match_parent_module`: keep the longer matching
module name. -/
def mpmStep (path : String) (best : Option String) (n : String) : Option String :=
  if isModuleParentOf n path then
    match best with
    | none => some n
    | some b => if n.length > b.length then some n else some b
  else best

def match_parent_module (path : String) (names : List String) : Option String :=
  names.foldl (mpmStep path) none

/- ----------------------------------------------------------------- -/
/- Purl codec (cachito/web/purl.py — modelled from the spec).        -/
/- ----------------------------------------------------------------- -/

/-- Minimal RFC 3986 percent-encoder for the characters the purl codec escapes. -/
def urlencodeChar (c : Char) : String :=
  if c == '/' then "%2F"
  else if c == '@' then "%40"
  else if c == ':' then "%3A"
  else if c == '#' then "%23"
  else if c == '?' then "%3F"
  else if c == '=' then "%3D"
  else if c == '&' then "%26"
  else if c == '+' then "%2B"
  else String.singleton c

def urlencode (s : String) : String :=
  String.join (s.toList.map urlencodeChar)

/-- The placeholder token substituted by `replace_parent_purl_placeholder`. -/
def parentPurlPlaceholder : String := "PARENT_PURL_PLACEHOLDER"

/-- Modelled from the spec: `replace_parent_purl_placeholder(dep_purl,
parent_purl)` — textual substitution of the placeholder token. -/
def replace_parent_purl_placeholder (dep_purl parent_purl : String) : String :=
  strReplace dep_purl parentPurlPlaceholder parent_purl

/-- A `#subpath` fragment, added only when the relative path is truthy. -/
def subpathFragment (rp : Option String) : String :=
  match rp with
  | none => ""
  | some r => if r == "" then "" else "#" ++ r

def dropScheme (url : String) : String :=
  match strSplitOn url "://" with
  | [] => url
  | [x] => x
  | _ :: r :: _ => r

def stripGitSuffix (s : String) : String :=
  if strEndsWith s ".git" then s.dropRight 4 else s

/-- Drop `user:password@` credentials from the host component. -/
def dropCreds (s : String) : String :=
  match strSplitOn s "/" with
  | [] => s
  | host :: rest =>
    let host' := (strSplitOn host "@").getLastD host
    String.intercalate "/" (host' :: rest)

/-- Modelled from the spec: `get_repo_name` (cachito/common/utils.py) — the
repository path of a VCS URL with scheme, credentials and `.git` stripped. -/
def get_repo_name (url : String) : String :=
  stripGitSuffix (dropCreds (dropScheme url))

/-- Modelled from the spec: `to_vcs_purl(name, repo_url, ref)` — forge purl for
recognized hosts, a generic purl with a `vcs_url` qualifier otherwise. -/
def to_vcs_purl (name repo_url ref : String) : String :=
  let hostPath := stripGitSuffix (dropCreds (dropScheme repo_url))
  if strStartsWith hostPath "github.com/" then
    "pkg:github/" ++ hostPath.drop 11 ++ "@" ++ ref
  else if strStartsWith hostPath "bitbucket.org/" then
    "pkg:bitbucket/" ++ hostPath.drop 14 ++ "@" ++ ref
  else
    "pkg:generic/" ++ name ++ "?vcs_url=" ++ urlencode (repo_url ++ "@" ++ ref)

/-- A `pkg:<forge>/<org>/<repo>@<commit>` purl from an `org/repo#commit` rest. -/
def forgePurl (forge rest : String) : Except String String :=
  match strSplitOn rest "#" with
  | [path, commit] => .ok ("pkg:" ++ forge ++ "/" ++ path ++ "@" ++ commit)
  | _ => .error ("Could not convert version " ++ rest ++ " to purl")

/-- npm / yarn version handling (modelled from the spec's case list). -/
def npmLikePurl (name v : String) : Except String String :=
  if strStartsWith v "github:" then forgePurl "github" (v.drop 7)
  else if strStartsWith v "gitlab:" then forgePurl "gitlab" (v.drop 7)
  else if strStartsWith v "bitbucket:" then forgePurl "bitbucket" (v.drop 10)
  else if strStartsWith v "file:" then
    .ok ("generic/" ++ name ++ "?file%3A" ++ urlencode (v.drop 5))
  else if (strSplitOn v "://").length > 1 then
    if (strSplitOn v "#").length > 1 then
      .ok ("pkg:generic/" ++ name ++ "?vcs_url=" ++ urlencode v)
    else if strStartsWith v "http" then
      .ok ("pkg:generic/" ++ name ++ "?download_url=" ++ urlencode v)
    else .error ("Unknown protocol in npm package version: " ++ v)
  else .ok ("pkg:npm/" ++ strReplace name "@" "%40" ++ "@" ++ v)

/-- `git+<url>@<ref>` versions (pip VCS requirements, rubygems git deps). -/
def gitReqPurl (name v : String) : Except String String :=
  let url := v.drop 4
  match strSplitOn url "@" with
  | [repo, ref] =>
    let hostPath := stripGitSuffix (dropScheme repo)
    if strStartsWith hostPath "github.com/" then
      .ok ("pkg:github/" ++ hostPath.drop 11 ++ "@" ++ ref)
    else if strStartsWith hostPath "bitbucket.org/" then
      .ok ("pkg:bitbucket/" ++ hostPath.drop 14 ++ "@" ++ ref)
    else .ok ("pkg:generic/" ++ name ++ "?vcs_url=" ++ urlencode url)
  | _ => .error ("Could not convert version " ++ v ++ " to purl")

/-- PEP-503-style pip name normalization per the spec: lowercase, each run of
`.`, `_` or space becomes a single hyphen. -/
def pipNormChars : List Char → Bool → List Char
  | [], _ => []
  | c :: cs, prevDash =>
    if c == '.' || c == '_' || c == ' ' then
      if prevDash then pipNormChars cs true else '-' :: pipNormChars cs true
    else c.toLower :: pipNormChars cs false

def pipNormalize (s : String) : String :=
  String.mk (pipNormChars s.toList false)

/-- pip download URLs: `download_url` qualifier, plus a `checksum` qualifier
when a `cachito_hash` fragment is present. -/
def pipDownloadPurl (name v : String) : Except String String :=
  let base := "pkg:generic/" ++ name ++ "?download_url=" ++ urlencode v
  match strSplitOn v "cachito_hash=" with
  | [_, h] => .ok (base ++ "&checksum=" ++ h)
  | _ => .ok base

/-- Modelled from the spec: `to_purl(package, relative_path)`
(cachito/web/purl.py) — purl of a non-top-level package, dispatching on
`package.type`.  Local (`.`-prefixed) go and rubygems versions produce a
placeholder purl carrying a subpath fragment, substituted later via
`replace_parent_purl_placeholder`. -/
def to_purl (package : Package) (relative_path : Option String) :
    Except String String :=
  let name := package.name
  if package.type == "gomod" || package.type == "go-package" then
    if !(optTruthy package.version) then .ok ("pkg:golang/" ++ urlencode name)
    else
      let v := package.version.getD ""
      if strStartsWith v "." then
        .ok (parentPurlPlaceholder ++ subpathFragment relative_path)
      else .ok ("pkg:golang/" ++ urlencode name ++ "@" ++ v)
  else if package.type == "npm" || package.type == "yarn" then
    match package.version with
    | none => .error ("Could not convert version None to purl")
    | some v => npmLikePurl name v
  else if package.type == "pip" then
    match package.version with
    | none => .error ("Could not convert version None to purl")
    | some v =>
      if strStartsWith v "git+" then gitReqPurl name v
      else if strStartsWith v "http" then pipDownloadPurl name v
      else .ok ("pkg:pypi/" ++ pipNormalize name ++ "@" ++ v)
  else if package.type == "rubygems" then
    match package.version with
    | none => .error ("Could not convert version None to purl")
    | some v =>
      if strStartsWith v "git+" then gitReqPurl name v
      else if strStartsWith v "." then
        .ok (parentPurlPlaceholder ++ subpathFragment relative_path)
      else .ok ("pkg:gem/" ++ name ++ "@" ++ v)
  else if package.type == "git-submodule" then
    match package.version with
    | none => .error ("Could not convert version None to purl")
    | some v =>
      match strSplitOn v "#" with
      | [repo, commit] =>
        let hostPath := stripGitSuffix (dropScheme repo)
        if strStartsWith hostPath "github.com/" then
          .ok ("pkg:github/" ++ hostPath.drop 11 ++ "@" ++ commit)
        else if strStartsWith hostPath "bitbucket.org/" then
          .ok ("pkg:bitbucket/" ++ hostPath.drop 14 ++ "@" ++ commit)
        else .ok ("pkg:generic/" ++ name ++ "?vcs_url=" ++ urlencode v)
      | _ => .error ("Could not convert version " ++ v ++ " to purl")
  else
    .error ("The PURL spec is not defined for " ++ package.type ++ " packages")

/-- Modelled from the spec: `to_top_level_purl(package, request, subpath)` —
go and git-submodule types delegate to `to_purl`; npm/pip/yarn/rubygems derive
a VCS purl from the request, with the subpath as a fragment. -/
def to_top_level_purl (package : Package) (request : Request)
    (subpath : Option String) : Except String String :=
  if package.type == "gomod" || package.type == "go-package"
      || package.type == "git-submodule" then
    to_purl package none
  else if package.type == "npm" || package.type == "pip"
      || package.type == "yarn" || package.type == "rubygems" then
    let repoName := (strSplitOn (get_repo_name request.repo) "/").getLastD ""
    .ok (to_vcs_purl repoName request.repo request.ref ++ subpathFragment subpath)
  else .error (package.type ++ " is not a valid top level package")

/- ----------------------------------------------------------------- -/
/- ContentManifest state.                                            -/
/- ----------------------------------------------------------------- -/

/-- A `_gopkg_data` working-map entry: `{name, purl, dependencies, sources}`;
`name` becomes `none` once `set_go_package_sources` has popped it. -/
structure GopkgEntry where
  name : Option String
  purl : String
  dependencies : List String
  sources : List String
  deriving DecidableEq, Repr

/-- A `_gomod_data` working-map entry: `{purl, dependencies}`. -/
structure GomodEntry where
  purl : String
  dependencies : List String
  deriving DecidableEq, Repr

/-- A standard working-map entry (also an `image_contents` entry):
`{purl, dependencies, sources}`; the `dependencies` and `sources` lists hold
the `purl` values of their `{"purl": ...}` members. -/
structure StdEntry where
  purl : String
  dependencies : List String
  sources : List String
  deriving DecidableEq, Repr

/-- A CycloneDX SBOM component `{type, name, version?, purl}`; `version = none`
models the key being absent. -/
structure SbomComponent where
  type : String
  name : String
  version : Option String
  purl : String
  deriving DecidableEq, Repr

/-- Build an SBOM component the way every `process_*` site does: start from
`{"type": "library", "name": name}`, add `version` only when truthy, add the
purl. -/
def mkSbomComponent (name : String) (version : Option String) (purl : String) :
    SbomComponent :=
  { type := "library", name := name,
    version := if optTruthy version then version else none, purl := purl }

/-- The per-call working state of a `ContentManifest` (its `_*_data` maps and
`_sbom_components` list). -/
structure CMState where
  gopkg_data : List (PkgId × GopkgEntry)
  gomod_data : List (String × GomodEntry)
  npm_data : List (PkgId × StdEntry)
  pip_data : List (PkgId × StdEntry)
  yarn_data : List (PkgId × StdEntry)
  rubygems_data : List (PkgId × StdEntry)
  gitsubmodule_data : List (PkgId × StdEntry)
  sbom_components : List SbomComponent
  deriving DecidableEq, Repr

def CMState.empty : CMState :=
  { gopkg_data := [], gomod_data := [], npm_data := [], pip_data := [],
    yarn_data := [], rubygems_data := [], gitsubmodule_data := [],
    sbom_components := [] }

/-- `to_json` resets every ICM working map (but not `_sbom_components`). -/
def CMState.resetIcm (st : CMState) : CMState :=
  { st with gopkg_data := [], gomod_data := [], npm_data := [], pip_data := [],
            yarn_data := [], rubygems_data := [], gitsubmodule_data := [] }

/-- `sbom_components_list` resets `_sbom_components` and `_gomod_data`. -/
def CMState.resetSbom (st : CMState) : CMState :=
  { st with sbom_components := [], gomod_data := [] }

/-- A content manifest associated with a Cachito request (class
`ContentManifest`). -/
structure ContentManifest where
  request : Request
  packages : List Package
  state : CMState

/-- `ContentManifest.__init__`: empty working maps. -/
def ContentManifest.init (request : Request) (packages : List Package) :
    ContentManifest :=
  { request := request, packages := packages, state := CMState.empty }

/-- `ContentManifest.go_modules_by_name` (a `cached_property`): module name to
module package, for the `gomod` packages of the request.  The gomod packages
are never mutated by any processing step, so recomputing the mapping is
observationally identical to the cached property. -/
def go_modules_by_name (packages : List Package) : List (String × Package) :=
  (packages.filter (fun p => p.type == "gomod")).foldl
    (fun m p => alPut m p.name p) []

/- ----------------------------------------------------------------- -/
/- Per-dependency processing (`process_*` methods).                  -/
/- ----------------------------------------------------------------- -/

/-- `ContentManifest._get_local_go_package_dep_purl(package, dependency)`.
Returns the purl together with the (possibly version-mutated) dependency.
`modules` is `self.go_modules_by_name`; `gomod_data` is `self._gomod_data`. -/
def get_local_go_package_dep_purl (modules : List (String × Package))
    (gomod_data : List (String × GomodEntry)) (package dependency : Package) :
    Except String (String × Package) :=
  if !(isLocalVersion dependency.version) then
    .error ("Package " ++ dependency.name ++ " has an invalid version for a local dependency")
  else
    let names := modules.map Prod.fst
    match match_parent_module dependency.name names with
    | some dep_module_name =>
      match alFind dep_module_name modules with
      | none => .error ("KeyError: " ++ dep_module_name)
      | some m => do
        let dep' := dependency.withVersion m.version
        let u ← to_purl dep' none
        .ok (u, dep')
    | none =>
      match match_parent_module package.name names with
      | none =>
        .error ("Could not find parent Go module for package: " ++ package.name)
      | some package_module_name =>
        let dep_normpath :=
          normpath (pathJoin package_module_name (dependency.version.getD ""))
        match match_parent_module dep_normpath names with
        | none =>
          .error ("Could not find parent Go module for package: " ++ dep_normpath)
        | some dep_module_name =>
          match relativeTo dep_normpath dep_module_name with
          | none => .error ("ValueError: " ++ dep_normpath
              ++ " is not relative to " ++ dep_module_name)
          | some rel =>
            match alFind dep_module_name gomod_data with
            | none => .error ("KeyError: " ++ dep_module_name)
            | some entry => do
              let dp ← to_purl dependency (some rel)
              .ok (replace_parent_purl_placeholder dp entry.purl, dependency)

/-- Append an `icm_source` to `self._gomod_data[module_name]["dependencies"]`
(`KeyError` when the key is absent). -/
def appendGomodDep (st : CMState) (module_name : String) (u : String) :
    Except String CMState :=
  match alFind module_name st.gomod_data with
  | none => .error ("KeyError: " ++ module_name)
  | some e =>
    let m := alSet module_name { e with dependencies := e.dependencies ++ [u] }
      st.gomod_data
    .ok { st with gomod_data := m }

/-- Append an `icm_dependency` to `self._gopkg_data[package]["dependencies"]`. -/
def appendGopkgDep (st : CMState) (k : PkgId) (u : String) :
    Except String CMState :=
  match alFind k st.gopkg_data with
  | none => .error "KeyError: package not in _gopkg_data"
  | some e =>
    let m := alSet k { e with dependencies := e.dependencies ++ [u] } st.gopkg_data
    .ok { st with gopkg_data := m }

/-- Append a component to `self._sbom_components`. -/
def appendSbom (st : CMState) (c : SbomComponent) : CMState :=
  { st with sbom_components := st.sbom_components ++ [c] }

/-- The parent-module / relative-path resolution at the top of
`process_gomod` (the local-dependency block of content_manifest.py, lines
95-109). -/
def gomodParentAndRel (gomod_data : List (String × GomodEntry))
    (package dependency : Package) :
    Except String (Option String × Option String) :=
  if isLocalVersion dependency.version then
    let dep_normpath :=
      normpath (pathJoin package.name (dependency.version.getD ""))
    let parent_module_name :=
      match_parent_module dep_normpath (gomod_data.map Prod.fst)
    if (alFind dependency.name gomod_data).isNone then
      match parent_module_name with
      | none =>
        .error "TypeError: argument should be a str, not NoneType"
      | some pm =>
        match relativeTo dep_normpath pm with
        | none => .error ("ValueError: " ++ dep_normpath
            ++ " is not relative to " ++ pm)
        | some rel => .ok (some pm, some rel)
    else .ok (parent_module_name, none)
  else .ok (some package.name, none)

/-- `ContentManifest.process_gomod(package, dependency, type)`. -/
def process_gomod (st : CMState) (package dependency : Package) (type : String) :
    Except String CMState :=
  if dependency.type == "gomod" then
    match gomodParentAndRel st.gomod_data package dependency with
    | .error e => .error e
    | .ok (parent_module_name, relpath) =>
      match parent_module_name with
      | none => .error "KeyError: None"
      | some pmn =>
        match alFind pmn st.gomod_data with
        | none => .error ("KeyError: " ++ pmn)
        | some parentEntry => do
          let dp ← to_purl dependency relpath
          let dep_purl := replace_parent_purl_placeholder dp parentEntry.purl
          if type == "icm" then appendGomodDep st package.name dep_purl
          else if type == "sbom" then
            .ok (appendSbom st
              (mkSbomComponent dependency.name dependency.version dep_purl))
          else .ok st
  else .ok st

/-- `ContentManifest.process_go_package(package, dependency, type)`.  Returns
the (possibly version-mutated) dependency alongside the new state; `modules`
is `self.go_modules_by_name`. -/
def process_go_package (modules : List (String × Package)) (st : CMState)
    (package dependency : Package) (type : String) :
    Except String (Package × CMState) :=
  if dependency.type == "go-package" then do
    let (dep_purl, dep') ←
      if isLocalVersion dependency.version then
        get_local_go_package_dep_purl modules st.gomod_data package dependency
      else do
        let u ← to_purl dependency none
        pure (u, dependency)
    if type == "icm" then do
      let st' ← appendGopkgDep st package.ident dep_purl
      .ok (dep', st')
    else if type == "sbom" then
      .ok (dep', appendSbom st (mkSbomComponent dep'.name dep'.version dep_purl))
    else .ok (dep', st)
  else .ok (dependency, st)

/-- `getattr(self, f"_{pkg_type}_data")` for the standard-package maps. -/
def stdDataOf (st : CMState) (pkg_type : String) :
    Except String (List (PkgId × StdEntry)) :=
  if pkg_type == "npm" then .ok st.npm_data
  else if pkg_type == "pip" then .ok st.pip_data
  else if pkg_type == "yarn" then .ok st.yarn_data
  else if pkg_type == "rubygems" then .ok st.rubygems_data
  else .error ("AttributeError: _" ++ pkg_type ++ "_data")

def setStdData (st : CMState) (pkg_type : String)
    (m : List (PkgId × StdEntry)) : CMState :=
  if pkg_type == "npm" then { st with npm_data := m }
  else if pkg_type == "pip" then { st with pip_data := m }
  else if pkg_type == "yarn" then { st with yarn_data := m }
  else if pkg_type == "rubygems" then { st with rubygems_data := m }
  else st

/-- `ContentManifest._process_standard_package(pkg_type, package, dependency)`:
append the dependency purl to the entry's `sources`, and to its `dependencies`
unless the dependency is `dev`. -/
def process_standard_package (st : CMState) (pkg_type : String)
    (package dependency : Package) : Except String CMState := do
  let data ← stdDataOf st pkg_type
  let u ← to_purl dependency none
  match alFind package.ident data with
  | none => .error "KeyError: package not in working map"
  | some e =>
    .ok (setStdData st pkg_type
      (alSet package.ident
        { e with sources := e.sources ++ [u],
                 dependencies :=
                   if dependency.dev then e.dependencies
                   else e.dependencies ++ [u] }
        data))

/-- `ContentManifest._process_standard_package_sbom(dependency)`. -/
def process_standard_package_sbom (st : CMState) (dependency : Package) :
    Except String CMState := do
  let u ← to_purl dependency none
  .ok (appendSbom st (mkSbomComponent dependency.name dependency.version u))

/-- `ContentManifest.process_npm_package(package, dependency, type)`. -/
def process_npm_package (st : CMState) (package dependency : Package)
    (type : String) : Except String CMState :=
  if dependency.type == "npm" then
    if type == "icm" then process_standard_package st "npm" package dependency
    else if type == "sbom" then process_standard_package_sbom st dependency
    else .ok st
  else .ok st

/-- `ContentManifest.process_pip_package(package, dependency, type)`. -/
def process_pip_package (st : CMState) (package dependency : Package)
    (type : String) : Except String CMState :=
  if dependency.type == "pip" then
    if type == "icm" then process_standard_package st "pip" package dependency
    else if type == "sbom" then process_standard_package_sbom st dependency
    else .ok st
  else .ok st

/-- `ContentManifest.process_yarn_package(package, dependency, type)`. -/
def process_yarn_package (st : CMState) (package dependency : Package)
    (type : String) : Except String CMState :=
  if dependency.type == "yarn" then
    if type == "icm" then process_standard_package st "yarn" package dependency
    else if type == "sbom" then process_standard_package_sbom st dependency
    else .ok st
  else .ok st

/-- `ContentManifest.process_rubygems_package(package, dependency, type)`. -/
def process_rubygems_package (request : Request) (st : CMState)
    (package dependency : Package) (type : String) : Except String CMState :=
  if dependency.type == "rubygems" then do
    let parent_package_name :=
      (strSplitOn (get_repo_name request.repo) "/").getLastD ""
    let parent_purl := to_vcs_purl parent_package_name request.repo request.ref
    let dp ← to_purl dependency package.path
    let dep_purl := replace_parent_purl_placeholder dp parent_purl
    if type == "icm" then
      match alFind package.ident st.rubygems_data with
      | none => .error "KeyError: package not in _rubygems_data"
      | some e =>
        let m := alSet package.ident
          { e with sources := e.sources ++ [dep_purl],
                   dependencies := e.dependencies ++ [dep_purl] }
          st.rubygems_data
        .ok { st with rubygems_data := m }
    else if type == "sbom" then
      .ok (appendSbom st
        (mkSbomComponent dependency.name dependency.version dep_purl))
    else .ok st
  else .ok st

/- ----------------------------------------------------------------- -/
/- The two passes over `self.packages`.                              -/
/- ----------------------------------------------------------------- -/

/-- The per-dependency dispatch of `to_json` / `sbom_components_list` (the
body of the second loop): dispatch on the owning package's type. -/
def processDep (request : Request) (modules : List (String × Package))
    (st : CMState) (package dependency : Package) (type : String) :
    Except String (Package × CMState) :=
  if package.type == "go-package" then
    process_go_package modules st package dependency type
  else if package.type == "gomod" then do
    let st' ← process_gomod st package dependency type
    .ok (dependency, st')
  else if package.type == "npm" then do
    let st' ← process_npm_package st package dependency type
    .ok (dependency, st')
  else if package.type == "pip" then do
    let st' ← process_pip_package st package dependency type
    .ok (dependency, st')
  else if package.type == "yarn" then do
    let st' ← process_yarn_package st package dependency type
    .ok (dependency, st')
  else if package.type == "rubygems" then do
    let st' ← process_rubygems_package request st package dependency type
    .ok (dependency, st')
  else .ok (dependency, st)

/-- Process all dependencies of one package, returning the rebuilt dependency
list (reflecting in-place mutation) and the new state. -/
def processDeps (request : Request) (modules : List (String × Package))
    (type : String) (package : Package) :
    CMState → List Package → Except String (List Package × CMState)
  | st, [] => .ok ([], st)
  | st, d :: ds => do
    let (d', st') ← processDep request modules st package d type
    let (ds', st'') ← processDeps request modules type package st' ds
    .ok (d' :: ds', st'')

/-- The second pass of `to_json` / `sbom_components_list`: process every
top-level package's dependencies. -/
def processAll (request : Request) (modules : List (String × Package))
    (type : String) :
    CMState → List Package → Except String (List Package × CMState)
  | st, [] => .ok ([], st)
  | st, p :: ps => do
    let (ds', st') ← processDeps request modules type p st p.dependencies
    let (ps', st'') ← processAll request modules type st' ps
    .ok (p.withDependencies ds' :: ps', st'')

/- ----------------------------------------------------------------- -/
/- Seeding passes.                                                   -/
/- ----------------------------------------------------------------- -/

/-- One step of `to_json`'s first loop: seed the per-type working map for a
top-level package (packages of unsupported types are skipped with a debug
note). -/
def seedIcmPackage (request : Request) (st : CMState) (package : Package) :
    Except String CMState :=
  if package.type == "go-package" then do
    let purl ← to_top_level_purl package request package.path
    let m := alSetd st.gopkg_data package.ident
      { name := some package.name, purl := purl, dependencies := [], sources := [] }
    .ok { st with gopkg_data := m }
  else if package.type == "gomod" then do
    let purl ← to_top_level_purl package request package.path
    let m := alSetd st.gomod_data package.name { purl := purl, dependencies := [] }
    .ok { st with gomod_data := m }
  else if package.type == "npm" || package.type == "pip"
      || package.type == "yarn" || package.type == "rubygems" then do
    let purl ← to_top_level_purl package request package.path
    let data ← stdDataOf st package.type
    let m := alSetd data package.ident
      { purl := purl, dependencies := [], sources := [] }
    .ok (setStdData st package.type m)
  else if package.type == "git-submodule" then do
    let purl ← to_top_level_purl package request package.path
    let m := alSetd st.gitsubmodule_data package.ident
      { purl := purl, dependencies := [], sources := [] }
    .ok { st with gitsubmodule_data := m }
  else .ok st

def seedIcm (request : Request) :
    CMState → List Package → Except String CMState
  | st, [] => .ok st
  | st, p :: ps => do
    let st' ← seedIcmPackage request st p
    seedIcm request st' ps

/-- The SBOM-supported package types, in the order of the membership test in
`sbom_components_list`. -/
def sbomSupportedType (t : String) : Bool :=
  t == "go-package" || t == "gomod" || t == "npm" || t == "pip" || t == "yarn"
    || t == "rubygems" || t == "git-submodule"

/-- One step of `sbom_components_list`'s first loop: emit one `library`
component per supported-type package and seed `_gomod_data` for gomod
packages. -/
def seedSbomPackage (request : Request) (st : CMState) (package : Package) :
    Except String CMState :=
  if sbomSupportedType package.type then do
    let purl ← to_top_level_purl package request package.path
    let st' :=
      if package.type == "gomod" then
        let m := alSetd st.gomod_data package.name
          { purl := purl, dependencies := [] }
        { st with gomod_data := m }
      else st
    .ok (appendSbom st' (mkSbomComponent package.name package.version purl))
  else .ok st

def seedSbom (request : Request) :
    CMState → List Package → Except String CMState
  | st, [] => .ok st
  | st, p :: ps => do
    let st' ← seedSbomPackage request st p
    seedSbom request st' ps

/- ----------------------------------------------------------------- -/
/- `set_go_package_sources`.                                         -/
/- ----------------------------------------------------------------- -/

/-- One `_gopkg_data` entry of `set_go_package_sources`: pop the `name` key,
find the owning module (exact name, else longest parent match) and copy its
`dependencies` into `sources`; warn and continue when there is none.  Returns
the updated entry and the emitted warnings. -/
def sgpsEntry (gomod_data : List (String × GomodEntry)) :
    PkgId × GopkgEntry → Except String ((PkgId × GopkgEntry) × List String)
  | (k, e) =>
    match e.name with
    | none => .error "KeyError: name"
    | some pkg_name =>
      let e' : GopkgEntry := { e with name := none }
      let module_name :=
        if (alFind pkg_name gomod_data).isSome then some pkg_name
        else match_parent_module pkg_name (gomod_data.map Prod.fst)
      match module_name with
      | some mn =>
        match alFind mn gomod_data with
        | none => .error ("KeyError: " ++ mn)
        | some m => .ok ((k, { e' with sources := m.dependencies }), [])
      | none => .ok ((k, e'), ["Could not find a Go module for " ++ e.purl])

def sgpsList (gomod_data : List (String × GomodEntry)) :
    List (PkgId × GopkgEntry) →
    Except String (List (PkgId × GopkgEntry) × List String)
  | [] => .ok ([], [])
  | x :: rest => do
    let (x', w) ← sgpsEntry gomod_data x
    let (rest', ws) ← sgpsList gomod_data rest
    .ok (x' :: rest', w ++ ws)

/-- `ContentManifest.set_go_package_sources()`. -/
def set_go_package_sources (st : CMState) :
    Except String (CMState × List String) := do
  let (d, ws) ← sgpsList st.gomod_data st.gopkg_data
  .ok ({ st with gopkg_data := d }, ws)

/- ----------------------------------------------------------------- -/
/- The ICM document, `deep_sort_icm` and `generate_icm`.             -/
/- ----------------------------------------------------------------- -/

structure IcmMetadata where
  icm_version : Nat
  icm_spec : String
  image_layer_index : Int
  deriving DecidableEq, Repr

structure Icm where
  metadata : IcmMetadata
  image_contents : List StdEntry
  deriving DecidableEq, Repr

def JSON_SCHEMA_URL : String :=
  "https://raw.githubusercontent.com/containerbuildsystem/atomic-reactor/f4abcfdaf8247a6b074f94fa84f3846f82d781c6/atomic_reactor/schemas/content_manifest.json"

/-- The `metadata` of `BASE_ICM`: `{icm_version: 1, icm_spec: <url>,
image_layer_index: -1}`. -/
def baseIcmMetadata : IcmMetadata :=
  { icm_version := 1, icm_spec := JSON_SCHEMA_URL, image_layer_index := -1 }

def insertLe {α : Type} (le : α → α → Bool) (a : α) : List α → List α
  | [] => [a]
  | b :: bs => if le a b then a :: b :: bs else b :: insertLe le a bs

def sortLe {α : Type} (le : α → α → Bool) : List α → List α
  | [] => []
  | a :: as => insertLe le a (sortLe le as)

def strLe (a b : String) : Bool := strLtB a b || a == b

/-- Lexicographic order on string lists, used to order serialized
`[{"purl": ...}]` lists. -/
def strListLe : List String → List String → Bool
  | [], _ => true
  | _ :: _, [] => false
  | a :: as, b :: bs => if a == b then strListLe as bs else strLtB a b

/-- Order of serialized `image_contents` entries: compare by sorted key order
(`dependencies`, `purl`, `sources`). -/
def stdEntryLe (x y : StdEntry) : Bool :=
  if x.dependencies == y.dependencies then
    if x.purl == y.purl then strListLe x.sources y.sources
    else strLtB x.purl y.purl
  else strListLe x.dependencies y.dependencies

/-- Modelled from the spec: `deep_sort_icm` (cachito/web/utils.py) — sorts all
mapping keys (a no-op on the structured document) and every list of mappings;
`image_contents` entries are ordered by their key-sorted serialization. -/
def sortStdEntry (e : StdEntry) : StdEntry :=
  { e with dependencies := sortLe strLe e.dependencies,
           sources := sortLe strLe e.sources }

def deep_sort_icm (icm : Icm) : Icm :=
  { icm with image_contents := sortLe stdEntryLe (icm.image_contents.map sortStdEntry) }

/-- `ContentManifest.generate_icm(image_contents)`. -/
def generate_icm (image_contents : List StdEntry) : Icm :=
  deep_sort_icm { metadata := baseIcmMetadata, image_contents := image_contents }

/-- A `_gopkg_data` entry as an `image_contents` entry.  When `to_json`
assembles `top_level_packages`, every gopkg entry has had its `name` key
popped by `set_go_package_sources`, so the dict is `{purl, dependencies,
sources}`. -/
def GopkgEntry.toStd (e : GopkgEntry) : StdEntry :=
  { purl := e.purl, dependencies := e.dependencies, sources := e.sources }

/-- `top_level_packages` of `to_json`: go-package, npm, pip, yarn, rubygems and
git-submodule entries, in this fixed order. -/
def topLevelEntries (st : CMState) : List StdEntry :=
  st.gopkg_data.map (fun x => x.2.toStd) ++ st.npm_data.map Prod.snd
    ++ st.pip_data.map Prod.snd ++ st.yarn_data.map Prod.snd
    ++ st.rubygems_data.map Prod.snd ++ st.gitsubmodule_data.map Prod.snd

/- ----------------------------------------------------------------- -/
/- The two entry points.                                             -/
/- ----------------------------------------------------------------- -/

/-- `ContentManifest.to_json()` on explicit state: reset the ICM maps, seed
them from the top-level packages, process every dependency, adjust go-package
sources and assemble the sorted document.  Also returns the packages as left
behind by processing (reflecting in-place dependency mutation) and the final
working state. -/
def toJsonCore (request : Request) (packages : List Package) (st0 : CMState) :
    Except String (Icm × List Package × CMState) := do
  let st := st0.resetIcm
  let modules := go_modules_by_name packages
  let st ← seedIcm request st packages
  let (pkgs', st) ← processAll request modules "icm" st packages
  let (st, _warnings) ← set_go_package_sources st
  .ok (generate_icm (topLevelEntries st), pkgs', st)

/-- `ContentManifest.to_json()`. -/
def ContentManifest.to_json (cm : ContentManifest) :
    Except String (Icm × ContentManifest) := do
  let (icm, pkgs', st) ← toJsonCore cm.request cm.packages cm.state
  .ok (icm, { cm with packages := pkgs', state := st })

/-- `ContentManifest.sbom_components_list()` on explicit state. -/
def sbomCore (request : Request) (packages : List Package) (st0 : CMState) :
    Except String (List SbomComponent × List Package × CMState) := do
  let st := st0.resetSbom
  let modules := go_modules_by_name packages
  let st ← seedSbom request st packages
  let (pkgs', st) ← processAll request modules "sbom" st packages
  .ok (st.sbom_components, pkgs', st)

/-- `ContentManifest.sbom_components_list()`. -/
def ContentManifest.sbom_components_list (cm : ContentManifest) :
    Except String (List SbomComponent × ContentManifest) := do
  let (comps, pkgs', st) ← sbomCore cm.request cm.packages cm.state
  .ok (comps, { cm with packages := pkgs', state := st })

/- ----------------------------------------------------------------- -/
/- Characterizations used by the theorems.                           -/
/- ----------------------------------------------------------------- -/

/-- The package types that contribute an `image_contents` entry. -/
def icmSupportedType (t : String) : Bool :=
  t == "go-package" || t == "npm" || t == "pip" || t == "yarn"
    || t == "rubygems" || t == "git-submodule"

/-- Identity-distinct supported top-level packages, in first-seen order. -/
def dedupIdsAux (seen : List PkgId) : List Package → List PkgId
  | [] => seen
  | p :: ps =>
    if icmSupportedType p.type && !(idMem p.ident seen) then
      dedupIdsAux (seen ++ [p.ident]) ps
    else dedupIdsAux seen ps

def distinctSupportedIds (packages : List Package) : List PkgId :=
  dedupIdsAux [] packages

/-- The only input mutation performed by dependency processing: a local
go-package dependency whose name matches a known module gets its version
overwritten with that module's version. -/
def normDep (modules : List (String × Package)) (package dependency : Package) :
    Package :=
  if package.type == "go-package" && dependency.type == "go-package"
      && isLocalVersion dependency.version then
    match match_parent_module dependency.name (modules.map Prod.fst) with
    | some m =>
      match alFind m modules with
      | some md => dependency.withVersion md.version
      | none => dependency
    | none => dependency
  else dependency

def normPkg (modules : List (String × Package)) (p : Package) : Package :=
  p.withDependencies (p.dependencies.map (normDep modules p))

def mapNorm (modules : List (String × Package)) (packages : List Package) :
    List Package :=
  packages.map (normPkg modules)

/- ----------------------------------------------------------------- -/
/- Infrastructure lemmas.                                            -/
/- ----------------------------------------------------------------- -/

@[simp] theorem except_bind_ok {ε α β : Type} (a : α) (f : α → Except ε β) :
    (Except.ok a >>= f) = f a := rfl

@[simp] theorem except_bind_error {ε α β : Type} (e : ε) (f : α → Except ε β) :
    ((Except.error e : Except ε α) >>= f) = .error e := rfl

@[simp] theorem except_pure_eq {ε α : Type} (a : α) :
    (pure a : Except ε α) = .ok a := rfl

theorem alFind_isSome_of_mem_keys {κ α : Type} [DecidableEq κ] {k : κ}
    {m : List (κ × α)} (h : k ∈ m.map Prod.fst) : (alFind k m).isSome := by
  induction m with
  | nil => simp at h
  | cons x xs ih =>
    obtain ⟨k', v⟩ := x
    simp only [List.map_cons, List.mem_cons] at h
    by_cases hk : k' = k
    · simp [alFind, hk]
    · rcases h with h | h
      · exact absurd h.symm hk
      · simp only [alFind, if_neg hk]
        exact ih h

theorem alSet_keys {κ α : Type} [DecidableEq κ] (k : κ) (v : α) (m : List (κ × α)) :
    (alSet k v m).map Prod.fst = m.map Prod.fst := by
  induction m with
  | nil => rfl
  | cons x xs ih =>
    obtain ⟨k', v'⟩ := x
    by_cases hk : k' = k <;> simp [alSet, hk, ih]

theorem alFind_alSet_self {κ α : Type} [DecidableEq κ] (k : κ) (v : α)
    {m : List (κ × α)} (h : (alFind k m).isSome) :
    alFind k (alSet k v m) = some v := by
  induction m with
  | nil => simp [alFind] at h
  | cons x xs ih =>
    obtain ⟨k', v'⟩ := x
    by_cases hk : k' = k
    · simp [alSet, alFind, hk]
    · simp only [alFind, if_neg hk] at h
      simp only [alSet, if_neg hk, alFind, if_neg hk]
      exact ih h

theorem alFind_alSet_ne {κ α : Type} [DecidableEq κ] {k k' : κ} (h : k' ≠ k)
    (v : α) (m : List (κ × α)) : alFind k' (alSet k v m) = alFind k' m := by
  induction m with
  | nil => rfl
  | cons x xs ih =>
    obtain ⟨k'', v'⟩ := x
    by_cases hk : k'' = k
    · have hne : k'' ≠ k' := fun hh => h (hh.symm.trans hk)
      simp only [alSet, if_pos hk, alFind, if_neg hne]
    · simp only [alSet, if_neg hk, alFind]
      by_cases hk' : k'' = k'
      · simp [hk']
      · simp [hk', ih]

theorem insertLe_length {α : Type} (le : α → α → Bool) (a : α) (l : List α) :
    (insertLe le a l).length = l.length + 1 := by
  induction l with
  | nil => rfl
  | cons b bs ih => cases h : le a b <;> simp [insertLe, h, ih]

theorem sortLe_length {α : Type} (le : α → α → Bool) (l : List α) :
    (sortLe le l).length = l.length := by
  induction l with
  | nil => rfl
  | cons a as ih => simp [sortLe, insertLe_length, ih]

theorem mpmStep_some (path : String) (best : Option String) (n b : String)
    (h : mpmStep path best n = some b) : best = some b ∨ b = n := by
  cases best with
  | none =>
    by_cases hp : isModuleParentOf n path = true
    · simp only [mpmStep, if_pos hp] at h
      right; exact (Option.some.inj h).symm
    · simp only [mpmStep, if_neg hp] at h
      left; exact h
  | some c =>
    by_cases hp : isModuleParentOf n path = true
    · simp only [mpmStep, if_pos hp] at h
      by_cases hl : n.length > c.length
      · rw [if_pos hl] at h
        right; exact (Option.some.inj h).symm
      · rw [if_neg hl] at h
        left; exact h
    · simp only [mpmStep, if_neg hp] at h
      left; exact h

theorem mpm_fold_mem (path : String) :
    ∀ (names : List String) (best : Option String) (b : String),
      names.foldl (mpmStep path) best = some b → best = some b ∨ b ∈ names := by
  intro names
  induction names with
  | nil => intro best b h; left; exact h
  | cons n ns ih =>
    intro best b h
    rw [List.foldl_cons] at h
    rcases ih (mpmStep path best n) b h with h' | h'
    · rcases mpmStep_some path best n b h' with h'' | h''
      · left; exact h''
      · right; simp [h'']
    · right; simp [h']

theorem mpmStep_parent (path : String) (best : Option String) (n b : String)
    (hb : ∀ c, best = some c → isModuleParentOf c path = true)
    (h : mpmStep path best n = some b) : isModuleParentOf b path = true := by
  cases best with
  | none =>
    by_cases hp : isModuleParentOf n path = true
    · simp only [mpmStep, if_pos hp] at h
      rwa [Option.some.inj h] at hp
    · simp only [mpmStep, if_neg hp] at h
      exact hb b h
  | some c =>
    by_cases hp : isModuleParentOf n path = true
    · simp only [mpmStep, if_pos hp] at h
      by_cases hl : n.length > c.length
      · rw [if_pos hl] at h
        rwa [Option.some.inj h] at hp
      · rw [if_neg hl] at h
        exact hb b h
    · simp only [mpmStep, if_neg hp] at h
      exact hb b h

theorem mpm_fold_parent (path : String) :
    ∀ (names : List String) (best : Option String) (b : String),
      (∀ c, best = some c → isModuleParentOf c path = true) →
      names.foldl (mpmStep path) best = some b →
      isModuleParentOf b path = true := by
  intro names
  induction names with
  | nil => intro best b hb h; exact hb b h
  | cons n ns ih =>
    intro best b hb h
    rw [List.foldl_cons] at h
    exact ih (mpmStep path best n) b
      (fun c hc => mpmStep_parent path best n c hb hc) h

theorem match_parent_module_mem {path : String} {names : List String}
    {m : String} (h : match_parent_module path names = some m) : m ∈ names := by
  rcases mpm_fold_mem path names none m h with h' | h'
  · exact absurd h' (by simp)
  · exact h'

theorem match_parent_module_parent {path : String} {names : List String}
    {m : String} (h : match_parent_module path names = some m) :
    isModuleParentOf m path = true :=
  mpm_fold_parent path names none m (by simp) h

theorem relativeTo_isSome_of_parent {p m : String}
    (h : isModuleParentOf m p = true) : (relativeTo p m).isSome := by
  unfold isModuleParentOf at h
  simp only [Bool.or_eq_true, beq_iff_eq] at h
  unfold relativeTo
  rcases h with h | h
  · subst h; simp
  · by_cases he : (p == m) = true
    · simp [he]
    · simp [he, h]

/- ----------------------------------------------------------------- -/
/- C3: Package identity.                                             -/
/- ----------------------------------------------------------------- -/

/-- C3: Package equality and hashing are determined exactly by the four fields
(name, type, version, dev): two Package values agreeing on these four fields
are equal (and hash equal) regardless of their path and dependencies fields,
and two Package values differing in any of the four fields are unequal. -/
theorem c3_package_identity_by_four_fields :
    (∀ p q : Package, Package.eqPy p q = true ↔
        (p.name = q.name ∧ p.type = q.type ∧ p.version = q.version
          ∧ p.dev = q.dev))
  ∧ (∀ n t v d path₁ deps₁ path₂ deps₂,
        Package.eqPy (.mk n t v d path₁ deps₁) (.mk n t v d path₂ deps₂) = true
      ∧ Package.hashPy (.mk n t v d path₁ deps₁)
          = Package.hashPy (.mk n t v d path₂ deps₂)) := by
  refine ⟨fun p q => ?_, fun n t v d p₁ d₁ p₂ d₂ => ⟨?_, rfl⟩⟩
  · unfold Package.eqPy
    simp [and_assoc]
  · simp [Package.eqPy, Package.name, Package.type, Package.version, Package.dev]

/- ----------------------------------------------------------------- -/
/- C10: cross-type dependencies are skipped.                         -/
/- ----------------------------------------------------------------- -/

/-- C10: In both to_json() and sbom_components_list(), a dependency whose type
differs from its owning top-level package's type is skipped entirely: the
per-type processors guard on the dependency's type, so the dispatch returns
the dependency and the state unchanged, in every mode. -/
theorem c10_cross_type_dependency_skipped
    (request : Request) (modules : List (String × Package)) (st : CMState)
    (package dependency : Package) (type : String)
    (h : dependency.type ≠ package.type) :
    processDep request modules st package dependency type = .ok (dependency, st) := by
  by_cases h1 : package.type = "go-package"
  · have hne : dependency.type ≠ "go-package" := by rw [h1] at h; exact h
    simp [processDep, process_go_package, h1, hne]
  · by_cases h2 : package.type = "gomod"
    · have hne : dependency.type ≠ "gomod" := by rw [h2] at h; exact h
      simp [processDep, process_gomod, h1, h2, hne]
    · by_cases h3 : package.type = "npm"
      · have hne : dependency.type ≠ "npm" := by rw [h3] at h; exact h
        simp [processDep, process_npm_package, h1, h2, h3, hne]
      · by_cases h4 : package.type = "pip"
        · have hne : dependency.type ≠ "pip" := by rw [h4] at h; exact h
          simp [processDep, process_pip_package, h1, h2, h3, h4, hne]
        · by_cases h5 : package.type = "yarn"
          · have hne : dependency.type ≠ "yarn" := by rw [h5] at h; exact h
            simp [processDep, process_yarn_package, h1, h2, h3, h4, h5, hne]
          · by_cases h6 : package.type = "rubygems"
            · have hne : dependency.type ≠ "rubygems" := by rw [h6] at h; exact h
              simp [processDep, process_rubygems_package, h1, h2, h3, h4, h5, h6,
                hne]
            · simp [processDep, h1, h2, h3, h4, h5, h6]

def c10req : Request := { repo := "r", ref := "c" }

def c10pkg : Package := .mk "a" "gomod" none false none []

def c10dep : Package := .mk "b" "go-package" none false none []

theorem c10_witness :
    processDep c10req [] CMState.empty c10pkg c10dep "icm"
      = .ok (c10dep, CMState.empty) :=
  c10_cross_type_dependency_skipped c10req [] CMState.empty c10pkg c10dep "icm"
    (by decide)

/- ----------------------------------------------------------------- -/
/- C2: dev-dependency exclusion for npm/pip/yarn.                    -/
/- ----------------------------------------------------------------- -/

/-- C2: For every npm, pip or yarn top-level package processed by to_json(),
every dependency of the same type is appended to the owning entry's sources
list, and appended to the owning entry's dependencies list if and only if its
dev flag is false: the updated working-map entry has `sources ++ [purl]` and
`dependencies ++ [purl]` exactly when `dev` is false, so a dev=true dependency
appears in sources but never in dependencies. -/
theorem c2_standard_dev_dependency_exclusion
    (st : CMState) (package dependency : Package) (e : StdEntry) (u : String)
    (hu : to_purl dependency none = .ok u) :
    (dependency.type = "npm" → alFind package.ident st.npm_data = some e →
      ∃ st', process_npm_package st package dependency "icm" = .ok st' ∧
        alFind package.ident st'.npm_data
          = some { purl := e.purl,
                   dependencies := if dependency.dev then e.dependencies
                                   else e.dependencies ++ [u],
                   sources := e.sources ++ [u] })
  ∧ (dependency.type = "pip" → alFind package.ident st.pip_data = some e →
      ∃ st', process_pip_package st package dependency "icm" = .ok st' ∧
        alFind package.ident st'.pip_data
          = some { purl := e.purl,
                   dependencies := if dependency.dev then e.dependencies
                                   else e.dependencies ++ [u],
                   sources := e.sources ++ [u] })
  ∧ (dependency.type = "yarn" → alFind package.ident st.yarn_data = some e →
      ∃ st', process_yarn_package st package dependency "icm" = .ok st' ∧
        alFind package.ident st'.yarn_data
          = some { purl := e.purl,
                   dependencies := if dependency.dev then e.dependencies
                                   else e.dependencies ++ [u],
                   sources := e.sources ++ [u] }) := by
  refine ⟨fun ht he => ?_, fun ht he => ?_, fun ht he => ?_⟩ <;>
  · simp [process_npm_package, process_pip_package, process_yarn_package,
      process_standard_package, stdDataOf, setStdData, ht, hu, he]
    rw [alFind_alSet_self]
    exact Option.isSome_iff_exists.mpr ⟨e, he⟩

def c2pkg : Package := .mk "app" "npm" (some "1.0") false none []

def c2dep : Package := .mk "lodash" "npm" (some "4.0") true none []

def c2st : CMState :=
  { CMState.empty with
      npm_data := [(c2pkg.ident, { purl := "p", dependencies := [], sources := [] })] }

theorem c2_witness :
    ∃ st', process_npm_package c2st c2pkg c2dep "icm" = .ok st' ∧
      alFind c2pkg.ident st'.npm_data
        = some { purl := "p",
                 dependencies := if c2dep.dev then ([] : List String)
                                 else [] ++ ["pkg:npm/lodash@4.0"],
                 sources := [] ++ ["pkg:npm/lodash@4.0"] } :=
  (c2_standard_dev_dependency_exclusion c2st c2pkg c2dep
    { purl := "p", dependencies := [], sources := [] } "pkg:npm/lodash@4.0"
    (by rfl)).1 rfl rfl

/- ----------------------------------------------------------------- -/
/- C9: rubygems dependencies land in both lists, dev ignored.        -/
/- ----------------------------------------------------------------- -/

/-- C9: In to_json(), every rubygems dependency of a rubygems top-level
package — including dev=true ones — is appended to both the owning entry's
dependencies and sources lists, and the dev flag has no effect on rubygems
processing at all. -/
theorem c9_rubygems_dev_included
    (request : Request) (st : CMState) (package dependency : Package)
    (e : StdEntry) (u : String)
    (hu : to_purl dependency package.path = .ok u) :
    (dependency.type = "rubygems" →
      alFind package.ident st.rubygems_data = some e →
      ∃ st' du, process_rubygems_package request st package dependency "icm"
          = .ok st' ∧
        alFind package.ident st'.rubygems_data
          = some { purl := e.purl, dependencies := e.dependencies ++ [du],
                   sources := e.sources ++ [du] })
  ∧ (∀ n t v d₁ d₂ pa ds mode,
      process_rubygems_package request st package (.mk n t v d₁ pa ds) mode
        = process_rubygems_package request st package (.mk n t v d₂ pa ds) mode) := by
  constructor
  · intro ht he
    simp [process_rubygems_package, ht, hu, he]
    refine ⟨replace_parent_purl_placeholder u
      (to_vcs_purl ((strSplitOn (get_repo_name request.repo) "/").getLast?.getD "")
        request.repo request.ref), ?_⟩
    exact alFind_alSet_self _ _ (Option.isSome_iff_exists.mpr ⟨e, he⟩)
  · intro n t v d₁ d₂ pa ds mode
    have hp : to_purl (.mk n t v d₁ pa ds) package.path
        = to_purl (.mk n t v d₂ pa ds) package.path := by
      simp only [to_purl, Package.name, Package.type, Package.version]
    simp only [process_rubygems_package, Package.type, Package.name,
      Package.version, hp]

def c9pkg : Package := .mk "gemapp" "rubygems" (some "1.0") false none []

def c9dep : Package := .mk "rake" "rubygems" (some "13.0") true none []

def c9st : CMState :=
  { CMState.empty with
      rubygems_data :=
        [(c9pkg.ident, { purl := "p", dependencies := [], sources := [] })] }

theorem c9_witness :
    ∃ st' du, process_rubygems_package c10req c9st c9pkg c9dep "icm" = .ok st' ∧
      alFind c9pkg.ident st'.rubygems_data
        = some { purl := "p", dependencies := [] ++ [du], sources := [] ++ [du] } :=
  (c9_rubygems_dev_included c10req c9st c9pkg c9dep
    { purl := "p", dependencies := [], sources := [] } "pkg:gem/rake@13.0"
    (by rfl)).1 rfl rfl

/- ----------------------------------------------------------------- -/
/- C7: error behavior of `_get_local_go_package_dep_purl`.           -/
/- ----------------------------------------------------------------- -/

def isErrorB {α : Type} : Except String α → Bool
  | .error _ => true
  | .ok _ => false

theorem Package.withVersion_type (p : Package) (v : Option String) :
    (p.withVersion v).type = p.type := by
  cases p
  rfl

/-- `to_purl` never fails for a go-typed package: every branch of the golang
arm returns a purl. -/
theorem to_purl_go_total (p : Package) (rp : Option String)
    (h : p.type = "go-package") : ∃ u, to_purl p rp = .ok u := by
  unfold to_purl
  rw [h]
  simp only [show (("go-package" == "gomod") || ("go-package" == "go-package"))
    = true from rfl, if_true]
  split
  · exact ⟨_, rfl⟩
  · split
    · exact ⟨_, rfl⟩
    · exact ⟨_, rfl⟩

/-- C7: _get_local_go_package_dep_purl raises an error (and only then) in
exactly these cases: the dependency's version is absent or does not start with
the local marker "."; or the requesting package's name matches no known
module; or the dependency path computed from the package's parent module and
the relative version matches no known module — all under the class invariant
that every known module name is a `_gomod_data` key.  For a dependency whose
name matches a known module, it returns a purl without raising. -/
theorem c7_local_go_package_dep_purl_error_cases
    (modules : List (String × Package)) (gomod_data : List (String × GomodEntry))
    (package dependency : Package)
    (htype : dependency.type = "go-package")
    (hkeys : ∀ n, n ∈ modules.map Prod.fst → (alFind n gomod_data).isSome) :
    (isErrorB (get_local_go_package_dep_purl modules gomod_data package dependency)
        = true
      ↔ (isLocalVersion dependency.version = false
         ∨ (match_parent_module dependency.name (modules.map Prod.fst) = none
            ∧ (match_parent_module package.name (modules.map Prod.fst) = none
               ∨ ∀ pm, match_parent_module package.name (modules.map Prod.fst)
                     = some pm →
                   match_parent_module
                     (normpath (pathJoin pm (dependency.version.getD "")))
                     (modules.map Prod.fst) = none))))
  ∧ (∀ dm, isLocalVersion dependency.version = true →
      match_parent_module dependency.name (modules.map Prod.fst) = some dm →
      ∃ u d', get_local_go_package_dep_purl modules gomod_data package dependency
        = .ok (u, d')) := by
  have hok : ∀ dm, isLocalVersion dependency.version = true →
      match_parent_module dependency.name (modules.map Prod.fst) = some dm →
      ∃ u d', get_local_go_package_dep_purl modules gomod_data package dependency
        = .ok (u, d') := by
    intro dm hloc hm
    have hmem : dm ∈ modules.map Prod.fst := match_parent_module_mem hm
    obtain ⟨md, hmd⟩ := Option.isSome_iff_exists.mp (alFind_isSome_of_mem_keys hmem)
    have htype' : (dependency.withVersion md.version).type = "go-package" :=
      (Package.withVersion_type dependency md.version).trans htype
    obtain ⟨u, hu⟩ := to_purl_go_total (dependency.withVersion md.version) none htype'
    refine ⟨u, dependency.withVersion md.version, ?_⟩
    simp [get_local_go_package_dep_purl, hloc, hm, hmd, hu]
  refine ⟨?_, hok⟩
  by_cases hloc : isLocalVersion dependency.version = true
  · cases hm : match_parent_module dependency.name (modules.map Prod.fst) with
    | some dm =>
      obtain ⟨u, d', hu⟩ := hok dm hloc hm
      rw [hu]
      simp [isErrorB, hloc]
    | none =>
      cases hp : match_parent_module package.name (modules.map Prod.fst) with
      | none =>
        have hval : get_local_go_package_dep_purl modules gomod_data package
            dependency = .error ("Could not find parent Go module for package: "
                ++ package.name) := by
          simp [get_local_go_package_dep_purl, hloc, hm, hp]
        rw [hval]
        simp [isErrorB]
      | some pm =>
        cases hd : match_parent_module
            (normpath (pathJoin pm (dependency.version.getD "")))
            (modules.map Prod.fst) with
        | none =>
          have hval : get_local_go_package_dep_purl modules gomod_data package
              dependency = .error ("Could not find parent Go module for package: "
                  ++ normpath (pathJoin pm (dependency.version.getD ""))) := by
            simp [get_local_go_package_dep_purl, hloc, hm, hp, hd]
          rw [hval]
          simp [isErrorB, hloc, hd]
        | some dmn =>
          have hrel : (relativeTo
              (normpath (pathJoin pm (dependency.version.getD ""))) dmn).isSome :=
            relativeTo_isSome_of_parent (match_parent_module_parent hd)
          obtain ⟨rel, hrel'⟩ := Option.isSome_iff_exists.mp hrel
          have hgd : (alFind dmn gomod_data).isSome :=
            hkeys dmn (match_parent_module_mem hd)
          obtain ⟨entry, hentry⟩ := Option.isSome_iff_exists.mp hgd
          obtain ⟨u, hu⟩ := to_purl_go_total dependency (some rel) htype
          have hval : get_local_go_package_dep_purl modules gomod_data package
              dependency
              = .ok (replace_parent_purl_placeholder u entry.purl, dependency) := by
            simp [get_local_go_package_dep_purl, hloc, hm, hp, hd, hrel',
              hentry, hu]
          rw [hval]
          simp [isErrorB, hloc, hd]
  · have hloc' : isLocalVersion dependency.version = false := by
      revert hloc
      cases isLocalVersion dependency.version <;> simp
    have hval : isErrorB (get_local_go_package_dep_purl modules gomod_data
        package dependency) = true := by
      simp [get_local_go_package_dep_purl, hloc', isErrorB]
    rw [hval]
    simp only [true_iff]
    exact Or.inl hloc'

def c7mod : Package := .mk "m" "gomod" (some "v1") false none []

def c7modules : List (String × Package) := [("m", c7mod)]

def c7gomod : List (String × GomodEntry) := [("m", { purl := "P", dependencies := [] })]

def c7pkg : Package := .mk "m/a" "go-package" (some "v1") false none []

def c7dep : Package := .mk "m/b" "go-package" (some "./b") false none []

theorem c7_witness :
    ∃ u d', get_local_go_package_dep_purl c7modules c7gomod c7pkg c7dep
      = .ok (u, d') :=
  (c7_local_go_package_dep_purl_error_cases c7modules c7gomod c7pkg c7dep rfl
    (by
      intro n hn
      simp only [c7modules, List.map, List.mem_singleton] at hn
      subst hn
      rfl)).2 "m" rfl rfl

/- ----------------------------------------------------------------- -/
/- C5: `set_go_package_sources`.                                     -/
/- ----------------------------------------------------------------- -/

/-- C5: After set_go_package_sources runs, every go-package working-map
entry's sources field equals the dependencies list of the gomod entry whose
name equals the entry's stored package name, or failing that of the module
found by longest-parent-module match on that name; if no such module exists, a
warning is emitted, processing continues, and the entry's sources is left
unchanged (hence empty when it was empty, as after seeding). -/
theorem c5_set_go_package_sources_spec
    (gomod_data : List (String × GomodEntry))
    (data data' : List (PkgId × GopkgEntry)) (warns : List String)
    (h : sgpsList gomod_data data = .ok (data', warns)) :
    data'.length = data.length
    ∧ ∀ i (hi : i < data.length) (hi' : i < data'.length),
        (data'.get ⟨i, hi'⟩).1 = (data.get ⟨i, hi⟩).1
        ∧ ∃ n, (data.get ⟨i, hi⟩).2.name = some n
        ∧ ((∀ m, alFind n gomod_data = some m →
              (data'.get ⟨i, hi'⟩).2.sources = m.dependencies)
           ∧ (alFind n gomod_data = none →
              ∀ mn, match_parent_module n (gomod_data.map Prod.fst) = some mn →
                ∀ m, alFind mn gomod_data = some m →
                  (data'.get ⟨i, hi'⟩).2.sources = m.dependencies)
           ∧ (alFind n gomod_data = none →
              match_parent_module n (gomod_data.map Prod.fst) = none →
                (data'.get ⟨i, hi'⟩).2.sources = (data.get ⟨i, hi⟩).2.sources
                ∧ ("Could not find a Go module for " ++ (data.get ⟨i, hi⟩).2.purl)
                    ∈ warns)) := by
  induction data generalizing data' warns with
  | nil =>
    simp only [sgpsList] at h
    obtain ⟨h1, h2⟩ := Prod.mk.injEq .. ▸ (Except.ok.inj h)
    subst h1
    constructor
    · rfl
    · intro i hi
      exact absurd hi (by simp)
  | cons x rest ih =>
    obtain ⟨k, e⟩ := x
    cases he : e.name with
    | none => simp [sgpsList, sgpsEntry, he] at h
    | some n =>
      simp only [sgpsList, sgpsEntry, he] at h
      cases hmod : (if (alFind n gomod_data).isSome then some n
          else match_parent_module n (gomod_data.map Prod.fst)) with
      | some mn =>
        simp only [hmod] at h
        cases hfind : alFind mn gomod_data with
        | none => simp only [hfind] at h; simp at h
        | some m =>
          simp only [hfind, except_bind_ok] at h
          cases hrest : sgpsList gomod_data rest with
          | error e' => rw [hrest] at h; simp at h
          | ok pr =>
            obtain ⟨rest', ws⟩ := pr
            rw [hrest] at h
            simp only [except_bind_ok] at h
            obtain ⟨h1, h2⟩ := Prod.mk.injEq .. ▸ (Except.ok.inj h)
            subst h1 h2
            obtain ⟨ihlen, ihspec⟩ := ih rest' ws hrest
            refine ⟨by simp [ihlen], ?_⟩
            intro i hi hi'
            cases i with
            | zero =>
              refine ⟨rfl, n, he, ?_, ?_, ?_⟩
              · intro m' hm'
                -- the key-hit or parent-match case resolved to module mn = m
                by_cases hsome : (alFind n gomod_data).isSome
                · rw [if_pos hsome] at hmod
                  cases Option.some.inj hmod
                  rw [hm'] at hfind
                  cases Option.some.inj hfind
                  rfl
                · exact absurd (by simp [hm'] : (alFind n gomod_data).isSome = true)
                    hsome
              · intro hnone mn' hmn' m' hm'
                rw [if_neg (by simp [hnone])] at hmod
                rw [hmod] at hmn'
                cases Option.some.inj hmn'
                rw [hm'] at hfind
                cases Option.some.inj hfind
                rfl
              · intro hnone hmiss
                rw [if_neg (by simp [hnone]), hmiss] at hmod
                exact absurd hmod (by simp)
            | succ j =>
              have hj : j < rest.length := by simpa using hi
              have hj' : j < rest'.length := by simpa using hi'
              obtain ⟨hk, n', hn', hspec⟩ := ihspec j hj hj'
              exact ⟨hk, n', hn', hspec.1, hspec.2.1,
                fun ha hb => ⟨(hspec.2.2 ha hb).1,
                  List.mem_append_right _ (hspec.2.2 ha hb).2⟩⟩
      | none =>
        simp only [hmod, except_bind_ok] at h
        cases hrest : sgpsList gomod_data rest with
        | error e' => rw [hrest] at h; simp at h
        | ok pr =>
          obtain ⟨rest', ws⟩ := pr
          rw [hrest] at h
          simp only [except_bind_ok] at h
          obtain ⟨h1, h2⟩ := Prod.mk.injEq .. ▸ (Except.ok.inj h)
          subst h1 h2
          obtain ⟨ihlen, ihspec⟩ := ih rest' ws hrest
          refine ⟨by simp [ihlen], ?_⟩
          intro i hi hi'
          cases i with
          | zero =>
            refine ⟨rfl, n, he, ?_, ?_, ?_⟩
            · intro m' hm'
              rw [if_pos (by simp [hm'])] at hmod
              exact absurd hmod (by simp)
            · intro hnone mn' hmn'
              rw [if_neg (by simp [hnone]), hmn'] at hmod
              exact absurd hmod (by simp)
            · intro hnone hmiss
              exact ⟨rfl, by simp⟩
          | succ j =>
            have hj : j < rest.length := by simpa using hi
            have hj' : j < rest'.length := by simpa using hi'
            obtain ⟨hk, n', hn', hspec⟩ := ihspec j hj hj'
            exact ⟨hk, n', hn', hspec.1, hspec.2.1,
              fun ha hb => ⟨(hspec.2.2 ha hb).1,
                List.mem_append_right _ (hspec.2.2 ha hb).2⟩⟩

def c5gomod : List (String × GomodEntry) :=
  [("m", { purl := "P", dependencies := ["d1"] })]

def c5id : PkgId := ("m/a", "go-package", some "v1", false)

def c5entry : GopkgEntry :=
  { name := some "m/a", purl := "Q", dependencies := [], sources := [] }

def c5data : List (PkgId × GopkgEntry) := [(c5id, c5entry)]

def c5res : Except String (List (PkgId × GopkgEntry) × List String) :=
  sgpsList c5gomod c5data

def c5data' : List (PkgId × GopkgEntry) :=
  match c5res with
  | .ok x => x.1
  | .error _ => []

def c5warns : List String :=
  match c5res with
  | .ok x => x.2
  | .error _ => []

theorem c5_witness :
    c5data'.length = c5data.length
    ∧ ∀ i (hi : i < c5data.length) (hi' : i < c5data'.length),
        (c5data'.get ⟨i, hi'⟩).1 = (c5data.get ⟨i, hi⟩).1
        ∧ ∃ n, (c5data.get ⟨i, hi⟩).2.name = some n
        ∧ ((∀ m, alFind n c5gomod = some m →
              (c5data'.get ⟨i, hi'⟩).2.sources = m.dependencies)
           ∧ (alFind n c5gomod = none →
              ∀ mn, match_parent_module n (c5gomod.map Prod.fst) = some mn →
                ∀ m, alFind mn c5gomod = some m →
                  (c5data'.get ⟨i, hi'⟩).2.sources = m.dependencies)
           ∧ (alFind n c5gomod = none →
              match_parent_module n (c5gomod.map Prod.fst) = none →
                (c5data'.get ⟨i, hi'⟩).2.sources = (c5data.get ⟨i, hi⟩).2.sources
                ∧ ("Could not find a Go module for " ++ (c5data.get ⟨i, hi⟩).2.purl)
                    ∈ c5warns)) :=
  c5_set_go_package_sources_spec c5gomod c5data c5data' c5warns rfl

/- ----------------------------------------------------------------- -/
/- Counting machinery for C1.                                        -/
/- ----------------------------------------------------------------- -/

theorem alSet_length {κ α : Type} [DecidableEq κ] (k : κ) (v : α)
    (m : List (κ × α)) : (alSet k v m).length = m.length := by
  induction m with
  | nil => rfl
  | cons x xs ih =>
    obtain ⟨k', v'⟩ := x
    by_cases hk : k' = k <;> simp [alSet, hk, ih]

@[simp] theorem except_bind_ok_iff {ε α β : Type} {x : Except ε α}
    {f : α → Except ε β} {b : β} :
    (x >>= f) = .ok b ↔ ∃ a, x = .ok a ∧ f a = .ok b := by
  cases x <;> simp

theorem idMem_true_iff (x : PkgId) (l : List PkgId) :
    idMem x l = true ↔ x ∈ l := by
  induction l with
  | nil => simp [idMem]
  | cons y ys ih =>
    by_cases hy : y = x
    · simp [idMem, hy]
    · simp only [idMem, if_neg hy, ih, List.mem_cons]
      exact ⟨Or.inr, fun h => h.elim (fun h' => absurd h'.symm hy) id⟩

/-- The total ICM-entry count of the working maps (gomod entries do not feed
`image_contents`). -/
def icmKeyCount (st : CMState) : Nat :=
  st.gopkg_data.length + st.npm_data.length + st.pip_data.length
    + st.yarn_data.length + st.rubygems_data.length + st.gitsubmodule_data.length

/-- The identity keys of all `image_contents`-contributing working maps. -/
def allIcmKeys (st : CMState) : List PkgId :=
  st.gopkg_data.map Prod.fst ++ st.npm_data.map Prod.fst
    ++ st.pip_data.map Prod.fst ++ st.yarn_data.map Prod.fst
    ++ st.rubygems_data.map Prod.fst ++ st.gitsubmodule_data.map Prod.fst

theorem allIcmKeys_length (st : CMState) :
    (allIcmKeys st).length = icmKeyCount st := by
  simp [allIcmKeys, icmKeyCount]
  omega

theorem topLevelEntries_length (st : CMState) :
    (topLevelEntries st).length = icmKeyCount st := by
  simp [topLevelEntries, icmKeyCount]
  omega

def keysTyped {α : Type} (t : String) (m : List (PkgId × α)) : Prop :=
  ∀ k ∈ m.map Prod.fst, k.2.1 = t

def stWellTyped (st : CMState) : Prop :=
  keysTyped "go-package" st.gopkg_data ∧ keysTyped "npm" st.npm_data
    ∧ keysTyped "pip" st.pip_data ∧ keysTyped "yarn" st.yarn_data
    ∧ keysTyped "rubygems" st.rubygems_data
    ∧ keysTyped "git-submodule" st.gitsubmodule_data

theorem keysTyped_append {α : Type} {t : String} {m : List (PkgId × α)}
    (h : keysTyped t m) {k : PkgId} (hk : k.2.1 = t) (v : α) :
    keysTyped t (m ++ [(k, v)]) := by
  intro x hx
  rw [List.map_append] at hx
  rcases List.mem_append.mp hx with hx | hx
  · exact h x hx
  · simp at hx
    subst hx
    exact hk

theorem not_mem_of_keysTyped {α : Type} {t s : String} {m : List (PkgId × α)}
    (h : keysTyped t m) {x : PkgId} (hx : x.2.1 = s) (hst : s ≠ t) :
    x ∉ m.map Prod.fst :=
  fun hm => hst (hx.symm.trans (h x hm))

theorem mem_keys_of_alFind_isSome {κ α : Type} [DecidableEq κ] {k : κ}
    {m : List (κ × α)} (h : (alFind k m).isSome) : k ∈ m.map Prod.fst := by
  induction m with
  | nil => simp [alFind] at h
  | cons x xs ih =>
    obtain ⟨k', v⟩ := x
    by_cases hk : k' = k
    · simp [hk]
    · simp only [alFind, if_neg hk] at h
      simp only [List.map_cons, List.mem_cons]
      exact Or.inr (ih h)

/-- The seeding invariant: the working maps' identity keys are exactly the
`seen` list of the dedup specification, with matching count, and each map only
holds keys of its own package type. -/
def seenInv (st : CMState) (seen : List PkgId) : Prop :=
  (∀ x : PkgId, x ∈ allIcmKeys st ↔ x ∈ seen)
  ∧ (allIcmKeys st).length = seen.length
  ∧ stWellTyped st

theorem Package.ident_type (p : Package) : (p.ident).2.1 = p.type := rfl


set_option maxHeartbeats 2000000 in
theorem seedIcmPackage_inv {r : Request} {st : CMState} {p : Package}
    {st' : CMState} {seen : List PkgId} (hinv : seenInv st seen)
    (h : seedIcmPackage r st p = .ok st') :
    seenInv st' (if icmSupportedType p.type && !(idMem p.ident seen)
                 then seen ++ [p.ident] else seen) := by
  obtain ⟨hmem, hlen, hwt⟩ := hinv
  obtain ⟨hw1, hw2, hw3, hw4, hw5, hw6⟩ := hwt
  by_cases h1 : p.type = "go-package"
  · simp [seedIcmPackage, h1, stdDataOf, setStdData] at h
    obtain ⟨u, hu, h⟩ := h
    subst h
    have ht : (p.ident).2.1 = "go-package" := by rw [Package.ident_type, h1]
    have hsup : icmSupportedType p.type = true := by rw [h1]; rfl
    cases hid : idMem p.ident seen with
    | true =>
      simp only [hsup, hid, Bool.not_true, Bool.and_false, Bool.false_eq_true,
        if_false]
      have hx : p.ident ∈ allIcmKeys st := (hmem _).mpr ((idMem_true_iff _ _).mp hid)
      simp only [allIcmKeys, List.mem_append] at hx
      have hg : p.ident ∈ st.gopkg_data.map Prod.fst := by
        rcases hx with ((((hx | hx) | hx) | hx) | hx) | hx
        · exact hx
        · exact absurd hx (not_mem_of_keysTyped hw2 ht (by decide))
        · exact absurd hx (not_mem_of_keysTyped hw3 ht (by decide))
        · exact absurd hx (not_mem_of_keysTyped hw4 ht (by decide))
        · exact absurd hx (not_mem_of_keysTyped hw5 ht (by decide))
        · exact absurd hx (not_mem_of_keysTyped hw6 ht (by decide))
      have hset : ∀ v : GopkgEntry, alSetd st.gopkg_data p.ident v = st.gopkg_data := by
        intro v
        simp [alSetd, alFind_isSome_of_mem_keys hg]
      rw [hset]
      exact ⟨hmem, hlen, hw1, hw2, hw3, hw4, hw5, hw6⟩
    | false =>
      have hns : p.ident ∉ seen := by
        intro hc
        rw [← idMem_true_iff, hid] at hc
        exact Bool.false_ne_true hc
      have hnot : p.ident ∉ st.gopkg_data.map Prod.fst := by
        intro hg
        exact hns ((hmem _).mp (by simp only [allIcmKeys, List.mem_append]; tauto))
      have hfind : alFind p.ident st.gopkg_data = none := by
        cases hf : alFind p.ident st.gopkg_data with
        | none => rfl
        | some v => exact absurd (mem_keys_of_alFind_isSome (by simp [hf])) hnot
      have hset : ∀ v : GopkgEntry, alSetd st.gopkg_data p.ident v
          = st.gopkg_data ++ [(p.ident, v)] := by
        intro v
        simp [alSetd, hfind]
      simp only [hsup, hid, Bool.not_false, Bool.and_true, if_true, hset]
      refine ⟨?_, ?_, ?_⟩
      · intro y
        have hy := hmem y
        simp only [allIcmKeys, List.mem_append, List.map_append, List.map_cons,
          List.map_nil, List.mem_singleton] at hy ⊢
        tauto
      · have hl := hlen
        simp only [allIcmKeys, List.length_append, List.map_append, List.map_cons,
          List.map_nil, List.length_map, List.length_cons, List.length_nil] at hl ⊢
        omega
      · exact ⟨keysTyped_append hw1 ht _, hw2, hw3, hw4, hw5, hw6⟩
  · by_cases h2 : p.type = "gomod"
    · simp [seedIcmPackage, h1, h2] at h
      obtain ⟨u, hu, h⟩ := h
      subst h
      have hsup : icmSupportedType p.type = false := by rw [h2]; rfl
      simp only [hsup, Bool.false_and, Bool.false_eq_true, if_false]
      exact ⟨hmem, hlen, hw1, hw2, hw3, hw4, hw5, hw6⟩
    · by_cases h3 : p.type = "npm"
      · simp [seedIcmPackage, h3, stdDataOf, setStdData] at h
        obtain ⟨u, hu, h⟩ := h
        subst h
        have ht : (p.ident).2.1 = "npm" := by rw [Package.ident_type, h3]
        have hsup : icmSupportedType p.type = true := by rw [h3]; rfl
        cases hid : idMem p.ident seen with
        | true =>
          simp only [hsup, hid, Bool.not_true, Bool.and_false, Bool.false_eq_true,
            if_false]
          have hx : p.ident ∈ allIcmKeys st := (hmem _).mpr ((idMem_true_iff _ _).mp hid)
          simp only [allIcmKeys, List.mem_append] at hx
          have hg : p.ident ∈ st.npm_data.map Prod.fst := by
            rcases hx with ((((hx | hx) | hx) | hx) | hx) | hx
            · exact absurd hx (not_mem_of_keysTyped hw1 ht (by decide))
            · exact hx
            · exact absurd hx (not_mem_of_keysTyped hw3 ht (by decide))
            · exact absurd hx (not_mem_of_keysTyped hw4 ht (by decide))
            · exact absurd hx (not_mem_of_keysTyped hw5 ht (by decide))
            · exact absurd hx (not_mem_of_keysTyped hw6 ht (by decide))
          have hset : ∀ v : StdEntry, alSetd st.npm_data p.ident v = st.npm_data := by
            intro v
            simp [alSetd, alFind_isSome_of_mem_keys hg]
          rw [hset]
          exact ⟨hmem, hlen, hw1, hw2, hw3, hw4, hw5, hw6⟩
        | false =>
          have hns : p.ident ∉ seen := by
            intro hc
            rw [← idMem_true_iff, hid] at hc
            exact Bool.false_ne_true hc
          have hnot : p.ident ∉ st.npm_data.map Prod.fst := by
            intro hg
            exact hns ((hmem _).mp (by simp only [allIcmKeys, List.mem_append]; tauto))
          have hfind : alFind p.ident st.npm_data = none := by
            cases hf : alFind p.ident st.npm_data with
            | none => rfl
            | some v => exact absurd (mem_keys_of_alFind_isSome (by simp [hf])) hnot
          have hset : ∀ v : StdEntry, alSetd st.npm_data p.ident v
              = st.npm_data ++ [(p.ident, v)] := by
            intro v
            simp [alSetd, hfind]
          simp only [hsup, hid, Bool.not_false, Bool.and_true, if_true, hset]
          refine ⟨?_, ?_, ?_⟩
          · intro y
            have hy := hmem y
            simp only [allIcmKeys, List.mem_append, List.map_append, List.map_cons,
              List.map_nil, List.mem_singleton] at hy ⊢
            tauto
          · have hl := hlen
            simp only [allIcmKeys, List.length_append, List.map_append, List.map_cons,
              List.map_nil, List.length_map, List.length_cons, List.length_nil] at hl ⊢
            omega
          · exact ⟨hw1, keysTyped_append hw2 ht _, hw3, hw4, hw5, hw6⟩
      · by_cases h4 : p.type = "pip"
        · simp [seedIcmPackage, h4, stdDataOf, setStdData] at h
          obtain ⟨u, hu, h⟩ := h
          subst h
          have ht : (p.ident).2.1 = "pip" := by rw [Package.ident_type, h4]
          have hsup : icmSupportedType p.type = true := by rw [h4]; rfl
          cases hid : idMem p.ident seen with
          | true =>
            simp only [hsup, hid, Bool.not_true, Bool.and_false, Bool.false_eq_true,
              if_false]
            have hx : p.ident ∈ allIcmKeys st := (hmem _).mpr ((idMem_true_iff _ _).mp hid)
            simp only [allIcmKeys, List.mem_append] at hx
            have hg : p.ident ∈ st.pip_data.map Prod.fst := by
              rcases hx with ((((hx | hx) | hx) | hx) | hx) | hx
              · exact absurd hx (not_mem_of_keysTyped hw1 ht (by decide))
              · exact absurd hx (not_mem_of_keysTyped hw2 ht (by decide))
              · exact hx
              · exact absurd hx (not_mem_of_keysTyped hw4 ht (by decide))
              · exact absurd hx (not_mem_of_keysTyped hw5 ht (by decide))
              · exact absurd hx (not_mem_of_keysTyped hw6 ht (by decide))
            have hset : ∀ v : StdEntry, alSetd st.pip_data p.ident v = st.pip_data := by
              intro v
              simp [alSetd, alFind_isSome_of_mem_keys hg]
            rw [hset]
            exact ⟨hmem, hlen, hw1, hw2, hw3, hw4, hw5, hw6⟩
          | false =>
            have hns : p.ident ∉ seen := by
              intro hc
              rw [← idMem_true_iff, hid] at hc
              exact Bool.false_ne_true hc
            have hnot : p.ident ∉ st.pip_data.map Prod.fst := by
              intro hg
              exact hns ((hmem _).mp (by simp only [allIcmKeys, List.mem_append]; tauto))
            have hfind : alFind p.ident st.pip_data = none := by
              cases hf : alFind p.ident st.pip_data with
              | none => rfl
              | some v => exact absurd (mem_keys_of_alFind_isSome (by simp [hf])) hnot
            have hset : ∀ v : StdEntry, alSetd st.pip_data p.ident v
                = st.pip_data ++ [(p.ident, v)] := by
              intro v
              simp [alSetd, hfind]
            simp only [hsup, hid, Bool.not_false, Bool.and_true, if_true, hset]
            refine ⟨?_, ?_, ?_⟩
            · intro y
              have hy := hmem y
              simp only [allIcmKeys, List.mem_append, List.map_append, List.map_cons,
                List.map_nil, List.mem_singleton] at hy ⊢
              tauto
            · have hl := hlen
              simp only [allIcmKeys, List.length_append, List.map_append, List.map_cons,
                List.map_nil, List.length_map, List.length_cons, List.length_nil] at hl ⊢
              omega
            · exact ⟨hw1, hw2, keysTyped_append hw3 ht _, hw4, hw5, hw6⟩
        · by_cases h5 : p.type = "yarn"
          · simp [seedIcmPackage, h5, stdDataOf, setStdData] at h
            obtain ⟨u, hu, h⟩ := h
            subst h
            have ht : (p.ident).2.1 = "yarn" := by rw [Package.ident_type, h5]
            have hsup : icmSupportedType p.type = true := by rw [h5]; rfl
            cases hid : idMem p.ident seen with
            | true =>
              simp only [hsup, hid, Bool.not_true, Bool.and_false, Bool.false_eq_true,
                if_false]
              have hx : p.ident ∈ allIcmKeys st := (hmem _).mpr ((idMem_true_iff _ _).mp hid)
              simp only [allIcmKeys, List.mem_append] at hx
              have hg : p.ident ∈ st.yarn_data.map Prod.fst := by
                rcases hx with ((((hx | hx) | hx) | hx) | hx) | hx
                · exact absurd hx (not_mem_of_keysTyped hw1 ht (by decide))
                · exact absurd hx (not_mem_of_keysTyped hw2 ht (by decide))
                · exact absurd hx (not_mem_of_keysTyped hw3 ht (by decide))
                · exact hx
                · exact absurd hx (not_mem_of_keysTyped hw5 ht (by decide))
                · exact absurd hx (not_mem_of_keysTyped hw6 ht (by decide))
              have hset : ∀ v : StdEntry, alSetd st.yarn_data p.ident v = st.yarn_data := by
                intro v
                simp [alSetd, alFind_isSome_of_mem_keys hg]
              rw [hset]
              exact ⟨hmem, hlen, hw1, hw2, hw3, hw4, hw5, hw6⟩
            | false =>
              have hns : p.ident ∉ seen := by
                intro hc
                rw [← idMem_true_iff, hid] at hc
                exact Bool.false_ne_true hc
              have hnot : p.ident ∉ st.yarn_data.map Prod.fst := by
                intro hg
                exact hns ((hmem _).mp (by simp only [allIcmKeys, List.mem_append]; tauto))
              have hfind : alFind p.ident st.yarn_data = none := by
                cases hf : alFind p.ident st.yarn_data with
                | none => rfl
                | some v => exact absurd (mem_keys_of_alFind_isSome (by simp [hf])) hnot
              have hset : ∀ v : StdEntry, alSetd st.yarn_data p.ident v
                  = st.yarn_data ++ [(p.ident, v)] := by
                intro v
                simp [alSetd, hfind]
              simp only [hsup, hid, Bool.not_false, Bool.and_true, if_true, hset]
              refine ⟨?_, ?_, ?_⟩
              · intro y
                have hy := hmem y
                simp only [allIcmKeys, List.mem_append, List.map_append, List.map_cons,
                  List.map_nil, List.mem_singleton] at hy ⊢
                tauto
              · have hl := hlen
                simp only [allIcmKeys, List.length_append, List.map_append, List.map_cons,
                  List.map_nil, List.length_map, List.length_cons, List.length_nil] at hl ⊢
                omega
              · exact ⟨hw1, hw2, hw3, keysTyped_append hw4 ht _, hw5, hw6⟩
          · by_cases h6 : p.type = "rubygems"
            · simp [seedIcmPackage, h6, stdDataOf, setStdData] at h
              obtain ⟨u, hu, h⟩ := h
              subst h
              have ht : (p.ident).2.1 = "rubygems" := by rw [Package.ident_type, h6]
              have hsup : icmSupportedType p.type = true := by rw [h6]; rfl
              cases hid : idMem p.ident seen with
              | true =>
                simp only [hsup, hid, Bool.not_true, Bool.and_false, Bool.false_eq_true,
                  if_false]
                have hx : p.ident ∈ allIcmKeys st := (hmem _).mpr ((idMem_true_iff _ _).mp hid)
                simp only [allIcmKeys, List.mem_append] at hx
                have hg : p.ident ∈ st.rubygems_data.map Prod.fst := by
                  rcases hx with ((((hx | hx) | hx) | hx) | hx) | hx
                  · exact absurd hx (not_mem_of_keysTyped hw1 ht (by decide))
                  · exact absurd hx (not_mem_of_keysTyped hw2 ht (by decide))
                  · exact absurd hx (not_mem_of_keysTyped hw3 ht (by decide))
                  · exact absurd hx (not_mem_of_keysTyped hw4 ht (by decide))
                  · exact hx
                  · exact absurd hx (not_mem_of_keysTyped hw6 ht (by decide))
                have hset : ∀ v : StdEntry, alSetd st.rubygems_data p.ident v = st.rubygems_data := by
                  intro v
                  simp [alSetd, alFind_isSome_of_mem_keys hg]
                rw [hset]
                exact ⟨hmem, hlen, hw1, hw2, hw3, hw4, hw5, hw6⟩
              | false =>
                have hns : p.ident ∉ seen := by
                  intro hc
                  rw [← idMem_true_iff, hid] at hc
                  exact Bool.false_ne_true hc
                have hnot : p.ident ∉ st.rubygems_data.map Prod.fst := by
                  intro hg
                  exact hns ((hmem _).mp (by simp only [allIcmKeys, List.mem_append]; tauto))
                have hfind : alFind p.ident st.rubygems_data = none := by
                  cases hf : alFind p.ident st.rubygems_data with
                  | none => rfl
                  | some v => exact absurd (mem_keys_of_alFind_isSome (by simp [hf])) hnot
                have hset : ∀ v : StdEntry, alSetd st.rubygems_data p.ident v
                    = st.rubygems_data ++ [(p.ident, v)] := by
                  intro v
                  simp [alSetd, hfind]
                simp only [hsup, hid, Bool.not_false, Bool.and_true, if_true, hset]
                refine ⟨?_, ?_, ?_⟩
                · intro y
                  have hy := hmem y
                  simp only [allIcmKeys, List.mem_append, List.map_append, List.map_cons,
                    List.map_nil, List.mem_singleton] at hy ⊢
                  tauto
                · have hl := hlen
                  simp only [allIcmKeys, List.length_append, List.map_append, List.map_cons,
                    List.map_nil, List.length_map, List.length_cons, List.length_nil] at hl ⊢
                  omega
                · exact ⟨hw1, hw2, hw3, hw4, keysTyped_append hw5 ht _, hw6⟩
            · by_cases h7 : p.type = "git-submodule"
              · simp [seedIcmPackage, h7, stdDataOf, setStdData] at h
                obtain ⟨u, hu, h⟩ := h
                subst h
                have ht : (p.ident).2.1 = "git-submodule" := by rw [Package.ident_type, h7]
                have hsup : icmSupportedType p.type = true := by rw [h7]; rfl
                cases hid : idMem p.ident seen with
                | true =>
                  simp only [hsup, hid, Bool.not_true, Bool.and_false, Bool.false_eq_true,
                    if_false]
                  have hx : p.ident ∈ allIcmKeys st := (hmem _).mpr ((idMem_true_iff _ _).mp hid)
                  simp only [allIcmKeys, List.mem_append] at hx
                  have hg : p.ident ∈ st.gitsubmodule_data.map Prod.fst := by
                    rcases hx with ((((hx | hx) | hx) | hx) | hx) | hx
                    · exact absurd hx (not_mem_of_keysTyped hw1 ht (by decide))
                    · exact absurd hx (not_mem_of_keysTyped hw2 ht (by decide))
                    · exact absurd hx (not_mem_of_keysTyped hw3 ht (by decide))
                    · exact absurd hx (not_mem_of_keysTyped hw4 ht (by decide))
                    · exact absurd hx (not_mem_of_keysTyped hw5 ht (by decide))
                    · exact hx
                  have hset : ∀ v : StdEntry, alSetd st.gitsubmodule_data p.ident v = st.gitsubmodule_data := by
                    intro v
                    simp [alSetd, alFind_isSome_of_mem_keys hg]
                  rw [hset]
                  exact ⟨hmem, hlen, hw1, hw2, hw3, hw4, hw5, hw6⟩
                | false =>
                  have hns : p.ident ∉ seen := by
                    intro hc
                    rw [← idMem_true_iff, hid] at hc
                    exact Bool.false_ne_true hc
                  have hnot : p.ident ∉ st.gitsubmodule_data.map Prod.fst := by
                    intro hg
                    exact hns ((hmem _).mp (by simp only [allIcmKeys, List.mem_append]; tauto))
                  have hfind : alFind p.ident st.gitsubmodule_data = none := by
                    cases hf : alFind p.ident st.gitsubmodule_data with
                    | none => rfl
                    | some v => exact absurd (mem_keys_of_alFind_isSome (by simp [hf])) hnot
                  have hset : ∀ v : StdEntry, alSetd st.gitsubmodule_data p.ident v
                      = st.gitsubmodule_data ++ [(p.ident, v)] := by
                    intro v
                    simp [alSetd, hfind]
                  simp only [hsup, hid, Bool.not_false, Bool.and_true, if_true, hset]
                  refine ⟨?_, ?_, ?_⟩
                  · intro y
                    have hy := hmem y
                    simp only [allIcmKeys, List.mem_append, List.map_append, List.map_cons,
                      List.map_nil, List.mem_singleton] at hy ⊢
                    tauto
                  · have hl := hlen
                    simp only [allIcmKeys, List.length_append, List.map_append, List.map_cons,
                      List.map_nil, List.length_map, List.length_cons, List.length_nil] at hl ⊢
                    omega
                  · exact ⟨hw1, hw2, hw3, hw4, hw5, keysTyped_append hw6 ht _⟩
              · simp [seedIcmPackage, h1, h2, h3, h4, h5, h6, h7] at h
                subst h
                have hsup : icmSupportedType p.type = false := by
                  simp [icmSupportedType, h1, h3, h4, h5, h6, h7]
                simp only [hsup, Bool.false_and, Bool.false_eq_true, if_false]
                exact ⟨hmem, hlen, hw1, hw2, hw3, hw4, hw5, hw6⟩

theorem seedIcm_inv {r : Request} :
    ∀ {ps : List Package} {st st' : CMState} {seen : List PkgId},
      seenInv st seen → seedIcm r st ps = .ok st' →
      seenInv st' (dedupIdsAux seen ps) := by
  intro ps
  induction ps with
  | nil =>
    intro st st' seen hinv h
    replace h := Except.ok.inj h
    subst h
    exact hinv
  | cons p rest ih =>
    intro st st' seen hinv h
    simp only [seedIcm, except_bind_ok_iff] at h
    obtain ⟨st1, h1, h2⟩ := h
    have hstep := seedIcmPackage_inv hinv h1
    by_cases hc : (icmSupportedType p.type && !(idMem p.ident seen)) = true
    · rw [if_pos hc] at hstep
      have : dedupIdsAux seen (p :: rest)
          = dedupIdsAux (seen ++ [p.ident]) rest := by
        simp only [dedupIdsAux, hc, if_true]
      rw [this]
      exact ih hstep h2
    · rw [if_neg hc] at hstep
      have : dedupIdsAux seen (p :: rest) = dedupIdsAux seen rest := by
        simp only [dedupIdsAux]
        rw [if_neg hc]
      rw [this]
      exact ih hstep h2

theorem appendGomodDep_count {st : CMState} {mn u : String} {st' : CMState}
    (h : appendGomodDep st mn u = .ok st') : icmKeyCount st' = icmKeyCount st := by
  unfold appendGomodDep at h
  cases hf : alFind mn st.gomod_data with
  | none => simp only [hf] at h; cases h
  | some e =>
    simp only [hf] at h
    replace h := Except.ok.inj h
    subst h
    rfl

theorem appendGopkgDep_count {st : CMState} {k : PkgId} {u : String}
    {st' : CMState} (h : appendGopkgDep st k u = .ok st') :
    icmKeyCount st' = icmKeyCount st := by
  unfold appendGopkgDep at h
  cases hf : alFind k st.gopkg_data with
  | none => simp only [hf] at h; cases h
  | some e =>
    simp only [hf] at h
    replace h := Except.ok.inj h
    subst h
    simp [icmKeyCount, alSet_length]

theorem process_standard_package_count {st : CMState} {t : String}
    {package dependency : Package} {st' : CMState}
    (h : process_standard_package st t package dependency = .ok st') :
    icmKeyCount st' = icmKeyCount st := by
  unfold process_standard_package at h
  simp only [except_bind_ok_iff] at h
  obtain ⟨data, hdata, u, hu, h⟩ := h
  cases hf : alFind package.ident data with
  | none => simp only [hf] at h; cases h
  | some e =>
    simp only [hf] at h
    replace h := Except.ok.inj h
    subst h
    unfold stdDataOf at hdata
    by_cases h1 : (t == "npm") = true
    · simp only [h1, if_true] at hdata
      replace hdata := Except.ok.inj hdata
      subst hdata
      simp [setStdData, h1, icmKeyCount, alSet_length]
    · by_cases h2 : (t == "pip") = true
      · simp only [h1, h2, if_true, if_false, Bool.false_eq_true] at hdata
        replace hdata := Except.ok.inj hdata
        subst hdata
        simp [setStdData, h1, h2, icmKeyCount, alSet_length]
      · by_cases h3 : (t == "yarn") = true
        · simp only [h1, h2, h3, if_true, if_false, Bool.false_eq_true] at hdata
          replace hdata := Except.ok.inj hdata
          subst hdata
          simp [setStdData, h1, h2, h3, icmKeyCount, alSet_length]
        · by_cases h4 : (t == "rubygems") = true
          · simp only [h1, h2, h3, h4, if_true, if_false, Bool.false_eq_true]
              at hdata
            replace hdata := Except.ok.inj hdata
            subst hdata
            simp [setStdData, h1, h2, h3, h4, icmKeyCount, alSet_length]
          · simp only [h1, h2, h3, h4, if_false, Bool.false_eq_true] at hdata
            cases hdata

theorem process_gomod_count {st : CMState} {package dependency : Package}
    {type : String} {st' : CMState}
    (h : process_gomod st package dependency type = .ok st') :
    icmKeyCount st' = icmKeyCount st := by
  unfold process_gomod at h
  split at h
  · split at h
    · cases h
    · split at h
      · cases h
      · split at h
        · cases h
        · simp only [except_bind_ok_iff] at h
          obtain ⟨dp, hdp, h⟩ := h
          split at h
          · exact appendGomodDep_count h
          · split at h
            · replace h := Except.ok.inj h
              subst h
              rfl
            · replace h := Except.ok.inj h
              subst h
              rfl
  · replace h := Except.ok.inj h
    subst h
    rfl

theorem process_go_package_count {modules : List (String × Package)}
    {st : CMState} {package dependency : Package} {type : String}
    {dep' : Package} {st' : CMState}
    (h : process_go_package modules st package dependency type
      = .ok (dep', st')) :
    icmKeyCount st' = icmKeyCount st := by
  unfold process_go_package at h
  by_cases hg : (dependency.type == "go-package") = true
  · rw [if_pos hg] at h
    by_cases hl : isLocalVersion dependency.version = true
    · rw [if_pos hl] at h
      simp only [except_bind_ok_iff] at h
      obtain ⟨⟨u0, d0⟩, hy, h⟩ := h
      by_cases hi : (type == "icm") = true
      · rw [if_pos hi] at h
        simp only [except_bind_ok_iff] at h
        obtain ⟨st1, hst1, h⟩ := h
        replace h := Except.ok.inj h
        obtain ⟨h1, h2⟩ := Prod.mk.injEq .. ▸ h
        subst h2
        exact appendGopkgDep_count hst1
      · rw [if_neg hi] at h
        by_cases hs : (type == "sbom") = true
        · rw [if_pos hs] at h
          replace h := Except.ok.inj h
          obtain ⟨h1, h2⟩ := Prod.mk.injEq .. ▸ h
          subst h2
          rfl
        · rw [if_neg hs] at h
          replace h := Except.ok.inj h
          obtain ⟨h1, h2⟩ := Prod.mk.injEq .. ▸ h
          subst h2
          rfl
    · rw [if_neg hl] at h
      simp only [except_bind_ok_iff, except_pure_eq] at h
      obtain ⟨u, hu, ⟨u0, d0⟩, hy, h⟩ := h
      by_cases hi : (type == "icm") = true
      · rw [if_pos hi] at h
        simp only [except_bind_ok_iff] at h
        obtain ⟨st1, hst1, h⟩ := h
        replace h := Except.ok.inj h
        obtain ⟨h1, h2⟩ := Prod.mk.injEq .. ▸ h
        subst h2
        exact appendGopkgDep_count hst1
      · rw [if_neg hi] at h
        by_cases hs : (type == "sbom") = true
        · rw [if_pos hs] at h
          replace h := Except.ok.inj h
          obtain ⟨h1, h2⟩ := Prod.mk.injEq .. ▸ h
          subst h2
          rfl
        · rw [if_neg hs] at h
          replace h := Except.ok.inj h
          obtain ⟨h1, h2⟩ := Prod.mk.injEq .. ▸ h
          subst h2
          rfl
  · rw [if_neg hg] at h
    replace h := Except.ok.inj h
    obtain ⟨h1, h2⟩ := Prod.mk.injEq .. ▸ h
    subst h2
    rfl

theorem process_npm_package_count {st : CMState} {package dependency : Package}
    {type : String} {st' : CMState}
    (h : process_npm_package st package dependency type = .ok st') :
    icmKeyCount st' = icmKeyCount st := by
  unfold process_npm_package at h
  split at h
  · split at h
    · exact process_standard_package_count h
    · split at h
      · unfold process_standard_package_sbom at h
        simp only [except_bind_ok_iff] at h
        obtain ⟨u, hu, h⟩ := h
        replace h := Except.ok.inj h
        subst h
        rfl
      · replace h := Except.ok.inj h
        subst h
        rfl
  · replace h := Except.ok.inj h
    subst h
    rfl

theorem process_pip_package_count {st : CMState} {package dependency : Package}
    {type : String} {st' : CMState}
    (h : process_pip_package st package dependency type = .ok st') :
    icmKeyCount st' = icmKeyCount st := by
  unfold process_pip_package at h
  split at h
  · split at h
    · exact process_standard_package_count h
    · split at h
      · unfold process_standard_package_sbom at h
        simp only [except_bind_ok_iff] at h
        obtain ⟨u, hu, h⟩ := h
        replace h := Except.ok.inj h
        subst h
        rfl
      · replace h := Except.ok.inj h
        subst h
        rfl
  · replace h := Except.ok.inj h
    subst h
    rfl

theorem process_yarn_package_count {st : CMState} {package dependency : Package}
    {type : String} {st' : CMState}
    (h : process_yarn_package st package dependency type = .ok st') :
    icmKeyCount st' = icmKeyCount st := by
  unfold process_yarn_package at h
  split at h
  · split at h
    · exact process_standard_package_count h
    · split at h
      · unfold process_standard_package_sbom at h
        simp only [except_bind_ok_iff] at h
        obtain ⟨u, hu, h⟩ := h
        replace h := Except.ok.inj h
        subst h
        rfl
      · replace h := Except.ok.inj h
        subst h
        rfl
  · replace h := Except.ok.inj h
    subst h
    rfl

theorem process_rubygems_package_count {request : Request} {st : CMState}
    {package dependency : Package} {type : String} {st' : CMState}
    (h : process_rubygems_package request st package dependency type = .ok st') :
    icmKeyCount st' = icmKeyCount st := by
  unfold process_rubygems_package at h
  split at h
  · simp only [except_bind_ok_iff] at h
    obtain ⟨dp, hdp, h⟩ := h
    split at h
    · split at h
      · cases h
      · replace h := Except.ok.inj h
        subst h
        simp [icmKeyCount, alSet_length]
    · split at h
      · replace h := Except.ok.inj h
        subst h
        rfl
      · replace h := Except.ok.inj h
        subst h
        rfl
  · replace h := Except.ok.inj h
    subst h
    rfl

theorem processDep_count {request : Request} {modules : List (String × Package)}
    {st : CMState} {package dependency : Package} {type : String}
    {dep' : Package} {st' : CMState}
    (h : processDep request modules st package dependency type = .ok (dep', st')) :
    icmKeyCount st' = icmKeyCount st := by
  unfold processDep at h
  split at h
  · exact process_go_package_count h
  · split at h
    · simp only [except_bind_ok_iff] at h
      obtain ⟨st1, h1, h2⟩ := h
      replace h2 := Except.ok.inj h2
      obtain ⟨hx, hy⟩ := Prod.mk.injEq .. ▸ h2
      subst hy
      exact process_gomod_count h1
    · split at h
      · simp only [except_bind_ok_iff] at h
        obtain ⟨st1, h1, h2⟩ := h
        replace h2 := Except.ok.inj h2
        obtain ⟨hx, hy⟩ := Prod.mk.injEq .. ▸ h2
        subst hy
        exact process_npm_package_count h1
      · split at h
        · simp only [except_bind_ok_iff] at h
          obtain ⟨st1, h1, h2⟩ := h
          replace h2 := Except.ok.inj h2
          obtain ⟨hx, hy⟩ := Prod.mk.injEq .. ▸ h2
          subst hy
          exact process_pip_package_count h1
        · split at h
          · simp only [except_bind_ok_iff] at h
            obtain ⟨st1, h1, h2⟩ := h
            replace h2 := Except.ok.inj h2
            obtain ⟨hx, hy⟩ := Prod.mk.injEq .. ▸ h2
            subst hy
            exact process_yarn_package_count h1
          · split at h
            · simp only [except_bind_ok_iff] at h
              obtain ⟨st1, h1, h2⟩ := h
              replace h2 := Except.ok.inj h2
              obtain ⟨hx, hy⟩ := Prod.mk.injEq .. ▸ h2
              subst hy
              exact process_rubygems_package_count h1
            · replace h := Except.ok.inj h
              obtain ⟨hx, hy⟩ := Prod.mk.injEq .. ▸ h
              subst hy
              rfl

theorem processDeps_count {request : Request} {modules : List (String × Package)}
    {type : String} {package : Package} :
    ∀ {ds : List Package} {st : CMState} {ds' : List Package} {st' : CMState},
      processDeps request modules type package st ds = .ok (ds', st') →
      icmKeyCount st' = icmKeyCount st := by
  intro ds
  induction ds with
  | nil =>
    intro st ds' st' h
    replace h := Except.ok.inj h
    obtain ⟨hx, hy⟩ := Prod.mk.injEq .. ▸ h
    subst hy
    rfl
  | cons d rest ih =>
    intro st ds' st' h
    simp only [processDeps, except_bind_ok_iff] at h
    obtain ⟨⟨d1, st1⟩, h1, ⟨ds2, st2⟩, h2, h3⟩ := h
    replace h3 := Except.ok.inj h3
    obtain ⟨hx, hy⟩ := Prod.mk.injEq .. ▸ h3
    subst hy
    exact (ih h2).trans (processDep_count h1)

theorem processAll_count {request : Request} {modules : List (String × Package)}
    {type : String} :
    ∀ {ps : List Package} {st : CMState} {ps' : List Package} {st' : CMState},
      processAll request modules type st ps = .ok (ps', st') →
      icmKeyCount st' = icmKeyCount st := by
  intro ps
  induction ps with
  | nil =>
    intro st ps' st' h
    replace h := Except.ok.inj h
    obtain ⟨hx, hy⟩ := Prod.mk.injEq .. ▸ h
    subst hy
    rfl
  | cons p rest ih =>
    intro st ps' st' h
    simp only [processAll, except_bind_ok_iff] at h
    obtain ⟨⟨ds1, st1⟩, h1, ⟨ps2, st2⟩, h2, h3⟩ := h
    replace h3 := Except.ok.inj h3
    obtain ⟨hx, hy⟩ := Prod.mk.injEq .. ▸ h3
    subst hy
    exact (ih h2).trans (processDeps_count h1)

theorem sgpsList_length {g : List (String × GomodEntry)} :
    ∀ {data data' : List (PkgId × GopkgEntry)} {warns : List String},
      sgpsList g data = .ok (data', warns) → data'.length = data.length := by
  intro data
  induction data with
  | nil =>
    intro data' warns h
    replace h := Except.ok.inj h
    obtain ⟨hx, hy⟩ := Prod.mk.injEq .. ▸ h
    subst hx
    rfl
  | cons x rest ih =>
    intro data' warns h
    simp only [sgpsList, except_bind_ok_iff] at h
    obtain ⟨⟨x1, w1⟩, h1, ⟨rest2, w2⟩, h2, h3⟩ := h
    replace h3 := Except.ok.inj h3
    obtain ⟨hx, hy⟩ := Prod.mk.injEq .. ▸ h3
    subst hx
    simp [ih h2]

theorem set_go_package_sources_count {st st' : CMState} {warns : List String}
    (h : set_go_package_sources st = .ok (st', warns)) :
    icmKeyCount st' = icmKeyCount st := by
  unfold set_go_package_sources at h
  simp only [except_bind_ok_iff] at h
  obtain ⟨⟨d, ws⟩, h1, h2⟩ := h
  replace h2 := Except.ok.inj h2
  obtain ⟨hx, hy⟩ := Prod.mk.injEq .. ▸ h2
  subst hx
  simp [icmKeyCount, sgpsList_length h1]

theorem generate_icm_metadata (l : List StdEntry) :
    (generate_icm l).metadata = baseIcmMetadata := rfl

theorem generate_icm_length (l : List StdEntry) :
    (generate_icm l).image_contents.length = l.length := by
  simp [generate_icm, deep_sort_icm, sortLe_length]

theorem seenInv_reset (st : CMState) : seenInv st.resetIcm [] := by
  refine ⟨?_, rfl, ?_⟩
  · intro x
    simp [allIcmKeys, CMState.resetIcm]
  · refine ⟨?_, ?_, ?_, ?_, ?_, ?_⟩ <;> intro k hk <;>
      simp [CMState.resetIcm] at hk

/-- C1: For every request and package list, to_json() returns a document whose
metadata equals {icm_version: 1, icm_spec: the fixed schema URL,
image_layer_index: -1} and whose image_contents contains exactly one entry for
each distinct (by Package identity) top-level package of type go-package, npm,
pip, yarn, rubygems or git-submodule, while gomod packages and packages of any
other type contribute no image_contents entry; in particular, an empty package
list yields image_contents = []. -/
theorem c1_to_json_document_shape
    (cm : ContentManifest) (out : Icm) (cm' : ContentManifest)
    (h : cm.to_json = .ok (out, cm')) :
    out.metadata = { icm_version := 1, icm_spec := JSON_SCHEMA_URL,
                     image_layer_index := -1 }
    ∧ out.image_contents.length = (distinctSupportedIds cm.packages).length
    ∧ (cm.packages = [] →
        out = { metadata := baseIcmMetadata, image_contents := [] }) := by
  unfold ContentManifest.to_json at h
  simp only [except_bind_ok_iff] at h
  obtain ⟨⟨icm, pkgs', stF⟩, hcore, hok⟩ := h
  replace hok := Except.ok.inj hok
  obtain ⟨hout, _⟩ := Prod.mk.injEq .. ▸ hok
  subst hout
  unfold toJsonCore at hcore
  simp only [except_bind_ok_iff] at hcore
  obtain ⟨st1, hseed, ⟨pkgs2, st2⟩, hpa, ⟨st3, ws⟩, hsg, hfin⟩ := hcore
  replace hfin := Except.ok.inj hfin
  obtain ⟨hicm, hrest⟩ := Prod.mk.injEq .. ▸ hfin
  have hinv := seedIcm_inv (seenInv_reset cm.state) hseed
  have hcount1 : icmKeyCount st1 = (distinctSupportedIds cm.packages).length := by
    rw [← allIcmKeys_length, hinv.2.1]
    rfl
  have hcount2 := processAll_count hpa
  have hcount3 := set_go_package_sources_count hsg
  obtain ⟨hx, hy⟩ := Prod.mk.injEq .. ▸ hrest
  refine ⟨?_, ?_, ?_⟩
  · rw [← hicm]
    rfl
  · rw [← hicm, generate_icm_length, topLevelEntries_length, hcount3, hcount2,
      hcount1]
  · intro hnil
    rw [hnil] at hseed hpa
    replace hseed := Except.ok.inj hseed
    subst hseed
    replace hpa := Except.ok.inj hpa
    obtain ⟨hpa1, hpa2⟩ := Prod.mk.injEq .. ▸ hpa
    subst hpa2
    unfold set_go_package_sources at hsg
    simp only [except_bind_ok_iff] at hsg
    obtain ⟨⟨d, ws2⟩, hsg1, hsg2⟩ := hsg
    have hnil2 : (cm.state.resetIcm).gopkg_data = [] := rfl
    rw [hnil2] at hsg1
    replace hsg1 := Except.ok.inj hsg1
    obtain ⟨hd, hws⟩ := Prod.mk.injEq .. ▸ hsg1
    replace hsg2 := Except.ok.inj hsg2
    obtain ⟨hst3, _⟩ := Prod.mk.injEq .. ▸ hsg2
    rw [← hicm, ← hst3, ← hd]
    rfl

def c1req : Request := { repo := "https://github.com/o/r", ref := "c" }

def c1cm : ContentManifest :=
  ContentManifest.init c1req
    [.mk "m" "gomod" (some "v1") false none [],
     .mk "m" "go-package" (some "v1") false none [],
     .mk "m" "go-package" (some "v1") false none []]

def c1res : Except String (Icm × ContentManifest) := c1cm.to_json

def c1out : Icm :=
  match c1res with
  | .ok x => x.1
  | .error _ => { metadata := baseIcmMetadata, image_contents := [] }

def c1cm' : ContentManifest :=
  match c1res with
  | .ok x => x.2
  | .error _ => c1cm

theorem c1_witness :
    c1out.metadata = { icm_version := 1, icm_spec := JSON_SCHEMA_URL,
                       image_layer_index := -1 }
    ∧ c1out.image_contents.length = (distinctSupportedIds c1cm.packages).length
    ∧ (c1cm.packages = [] →
        c1out = { metadata := baseIcmMetadata, image_contents := [] }) :=
  c1_to_json_document_shape c1cm c1out c1cm' (by rfl)

/-- Any component appended by a processing step is a `mkSbomComponent`. -/
def isLibraryComponent (c : SbomComponent) : Prop :=
  ∃ n v u, c = mkSbomComponent n v u

theorem appendSbom_state (st : CMState) (c : SbomComponent) :
    appendSbom st c = { st with sbom_components := st.sbom_components ++ [c] } := rfl

theorem processDep_sbom_shape {request : Request}
    {modules : List (String × Package)} {st : CMState}
    {package dependency : Package} {dep' : Package} {st' : CMState}
    (h : processDep request modules st package dependency "sbom"
      = .ok (dep', st')) :
    ∃ L, st' = { st with sbom_components := st.sbom_components ++ L }
      ∧ ∀ c ∈ L, isLibraryComponent c := by
  have hskip : st = { st with sbom_components := st.sbom_components ++ [] } := by
    simp
  unfold processDep at h
  by_cases h1 : (package.type == "go-package") = true
  · rw [if_pos h1] at h
    unfold process_go_package at h
    by_cases hg : (dependency.type == "go-package") = true
    · rw [if_pos hg] at h
      by_cases hl : isLocalVersion dependency.version = true
      · rw [if_pos hl] at h
        simp only [except_bind_ok_iff] at h
        obtain ⟨⟨u0, d0⟩, hy, h⟩ := h
        rw [if_neg (by decide), if_pos (by decide)] at h
        replace h := Except.ok.inj h
        obtain ⟨ha, hb⟩ := Prod.mk.injEq .. ▸ h
        subst hb
        refine ⟨_, rfl, ?_⟩
        intro c hc
        rw [List.mem_singleton] at hc
        subst hc
        exact ⟨_, _, _, rfl⟩
      · rw [if_neg hl] at h
        simp only [except_bind_ok_iff, except_pure_eq] at h
        obtain ⟨u, hu, ⟨u0, d0⟩, hy, h⟩ := h
        rw [if_neg (by decide), if_pos (by decide)] at h
        replace h := Except.ok.inj h
        obtain ⟨ha, hb⟩ := Prod.mk.injEq .. ▸ h
        subst hb
        refine ⟨_, rfl, ?_⟩
        intro c hc
        rw [List.mem_singleton] at hc
        subst hc
        exact ⟨_, _, _, rfl⟩
    · rw [if_neg hg] at h
      replace h := Except.ok.inj h
      obtain ⟨ha, hb⟩ := Prod.mk.injEq .. ▸ h
      subst hb
      exact ⟨[], hskip, by simp⟩
  · rw [if_neg h1] at h
    by_cases h2 : (package.type == "gomod") = true
    · rw [if_pos h2] at h
      simp only [except_bind_ok_iff] at h
      obtain ⟨st1, hst1, h⟩ := h
      replace h := Except.ok.inj h
      obtain ⟨ha, hb⟩ := Prod.mk.injEq .. ▸ h
      subst hb
      unfold process_gomod at hst1
      by_cases hg : (dependency.type == "gomod") = true
      · rw [if_pos hg] at hst1
        cases hpr : gomodParentAndRel st.gomod_data package dependency with
        | error e => simp only [hpr] at hst1; cases hst1
        | ok pr =>
          obtain ⟨pmn, relpath⟩ := pr
          simp only [hpr] at hst1
          cases pmn with
          | none => simp at hst1
          | some pmn' =>
            cases hfind : alFind pmn' st.gomod_data with
            | none => simp only [hfind] at hst1; cases hst1
            | some pe =>
              simp only [hfind, except_bind_ok_iff] at hst1
              obtain ⟨dp, hdp, hst1⟩ := hst1
              rw [if_neg (by decide), if_pos (by decide)] at hst1
              replace hst1 := Except.ok.inj hst1
              subst hst1
              refine ⟨_, rfl, ?_⟩
              intro c hc
              rw [List.mem_singleton] at hc
              subst hc
              exact ⟨_, _, _, rfl⟩
      · rw [if_neg hg] at hst1
        replace hst1 := Except.ok.inj hst1
        subst hst1
        exact ⟨[], hskip, by simp⟩
    · rw [if_neg h2] at h
      by_cases h3 : (package.type == "npm") = true
      · rw [if_pos h3] at h
        simp only [except_bind_ok_iff] at h
        obtain ⟨st1, hst1, h⟩ := h
        replace h := Except.ok.inj h
        obtain ⟨ha, hb⟩ := Prod.mk.injEq .. ▸ h
        subst hb
        unfold process_npm_package at hst1
        by_cases hg : (dependency.type == "npm") = true
        · rw [if_pos hg, if_neg (by decide), if_pos (by decide)] at hst1
          unfold process_standard_package_sbom at hst1
          simp only [except_bind_ok_iff] at hst1
          obtain ⟨u, hu, hst1⟩ := hst1
          replace hst1 := Except.ok.inj hst1
          subst hst1
          refine ⟨_, rfl, ?_⟩
          intro c hc
          rw [List.mem_singleton] at hc
          subst hc
          exact ⟨_, _, _, rfl⟩
        · rw [if_neg hg] at hst1
          replace hst1 := Except.ok.inj hst1
          subst hst1
          exact ⟨[], hskip, by simp⟩
      · rw [if_neg h3] at h
        by_cases h4 : (package.type == "pip") = true
        · rw [if_pos h4] at h
          simp only [except_bind_ok_iff] at h
          obtain ⟨st1, hst1, h⟩ := h
          replace h := Except.ok.inj h
          obtain ⟨ha, hb⟩ := Prod.mk.injEq .. ▸ h
          subst hb
          unfold process_pip_package at hst1
          by_cases hg : (dependency.type == "pip") = true
          · rw [if_pos hg, if_neg (by decide), if_pos (by decide)] at hst1
            unfold process_standard_package_sbom at hst1
            simp only [except_bind_ok_iff] at hst1
            obtain ⟨u, hu, hst1⟩ := hst1
            replace hst1 := Except.ok.inj hst1
            subst hst1
            refine ⟨_, rfl, ?_⟩
            intro c hc
            rw [List.mem_singleton] at hc
            subst hc
            exact ⟨_, _, _, rfl⟩
          · rw [if_neg hg] at hst1
            replace hst1 := Except.ok.inj hst1
            subst hst1
            exact ⟨[], hskip, by simp⟩
        · rw [if_neg h4] at h
          by_cases h5 : (package.type == "yarn") = true
          · rw [if_pos h5] at h
            simp only [except_bind_ok_iff] at h
            obtain ⟨st1, hst1, h⟩ := h
            replace h := Except.ok.inj h
            obtain ⟨ha, hb⟩ := Prod.mk.injEq .. ▸ h
            subst hb
            unfold process_yarn_package at hst1
            by_cases hg : (dependency.type == "yarn") = true
            · rw [if_pos hg, if_neg (by decide), if_pos (by decide)] at hst1
              unfold process_standard_package_sbom at hst1
              simp only [except_bind_ok_iff] at hst1
              obtain ⟨u, hu, hst1⟩ := hst1
              replace hst1 := Except.ok.inj hst1
              subst hst1
              refine ⟨_, rfl, ?_⟩
              intro c hc
              rw [List.mem_singleton] at hc
              subst hc
              exact ⟨_, _, _, rfl⟩
            · rw [if_neg hg] at hst1
              replace hst1 := Except.ok.inj hst1
              subst hst1
              exact ⟨[], hskip, by simp⟩
          · rw [if_neg h5] at h
            by_cases h6 : (package.type == "rubygems") = true
            · rw [if_pos h6] at h
              simp only [except_bind_ok_iff] at h
              obtain ⟨st1, hst1, h⟩ := h
              replace h := Except.ok.inj h
              obtain ⟨ha, hb⟩ := Prod.mk.injEq .. ▸ h
              subst hb
              unfold process_rubygems_package at hst1
              by_cases hg : (dependency.type == "rubygems") = true
              · rw [if_pos hg] at hst1
                simp only [except_bind_ok_iff] at hst1
                obtain ⟨dp, hdp, hst1⟩ := hst1
                rw [if_neg (by decide), if_pos (by decide)] at hst1
                replace hst1 := Except.ok.inj hst1
                subst hst1
                refine ⟨_, rfl, ?_⟩
                intro c hc
                rw [List.mem_singleton] at hc
                subst hc
                exact ⟨_, _, _, rfl⟩
              · rw [if_neg hg] at hst1
                replace hst1 := Except.ok.inj hst1
                subst hst1
                exact ⟨[], hskip, by simp⟩
            · rw [if_neg h6] at h
              replace h := Except.ok.inj h
              obtain ⟨ha, hb⟩ := Prod.mk.injEq .. ▸ h
              subst hb
              exact ⟨[], hskip, by simp⟩

theorem processDeps_sbom_shape {request : Request}
    {modules : List (String × Package)} {package : Package} :
    ∀ {ds : List Package} {st : CMState} {ds' : List Package} {st' : CMState},
      processDeps request modules "sbom" package st ds = .ok (ds', st') →
      ∃ L, st' = { st with sbom_components := st.sbom_components ++ L }
        ∧ ∀ c ∈ L, isLibraryComponent c := by
  intro ds
  induction ds with
  | nil =>
    intro st ds' st' h
    replace h := Except.ok.inj h
    obtain ⟨h1, h2⟩ := Prod.mk.injEq .. ▸ h
    subst h2
    exact ⟨[], by simp, by simp⟩
  | cons d rest ih =>
    intro st ds' st' h
    simp only [processDeps, except_bind_ok_iff] at h
    obtain ⟨⟨d1, st1⟩, h1, ⟨ds2, st2⟩, h2, h3⟩ := h
    replace h3 := Except.ok.inj h3
    obtain ⟨hx, hy⟩ := Prod.mk.injEq .. ▸ h3
    subst hy
    obtain ⟨L1, hst1, hL1⟩ := processDep_sbom_shape h1
    obtain ⟨L2, hst2, hL2⟩ := ih h2
    subst hst1
    refine ⟨L1 ++ L2, ?_, ?_⟩
    · rw [hst2]
      simp [List.append_assoc]
    · intro c hc
      rcases List.mem_append.mp hc with hc | hc
      · exact hL1 c hc
      · exact hL2 c hc

theorem processAll_sbom_shape {request : Request}
    {modules : List (String × Package)} :
    ∀ {ps : List Package} {st : CMState} {ps' : List Package} {st' : CMState},
      processAll request modules "sbom" st ps = .ok (ps', st') →
      ∃ L, st' = { st with sbom_components := st.sbom_components ++ L }
        ∧ ∀ c ∈ L, isLibraryComponent c := by
  intro ps
  induction ps with
  | nil =>
    intro st ps' st' h
    replace h := Except.ok.inj h
    obtain ⟨h1, h2⟩ := Prod.mk.injEq .. ▸ h
    subst h2
    exact ⟨[], by simp, by simp⟩
  | cons p rest ih =>
    intro st ps' st' h
    simp only [processAll, except_bind_ok_iff] at h
    obtain ⟨⟨ds1, st1⟩, h1, ⟨ps2, st2⟩, h2, h3⟩ := h
    replace h3 := Except.ok.inj h3
    obtain ⟨hx, hy⟩ := Prod.mk.injEq .. ▸ h3
    subst hy
    obtain ⟨L1, hst1, hL1⟩ := processDeps_sbom_shape h1
    obtain ⟨L2, hst2, hL2⟩ := ih h2
    subst hst1
    refine ⟨L1 ++ L2, ?_, ?_⟩
    · rw [hst2]
      simp [List.append_assoc]
    · intro c hc
      rcases List.mem_append.mp hc with hc | hc
      · exact hL1 c hc
      · exact hL2 c hc

theorem seedSbomPackage_shape {r : Request} {st : CMState} {p : Package}
    {st' : CMState} (h : seedSbomPackage r st p = .ok st') :
    (sbomSupportedType p.type = true ∧
      ∃ u, st'.sbom_components
        = st.sbom_components ++ [mkSbomComponent p.name p.version u])
    ∨ (sbomSupportedType p.type = false
       ∧ st'.sbom_components = st.sbom_components) := by
  unfold seedSbomPackage at h
  by_cases hsup : sbomSupportedType p.type = true
  · rw [if_pos hsup] at h
    simp only [except_bind_ok_iff] at h
    obtain ⟨u, hu, h⟩ := h
    replace h := Except.ok.inj h
    subst h
    left
    refine ⟨hsup, u, ?_⟩
    by_cases hg : (p.type == "gomod") = true
    · simp only [if_pos hg, appendSbom]
    · simp only [if_neg hg, appendSbom]
  · rw [if_neg hsup] at h
    replace h := Except.ok.inj h
    subst h
    right
    exact ⟨by revert hsup; cases sbomSupportedType p.type <;> simp, rfl⟩

theorem seedSbom_shape {r : Request} :
    ∀ {ps : List Package} {st : CMState} {st' : CMState},
      seedSbom r st ps = .ok st' →
      ∃ tops, st'.sbom_components = st.sbom_components ++ tops
        ∧ List.Forall₂ (fun (c : SbomComponent) (p : Package) =>
            ∃ u, c = mkSbomComponent p.name p.version u) tops
            (ps.filter (fun p => sbomSupportedType p.type))
        ∧ ∀ c ∈ tops, isLibraryComponent c := by
  intro ps
  induction ps with
  | nil =>
    intro st st' h
    replace h := Except.ok.inj h
    subst h
    exact ⟨[], by simp, by simp [List.Forall₂.nil], by simp⟩
  | cons p rest ih =>
    intro st st' h
    simp only [seedSbom, except_bind_ok_iff] at h
    obtain ⟨st1, h1, h2⟩ := h
    obtain ⟨tops', htops', hf, hlib⟩ := ih h2
    rcases seedSbomPackage_shape h1 with ⟨hsup, u, hsb⟩ | ⟨hsup, hsb⟩
    · refine ⟨mkSbomComponent p.name p.version u :: tops', ?_, ?_, ?_⟩
      · rw [htops', hsb]
        simp
      · simp only [List.filter_cons, hsup, ite_true]
        exact List.Forall₂.cons ⟨u, rfl⟩ hf
      · intro c hc
        rcases List.mem_cons.mp hc with hc | hc
        · subst hc
          exact ⟨_, _, _, rfl⟩
        · exact hlib c hc
    · refine ⟨tops', ?_, ?_, hlib⟩
      · rw [htops', hsb]
      · simp only [List.filter_cons, hsup, ite_false]
        exact hf

theorem mkSbomComponent_fields (n : String) (v : Option String) (u : String) :
    (mkSbomComponent n v u).type = "library"
    ∧ (mkSbomComponent n v u).version ≠ some "" := by
  refine ⟨rfl, ?_⟩
  cases v with
  | none => simp [mkSbomComponent, optTruthy]
  | some s =>
    by_cases hs : s = ""
    · simp [mkSbomComponent, optTruthy, hs]
    · simp [mkSbomComponent, optTruthy, hs]

def c6req : Request := { repo := "https://github.com/o/r2", ref := "c2" }

def c6cm : ContentManifest :=
  ContentManifest.init c6req
    [.mk "example.com/m" "gomod" (some "v1.0.0") false none [],
     .mk "example.com/m" "go-package" (some "v1.0.0") false none
       [.mk "example.com/m/sub" "go-package" (some "./sub") false none []],
     .mk "n" "npm" (some "1.0.0") false none
       [.mk "d" "npm" (some "2.0.0") true none []]]

def c6res : Except String (List SbomComponent × ContentManifest) :=
  c6cm.sbom_components_list

def c6out : List SbomComponent :=
  match c6res with
  | .ok x => x.1
  | .error _ => []

def c6cm2 : ContentManifest :=
  match c6res with
  | .ok x => x.2
  | .error _ => c6cm

theorem Package.withVersion_name (p : Package) (v : Option String) :
    (p.withVersion v).name = p.name := by cases p; rfl

theorem Package.withVersion_version (p : Package) (v : Option String) :
    (p.withVersion v).version = v := by cases p; rfl

theorem Package.withVersion_withVersion (p : Package) (a b : Option String) :
    (p.withVersion a).withVersion b = p.withVersion b := by cases p; rfl

theorem Package.withDependencies_type (p : Package) (ds : List Package) :
    (p.withDependencies ds).type = p.type := by cases p; rfl

theorem Package.withDependencies_name (p : Package) (ds : List Package) :
    (p.withDependencies ds).name = p.name := by cases p; rfl

theorem Package.withDependencies_ident (p : Package) (ds : List Package) :
    (p.withDependencies ds).ident = p.ident := by cases p; rfl

theorem Package.withDependencies_dependencies (p : Package) (ds : List Package) :
    (p.withDependencies ds).dependencies = ds := by cases p; rfl

theorem Package.withDependencies_withDependencies (p : Package)
    (a b : List Package) :
    (p.withDependencies a).withDependencies b = p.withDependencies b := by
  cases p; rfl

theorem Package.withDependencies_self (p : Package) :
    p.withDependencies p.dependencies = p := by cases p; rfl

theorem normDep_of_false {m : List (String × Package)} {P D : Package}
    (h : (P.type == "go-package" && (D.type == "go-package"
          && isLocalVersion D.version)) = false) :
    normDep m P D = D := by
  simp only [normDep, Bool.and_assoc, h, Bool.false_eq_true, if_false]

/-- `processDep` returns the `normDep`-image of the dependency whenever it
succeeds: the only input mutation is the local go-package version rewrite. -/
theorem processDep_fst {r : Request} {m : List (String × Package)}
    {st : CMState} {P D : Package} {t : String} {D' : Package} {st' : CMState}
    (h : processDep r m st P D t = .ok (D', st')) :
    D' = normDep m P D := by
  unfold processDep at h
  by_cases hgp : (P.type == "go-package") = true
  · rw [if_pos hgp] at h
    unfold process_go_package at h
    by_cases hd : (D.type == "go-package") = true
    · rw [if_pos hd] at h
      by_cases hl : isLocalVersion D.version = true
      · rw [if_pos hl] at h
        simp only [except_bind_ok_iff] at h
        obtain ⟨⟨u0, dep0⟩, hX, hrest⟩ := h
        have hdep0 : dep0 = normDep m P D := by
          unfold get_local_go_package_dep_purl at hX
          rw [if_neg (by simp [hl])] at hX
          cases hmm : match_parent_module D.name (m.map Prod.fst) with
          | some mn =>
            simp only [hmm] at hX
            cases hf : alFind mn m with
            | none => simp only [hf] at hX; cases hX
            | some md =>
              simp only [hf, except_bind_ok_iff] at hX
              obtain ⟨u1, hu1, hX⟩ := hX
              replace hX := Except.ok.inj hX
              obtain ⟨h1, h2⟩ := Prod.mk.injEq .. ▸ hX
              rw [← h2]
              simp only [normDep, hgp, hd, hl, Bool.and_self, Bool.true_and,
                if_true, hmm, hf]
          | none =>
            simp only [hmm] at hX
            cases hpm : match_parent_module P.name (m.map Prod.fst) with
            | none => simp only [hpm] at hX; cases hX
            | some pmn =>
              simp only [hpm] at hX
              cases hdm : match_parent_module
                  (normpath (pathJoin pmn (D.version.getD "")))
                  (m.map Prod.fst) with
              | none => simp only [hdm] at hX; cases hX
              | some dmn =>
                simp only [hdm] at hX
                cases hrel : relativeTo
                    (normpath (pathJoin pmn (D.version.getD ""))) dmn with
                | none => simp only [hrel] at hX; cases hX
                | some rel =>
                  simp only [hrel] at hX
                  cases hge : alFind dmn st.gomod_data with
                  | none => simp only [hge] at hX; cases hX
                  | some entry =>
                    simp only [hge, except_bind_ok_iff] at hX
                    obtain ⟨u1, hu1, hX⟩ := hX
                    replace hX := Except.ok.inj hX
                    obtain ⟨h1, h2⟩ := Prod.mk.injEq .. ▸ hX
                    rw [← h2]
                    simp only [normDep, hgp, hd, hl, Bool.and_self,
                      Bool.true_and, if_true, hmm]
        by_cases ht1 : (t == "icm") = true
        · rw [if_pos ht1] at hrest
          simp only [except_bind_ok_iff] at hrest
          obtain ⟨st2, hst2, hrest⟩ := hrest
          replace hrest := Except.ok.inj hrest
          obtain ⟨h1, h2⟩ := Prod.mk.injEq .. ▸ hrest
          rw [← h1, hdep0]
        · rw [if_neg ht1] at hrest
          by_cases ht2 : (t == "sbom") = true
          · rw [if_pos ht2] at hrest
            replace hrest := Except.ok.inj hrest
            obtain ⟨h1, h2⟩ := Prod.mk.injEq .. ▸ hrest
            rw [← h1, hdep0]
          · rw [if_neg ht2] at hrest
            replace hrest := Except.ok.inj hrest
            obtain ⟨h1, h2⟩ := Prod.mk.injEq .. ▸ hrest
            rw [← h1, hdep0]
      · rw [if_neg hl] at h
        simp only [except_bind_ok_iff, except_pure_eq] at h
        obtain ⟨u, hu, ⟨u0, dep0⟩, hy, hrest⟩ := h
        replace hy := Except.ok.inj hy
        obtain ⟨hy1, hy2⟩ := Prod.mk.injEq .. ▸ hy
        have hdep0 : dep0 = D := hy2.symm
        have hnd : normDep m P D = D := normDep_of_false (by simp [hl])
        rw [hnd]
        by_cases ht1 : (t == "icm") = true
        · rw [if_pos ht1] at hrest
          simp only [except_bind_ok_iff] at hrest
          obtain ⟨st2, hst2, hrest⟩ := hrest
          replace hrest := Except.ok.inj hrest
          obtain ⟨h1, h2⟩ := Prod.mk.injEq .. ▸ hrest
          rw [← h1, hdep0]
        · rw [if_neg ht1] at hrest
          by_cases ht2 : (t == "sbom") = true
          · rw [if_pos ht2] at hrest
            replace hrest := Except.ok.inj hrest
            obtain ⟨h1, h2⟩ := Prod.mk.injEq .. ▸ hrest
            rw [← h1, hdep0]
          · rw [if_neg ht2] at hrest
            replace hrest := Except.ok.inj hrest
            obtain ⟨h1, h2⟩ := Prod.mk.injEq .. ▸ hrest
            rw [← h1, hdep0]
    · rw [if_neg hd] at h
      replace h := Except.ok.inj h
      obtain ⟨h1, h2⟩ := Prod.mk.injEq .. ▸ h
      rw [← h1, normDep_of_false]
      simp [hd]
  · have hgp' : (P.type == "go-package") = false := by
      revert hgp; cases P.type == "go-package" <;> simp
    rw [if_neg hgp] at h
    have hnd : normDep m P D = D := normDep_of_false (by simp [hgp'])
    rw [hnd]
    by_cases h2 : (P.type == "gomod") = true
    · rw [if_pos h2] at h
      simp only [except_bind_ok_iff] at h
      obtain ⟨st2, hst2, h⟩ := h
      replace h := Except.ok.inj h
      exact ((Prod.mk.injEq .. ▸ h).1).symm
    · rw [if_neg h2] at h
      by_cases h3 : (P.type == "npm") = true
      · rw [if_pos h3] at h
        simp only [except_bind_ok_iff] at h
        obtain ⟨st2, hst2, h⟩ := h
        replace h := Except.ok.inj h
        exact ((Prod.mk.injEq .. ▸ h).1).symm
      · rw [if_neg h3] at h
        by_cases h4 : (P.type == "pip") = true
        · rw [if_pos h4] at h
          simp only [except_bind_ok_iff] at h
          obtain ⟨st2, hst2, h⟩ := h
          replace h := Except.ok.inj h
          exact ((Prod.mk.injEq .. ▸ h).1).symm
        · rw [if_neg h4] at h
          by_cases h5 : (P.type == "yarn") = true
          · rw [if_pos h5] at h
            simp only [except_bind_ok_iff] at h
            obtain ⟨st2, hst2, h⟩ := h
            replace h := Except.ok.inj h
            exact ((Prod.mk.injEq .. ▸ h).1).symm
          · rw [if_neg h5] at h
            by_cases h6 : (P.type == "rubygems") = true
            · rw [if_pos h6] at h
              simp only [except_bind_ok_iff] at h
              obtain ⟨st2, hst2, h⟩ := h
              replace h := Except.ok.inj h
              exact ((Prod.mk.injEq .. ▸ h).1).symm
            · rw [if_neg h6] at h
              replace h := Except.ok.inj h
              exact ((Prod.mk.injEq .. ▸ h).1).symm

theorem processDeps_fst {r : Request} {m : List (String × Package)}
    {t : String} {P : Package} :
    ∀ {ds : List Package} {st : CMState} {ds' : List Package} {st' : CMState},
      processDeps r m t P st ds = .ok (ds', st') →
      ds' = ds.map (normDep m P) := by
  intro ds
  induction ds with
  | nil =>
    intro st ds' st' h
    replace h := Except.ok.inj h
    exact ((Prod.mk.injEq .. ▸ h).1).symm
  | cons d rest ih =>
    intro st ds' st' h
    simp only [processDeps, except_bind_ok_iff] at h
    obtain ⟨⟨d1, st1⟩, h1, ⟨ds2, st2⟩, h2, h3⟩ := h
    replace h3 := Except.ok.inj h3
    obtain ⟨hx, hy⟩ := Prod.mk.injEq .. ▸ h3
    rw [← hx, List.map_cons, processDep_fst h1, ih h2]

theorem processAll_fst {r : Request} {m : List (String × Package)}
    {t : String} :
    ∀ {ps : List Package} {st : CMState} {ps' : List Package} {st' : CMState},
      processAll r m t st ps = .ok (ps', st') →
      ps' = mapNorm m ps := by
  intro ps
  induction ps with
  | nil =>
    intro st ps' st' h
    replace h := Except.ok.inj h
    exact ((Prod.mk.injEq .. ▸ h).1).symm
  | cons p rest ih =>
    intro st ps' st' h
    simp only [processAll, except_bind_ok_iff] at h
    obtain ⟨⟨ds1, st1⟩, h1, ⟨ps2, st2⟩, h2, h3⟩ := h
    replace h3 := Except.ok.inj h3
    obtain ⟨hx, hy⟩ := Prod.mk.injEq .. ▸ h3
    rw [← hx, mapNorm, List.map_cons, processDeps_fst h1, ih h2]
    rfl

/-- `normDep` changes at most the `version` field. -/
theorem normDep_frame (ms : List (String × Package)) (P D : Package) :
    (normDep ms P D).name = D.name ∧ (normDep ms P D).type = D.type
    ∧ (normDep ms P D).dev = D.dev ∧ (normDep ms P D).path = D.path
    ∧ (normDep ms P D).dependencies = D.dependencies := by
  unfold normDep
  split
  · cases hmm : match_parent_module D.name (ms.map Prod.fst) with
    | none => exact ⟨rfl, rfl, rfl, rfl, rfl⟩
    | some mn =>
      cases hf : alFind mn ms with
      | none =>
        simp [hf]
      | some md =>
        simp only [hf]
        cases D
        exact ⟨rfl, rfl, rfl, rfl, rfl⟩
  · exact ⟨rfl, rfl, rfl, rfl, rfl⟩

def c8req : Request := { repo := "https://github.com/o/r3", ref := "c3" }

def c8cm : ContentManifest :=
  ContentManifest.init c8req
    [.mk "example.com/m" "gomod" (some "v1.0.0") false none [],
     .mk "example.com/m" "go-package" (some "v1.0.0") false none
       [.mk "example.com/m/sub" "go-package" (some "./sub") false none []]]

def c8res : Except String (Icm × ContentManifest) := c8cm.to_json

def c8out : Icm :=
  match c8res with
  | .ok x => x.1
  | .error _ => { metadata := baseIcmMetadata, image_contents := [] }

def c8cm2 : ContentManifest :=
  match c8res with
  | .ok x => x.2
  | .error _ => c8cm

/-- The version fields of every package's dependency list, the observation
distinguishing the packages before and after `to_json`. -/
def depVersions (ps : List Package) : List (List (Option String)) :=
  ps.map (fun p => p.dependencies.map Package.version)

/-- C8 counterexample: a successful `to_json` call that changes the version
field of a local go-package dependency of the input, so the input packages are
not left unchanged. -/
theorem c8_counterexample :
    c8cm.to_json = .ok (c8out, c8cm2)
    ∧ depVersions c8cm.packages = [[], [some "./sub"]]
    ∧ depVersions c8cm2.packages = [[], [some "v1.0.0"]]
    ∧ c8cm2.packages ≠ c8cm.packages := by
  refine ⟨rfl, rfl, rfl, ?_⟩
  intro heq
  have h2 := congrArg depVersions heq
  rw [show depVersions c8cm.packages = [[], [some "./sub"]] from rfl,
      show depVersions c8cm2.packages = [[], [some "v1.0.0"]] from rfl] at h2
  exact absurd h2 (by decide)

/-- C8 (amended): a successful `to_json` or `sbom_components_list` call leaves
the request unchanged and rewrites the packages exactly to their
`normDep`-image: every field of every package and dependency is preserved
except that a local go-package dependency whose name matches a known module
gets its version overwritten with that module's version. -/
theorem c8_mutation_confined_to_dep_version (cm : ContentManifest) :
    (∀ out cm', cm.to_json = .ok (out, cm') →
        cm'.request = cm.request
        ∧ cm'.packages = mapNorm (go_modules_by_name cm.packages) cm.packages)
    ∧ (∀ comps cm', cm.sbom_components_list = .ok (comps, cm') →
        cm'.request = cm.request
        ∧ cm'.packages = mapNorm (go_modules_by_name cm.packages) cm.packages)
    ∧ (∀ ms P D, (normDep ms P D).name = D.name ∧ (normDep ms P D).type = D.type
        ∧ (normDep ms P D).dev = D.dev ∧ (normDep ms P D).path = D.path
        ∧ (normDep ms P D).dependencies = D.dependencies)
    ∧ (∀ ms P D, (P.type == "go-package" && (D.type == "go-package"
        && isLocalVersion D.version)) = false → normDep ms P D = D) := by
  refine ⟨?_, ?_, fun ms P D => normDep_frame ms P D,
    fun ms P D h => normDep_of_false h⟩
  · intro out cm' h
    unfold ContentManifest.to_json at h
    simp only [except_bind_ok_iff] at h
    obtain ⟨⟨icm, pkgs', stF⟩, hcore, hok⟩ := h
    replace hok := Except.ok.inj hok
    obtain ⟨h1, h2⟩ := Prod.mk.injEq .. ▸ hok
    rw [← h2]
    unfold toJsonCore at hcore
    simp only [except_bind_ok_iff] at hcore
    obtain ⟨st1, hseed, ⟨pkgs2, st2⟩, hpa, ⟨st3, ws⟩, hsg, hfin⟩ := hcore
    replace hfin := Except.ok.inj hfin
    obtain ⟨hf1, hf2⟩ := Prod.mk.injEq .. ▸ hfin
    obtain ⟨hg1, hg2⟩ := Prod.mk.injEq .. ▸ hf2
    refine ⟨rfl, ?_⟩
    show pkgs' = _
    rw [← hg1]
    exact processAll_fst hpa
  · intro comps cm' h
    unfold ContentManifest.sbom_components_list at h
    simp only [except_bind_ok_iff] at h
    obtain ⟨⟨comps0, pkgs', stF⟩, hcore, hok⟩ := h
    replace hok := Except.ok.inj hok
    obtain ⟨h1, h2⟩ := Prod.mk.injEq .. ▸ hok
    rw [← h2]
    unfold sbomCore at hcore
    simp only [except_bind_ok_iff] at hcore
    obtain ⟨st1, hseed, ⟨pkgs2, st2⟩, hpa, hfin⟩ := hcore
    replace hfin := Except.ok.inj hfin
    obtain ⟨hf1, hf2⟩ := Prod.mk.injEq .. ▸ hfin
    obtain ⟨hg1, hg2⟩ := Prod.mk.injEq .. ▸ hf2
    refine ⟨rfl, ?_⟩
    show pkgs' = _
    rw [← hg1]
    exact processAll_fst hpa

/-- The package types whose dependency processors can emit an SBOM component
(the dispatch arms of `processDep` that reach an sbom append). -/
def sbomEmittingType (t : String) : Bool :=
  t == "go-package" || t == "gomod" || t == "npm" || t == "pip" || t == "yarn"
    || t == "rubygems"

/-- The (package, dependency) pairs that emit an SBOM component, in
dependency-discovery order: packages in input order, and within each package
its dependencies in list order, keeping those whose type matches the owning
package's emitting type. -/
def discoveredDeps : List Package → List (Package × Package)
  | [] => []
  | p :: ps =>
    (p.dependencies.filter
        (fun d => sbomEmittingType p.type && d.type == p.type)).map
      (fun d => (p, d)) ++ discoveredDeps ps

/-- One sbom-mode processing step emits exactly one component — built from the
originating dependency's name and its (possibly version-normalized) version —
when the dependency's type matches its owner's emitting type, and leaves the
state unchanged otherwise. -/
theorem processDep_sbom_emit {request : Request}
    {modules : List (String × Package)} {st : CMState}
    {package dependency : Package} {dep' : Package} {st' : CMState}
    (h : processDep request modules st package dependency "sbom"
      = .ok (dep', st')) :
    ((sbomEmittingType package.type && dependency.type == package.type) = true
      ∧ ∃ u, st' = { st with sbom_components := st.sbom_components
          ++ [mkSbomComponent dependency.name
                (normDep modules package dependency).version u] })
    ∨ ((sbomEmittingType package.type
          && dependency.type == package.type) = false
      ∧ st' = st) := by
  have hfst := processDep_fst h
  unfold processDep at h
  by_cases h1 : (package.type == "go-package") = true
  · have hp : package.type = "go-package" := by simpa using h1
    rw [if_pos h1] at h
    unfold process_go_package at h
    by_cases hg : (dependency.type == "go-package") = true
    · have hcond : (sbomEmittingType package.type
          && dependency.type == package.type) = true := by
        rw [hp]; simp [sbomEmittingType, hg]
      rw [if_pos hg] at h
      by_cases hl : isLocalVersion dependency.version = true
      · rw [if_pos hl] at h
        simp only [except_bind_ok_iff] at h
        obtain ⟨⟨u0, d0⟩, hy, h⟩ := h
        rw [if_neg (by decide), if_pos (by decide)] at h
        replace h := Except.ok.inj h
        obtain ⟨ha, hb⟩ := Prod.mk.injEq .. ▸ h
        subst hb
        have hd0 : d0 = normDep modules package dependency := ha.trans hfst
        refine Or.inl ⟨hcond, u0, ?_⟩
        rw [hd0, (normDep_frame modules package dependency).1]
        rfl
      · rw [if_neg hl] at h
        simp only [except_bind_ok_iff, except_pure_eq] at h
        obtain ⟨u, hu, ⟨u0, d0⟩, hy, h⟩ := h
        rw [if_neg (by decide), if_pos (by decide)] at h
        replace h := Except.ok.inj h
        obtain ⟨ha, hb⟩ := Prod.mk.injEq .. ▸ h
        subst hb
        have hd0 : d0 = normDep modules package dependency := ha.trans hfst
        refine Or.inl ⟨hcond, u0, ?_⟩
        rw [hd0, (normDep_frame modules package dependency).1]
        rfl
    · rw [if_neg hg] at h
      replace h := Except.ok.inj h
      obtain ⟨ha, hb⟩ := Prod.mk.injEq .. ▸ h
      refine Or.inr ⟨?_, hb.symm⟩
      rw [hp]
      simp [sbomEmittingType, Bool.eq_false_iff.mpr hg]
  · rw [if_neg h1] at h
    by_cases h2 : (package.type == "gomod") = true
    · have hp : package.type = "gomod" := by simpa using h2
      have hnd : normDep modules package dependency = dependency :=
        normDep_of_false (by simp [hp])
      rw [if_pos h2] at h
      simp only [except_bind_ok_iff] at h
      obtain ⟨st1, hst1, h⟩ := h
      replace h := Except.ok.inj h
      obtain ⟨ha, hb⟩ := Prod.mk.injEq .. ▸ h
      subst hb
      unfold process_gomod at hst1
      by_cases hg : (dependency.type == "gomod") = true
      · rw [if_pos hg] at hst1
        cases hpr : gomodParentAndRel st.gomod_data package dependency with
        | error e => simp only [hpr] at hst1; cases hst1
        | ok pr =>
          obtain ⟨pmn, relpath⟩ := pr
          simp only [hpr] at hst1
          cases pmn with
          | none => simp at hst1
          | some pmn2 =>
            cases hfind : alFind pmn2 st.gomod_data with
            | none => simp only [hfind] at hst1; cases hst1
            | some pe =>
              simp only [hfind, except_bind_ok_iff] at hst1
              obtain ⟨dp, hdp, hst1⟩ := hst1
              rw [if_neg (by decide), if_pos (by decide)] at hst1
              replace hst1 := Except.ok.inj hst1
              subst hst1
              refine Or.inl ⟨by rw [hp]; simp [sbomEmittingType, hg],
                replace_parent_purl_placeholder dp pe.purl, ?_⟩
              rw [hnd]
              rfl
      · rw [if_neg hg] at hst1
        replace hst1 := Except.ok.inj hst1
        subst hst1
        refine Or.inr ⟨?_, rfl⟩
        rw [hp]
        simp [sbomEmittingType, Bool.eq_false_iff.mpr hg]
    · rw [if_neg h2] at h
      by_cases h3 : (package.type == "npm") = true
      · have hp : package.type = "npm" := by simpa using h3
        have hnd : normDep modules package dependency = dependency :=
          normDep_of_false (by simp [hp])
        rw [if_pos h3] at h
        simp only [except_bind_ok_iff] at h
        obtain ⟨st1, hst1, h⟩ := h
        replace h := Except.ok.inj h
        obtain ⟨ha, hb⟩ := Prod.mk.injEq .. ▸ h
        subst hb
        unfold process_npm_package at hst1
        by_cases hg : (dependency.type == "npm") = true
        · rw [if_pos hg, if_neg (by decide), if_pos (by decide)] at hst1
          unfold process_standard_package_sbom at hst1
          simp only [except_bind_ok_iff] at hst1
          obtain ⟨u, hu, hst1⟩ := hst1
          replace hst1 := Except.ok.inj hst1
          subst hst1
          refine Or.inl ⟨by rw [hp]; simp [sbomEmittingType, hg], u, ?_⟩
          rw [hnd]
          rfl
        · rw [if_neg hg] at hst1
          replace hst1 := Except.ok.inj hst1
          subst hst1
          refine Or.inr ⟨?_, rfl⟩
          rw [hp]
          simp [sbomEmittingType, Bool.eq_false_iff.mpr hg]
      · rw [if_neg h3] at h
        by_cases h4 : (package.type == "pip") = true
        · have hp : package.type = "pip" := by simpa using h4
          have hnd : normDep modules package dependency = dependency :=
            normDep_of_false (by simp [hp])
          rw [if_pos h4] at h
          simp only [except_bind_ok_iff] at h
          obtain ⟨st1, hst1, h⟩ := h
          replace h := Except.ok.inj h
          obtain ⟨ha, hb⟩ := Prod.mk.injEq .. ▸ h
          subst hb
          unfold process_pip_package at hst1
          by_cases hg : (dependency.type == "pip") = true
          · rw [if_pos hg, if_neg (by decide), if_pos (by decide)] at hst1
            unfold process_standard_package_sbom at hst1
            simp only [except_bind_ok_iff] at hst1
            obtain ⟨u, hu, hst1⟩ := hst1
            replace hst1 := Except.ok.inj hst1
            subst hst1
            refine Or.inl ⟨by rw [hp]; simp [sbomEmittingType, hg], u, ?_⟩
            rw [hnd]
            rfl
          · rw [if_neg hg] at hst1
            replace hst1 := Except.ok.inj hst1
            subst hst1
            refine Or.inr ⟨?_, rfl⟩
            rw [hp]
            simp [sbomEmittingType, Bool.eq_false_iff.mpr hg]
        · rw [if_neg h4] at h
          by_cases h5 : (package.type == "yarn") = true
          · have hp : package.type = "yarn" := by simpa using h5
            have hnd : normDep modules package dependency = dependency :=
              normDep_of_false (by simp [hp])
            rw [if_pos h5] at h
            simp only [except_bind_ok_iff] at h
            obtain ⟨st1, hst1, h⟩ := h
            replace h := Except.ok.inj h
            obtain ⟨ha, hb⟩ := Prod.mk.injEq .. ▸ h
            subst hb
            unfold process_yarn_package at hst1
            by_cases hg : (dependency.type == "yarn") = true
            · rw [if_pos hg, if_neg (by decide), if_pos (by decide)] at hst1
              unfold process_standard_package_sbom at hst1
              simp only [except_bind_ok_iff] at hst1
              obtain ⟨u, hu, hst1⟩ := hst1
              replace hst1 := Except.ok.inj hst1
              subst hst1
              refine Or.inl ⟨by rw [hp]; simp [sbomEmittingType, hg], u, ?_⟩
              rw [hnd]
              rfl
            · rw [if_neg hg] at hst1
              replace hst1 := Except.ok.inj hst1
              subst hst1
              refine Or.inr ⟨?_, rfl⟩
              rw [hp]
              simp [sbomEmittingType, Bool.eq_false_iff.mpr hg]
          · rw [if_neg h5] at h
            by_cases h6 : (package.type == "rubygems") = true
            · have hp : package.type = "rubygems" := by simpa using h6
              have hnd : normDep modules package dependency = dependency :=
                normDep_of_false (by simp [hp])
              rw [if_pos h6] at h
              simp only [except_bind_ok_iff] at h
              obtain ⟨st1, hst1, h⟩ := h
              replace h := Except.ok.inj h
              obtain ⟨ha, hb⟩ := Prod.mk.injEq .. ▸ h
              subst hb
              unfold process_rubygems_package at hst1
              by_cases hg : (dependency.type == "rubygems") = true
              · rw [if_pos hg] at hst1
                simp only [except_bind_ok_iff] at hst1
                obtain ⟨dp, hdp, hst1⟩ := hst1
                rw [if_neg (by decide), if_pos (by decide)] at hst1
                replace hst1 := Except.ok.inj hst1
                subst hst1
                refine Or.inl ⟨by rw [hp]; simp [sbomEmittingType, hg],
                  replace_parent_purl_placeholder dp
                    (to_vcs_purl
                      ((strSplitOn (get_repo_name request.repo) "/").getLastD "")
                      request.repo request.ref), ?_⟩
                rw [hnd]
                rfl
              · rw [if_neg hg] at hst1
                replace hst1 := Except.ok.inj hst1
                subst hst1
                refine Or.inr ⟨?_, rfl⟩
                rw [hp]
                simp [sbomEmittingType, Bool.eq_false_iff.mpr hg]
            · rw [if_neg h6] at h
              replace h := Except.ok.inj h
              obtain ⟨ha, hb⟩ := Prod.mk.injEq .. ▸ h
              refine Or.inr ⟨?_, hb.symm⟩
              simp [sbomEmittingType, Bool.eq_false_iff.mpr h1,
                Bool.eq_false_iff.mpr h2, Bool.eq_false_iff.mpr h3,
                Bool.eq_false_iff.mpr h4, Bool.eq_false_iff.mpr h5,
                Bool.eq_false_iff.mpr h6]

theorem processDeps_sbom_emit {request : Request}
    {modules : List (String × Package)} {package : Package} :
    ∀ {ds : List Package} {st : CMState} {ds' : List Package} {st' : CMState},
      processDeps request modules "sbom" package st ds = .ok (ds', st') →
      ∃ L, st' = { st with sbom_components := st.sbom_components ++ L }
        ∧ List.Forall₂ (fun (c : SbomComponent) (d : Package) => ∃ u,
            c = mkSbomComponent d.name (normDep modules package d).version u)
          L (ds.filter (fun d =>
              sbomEmittingType package.type && d.type == package.type)) := by
  intro ds
  induction ds with
  | nil =>
    intro st ds' st' h
    replace h := Except.ok.inj h
    obtain ⟨h1, h2⟩ := Prod.mk.injEq .. ▸ h
    subst h2
    exact ⟨[], by simp, List.Forall₂.nil⟩
  | cons d rest ih =>
    intro st ds' st' h
    simp only [processDeps, except_bind_ok_iff] at h
    obtain ⟨⟨d1, st1⟩, h1, ⟨ds2, st2⟩, h2, h3⟩ := h
    replace h3 := Except.ok.inj h3
    obtain ⟨hx, hy⟩ := Prod.mk.injEq .. ▸ h3
    subst hy
    obtain ⟨L2, hst2, hf2⟩ := ih h2
    rcases processDep_sbom_emit h1 with ⟨hcond, u, hst1⟩ | ⟨hcond, hst1⟩
    · subst hst1
      refine ⟨mkSbomComponent d.name (normDep modules package d).version u
          :: L2, ?_, ?_⟩
      · rw [hst2]
        simp [List.append_assoc]
      · simp only [List.filter_cons, hcond, ite_true]
        exact List.Forall₂.cons ⟨u, rfl⟩ hf2
    · subst hst1
      refine ⟨L2, hst2, ?_⟩
      simp only [List.filter_cons, hcond, Bool.false_eq_true, if_false]
      exact hf2

theorem processAll_sbom_emit {request : Request}
    {modules : List (String × Package)} :
    ∀ {ps : List Package} {st : CMState} {ps' : List Package} {st' : CMState},
      processAll request modules "sbom" st ps = .ok (ps', st') →
      ∃ L, st' = { st with sbom_components := st.sbom_components ++ L }
        ∧ List.Forall₂
            (fun (c : SbomComponent) (pd : Package × Package) => ∃ u,
              c = mkSbomComponent pd.2.name
                (normDep modules pd.1 pd.2).version u)
            L (discoveredDeps ps) := by
  intro ps
  induction ps with
  | nil =>
    intro st ps' st' h
    replace h := Except.ok.inj h
    obtain ⟨h1, h2⟩ := Prod.mk.injEq .. ▸ h
    subst h2
    exact ⟨[], by simp, List.Forall₂.nil⟩
  | cons p rest ih =>
    intro st ps' st' h
    simp only [processAll, except_bind_ok_iff] at h
    obtain ⟨⟨ds1, st1⟩, h1, ⟨ps2, st2⟩, h2, h3⟩ := h
    replace h3 := Except.ok.inj h3
    obtain ⟨hx, hy⟩ := Prod.mk.injEq .. ▸ h3
    subst hy
    obtain ⟨L1, hst1, hf1⟩ := processDeps_sbom_emit h1
    obtain ⟨L2, hst2, hf2⟩ := ih h2
    subst hst1
    refine ⟨L1 ++ L2, ?_, ?_⟩
    · rw [hst2]
      simp [List.append_assoc]
    · simp only [discoveredDeps]
      refine List.rel_append ?_ hf2
      rw [List.forall₂_map_right_iff]
      exact hf1

theorem forall2_exists_of_mem {α β : Type} {R : α → β → Prop} :
    ∀ {l : List α} {l' : List β}, List.Forall₂ R l l' →
      ∀ {a : α}, a ∈ l → ∃ b, R a b := by
  intro l l' hf
  induction hf with
  | nil => intro a ha; cases ha
  | cons hR hrest ih =>
    intro a ha
    rcases List.mem_cons.mp ha with ha | ha
    · subst ha
      exact ⟨_, hR⟩
    · exact ih ha

/-- C6: Every element of the list returned by sbom_components_list() is an
object with type "library" and the originating name, carrying a version key
exactly when the origin has a truthy version (so never the empty string); the
list is one component per supported-type top-level package in input package
order, followed by one component per type-matching dependency in
dependency-discovery order (packages in input order, each package's
dependencies in list order), built from the originating dependency's name and
its processed (possibly version-normalized, see the local go-package rewrite)
version. -/
theorem c6_sbom_components_spec (cm : ContentManifest)
    (comps : List SbomComponent) (cm' : ContentManifest)
    (h : cm.sbom_components_list = .ok (comps, cm')) :
    ∃ tops deps, comps = tops ++ deps
      ∧ List.Forall₂ (fun (c : SbomComponent) (p : Package) =>
          ∃ u, c = mkSbomComponent p.name p.version u) tops
          (cm.packages.filter (fun p => sbomSupportedType p.type))
      ∧ List.Forall₂ (fun (c : SbomComponent) (pd : Package × Package) =>
          ∃ u, c = mkSbomComponent pd.2.name
            (normDep (go_modules_by_name cm.packages) pd.1 pd.2).version u)
          deps (discoveredDeps cm.packages)
      ∧ (∀ n v u, (mkSbomComponent n v u).type = "library"
          ∧ (mkSbomComponent n v u).name = n
          ∧ (mkSbomComponent n v u).version
              = (if optTruthy v then v else none))
      ∧ (∀ c ∈ comps, c.type = "library" ∧ c.version ≠ some "") := by
  unfold ContentManifest.sbom_components_list at h
  simp only [except_bind_ok_iff] at h
  obtain ⟨⟨comps0, pkgs', stF⟩, hcore, hok⟩ := h
  replace hok := Except.ok.inj hok
  obtain ⟨hcomps, hrest2⟩ := Prod.mk.injEq .. ▸ hok
  subst hcomps
  unfold sbomCore at hcore
  simp only [except_bind_ok_iff] at hcore
  obtain ⟨st1, hseed, ⟨pkgs2, st2⟩, hpa, hfin⟩ := hcore
  replace hfin := Except.ok.inj hfin
  obtain ⟨hc0, hrest⟩ := Prod.mk.injEq .. ▸ hfin
  obtain ⟨tops, htops, hf, hlibt⟩ := seedSbom_shape hseed
  obtain ⟨deps, hdeps, hfd⟩ := processAll_sbom_emit hpa
  have hreset : (cm.state.resetSbom).sbom_components = [] := rfl
  rw [hreset] at htops
  simp only [List.nil_append] at htops
  have hcomps0 : comps0 = tops ++ deps := by
    rw [← hc0, hdeps, htops]
  refine ⟨tops, deps, hcomps0, hf, hfd, fun n v u => ⟨rfl, rfl, rfl⟩, ?_⟩
  intro c hc
  rw [hcomps0] at hc
  rcases List.mem_append.mp hc with hc | hc
  · obtain ⟨n, v, u, hcu⟩ := hlibt c hc
    subst hcu
    exact mkSbomComponent_fields n v u
  · obtain ⟨pd, u, hcu⟩ := forall2_exists_of_mem hfd hc
    subst hcu
    exact mkSbomComponent_fields _ _ _

theorem c6_spec_witness :
    ∃ tops deps, c6out = tops ++ deps
      ∧ List.Forall₂ (fun (c : SbomComponent) (p : Package) =>
          ∃ u, c = mkSbomComponent p.name p.version u) tops
          (c6cm.packages.filter (fun p => sbomSupportedType p.type))
      ∧ List.Forall₂ (fun (c : SbomComponent) (pd : Package × Package) =>
          ∃ u, c = mkSbomComponent pd.2.name
            (normDep (go_modules_by_name c6cm.packages) pd.1 pd.2).version u)
          deps (discoveredDeps c6cm.packages)
      ∧ (∀ n v u, (mkSbomComponent n v u).type = "library"
          ∧ (mkSbomComponent n v u).name = n
          ∧ (mkSbomComponent n v u).version
              = (if optTruthy v then v else none))
      ∧ (∀ c ∈ c6out, c.type = "library" ∧ c.version ≠ some "") :=
  c6_sbom_components_spec c6cm c6out c6cm2 (by rfl)

theorem process_go_package_norm_stable {m : List (String × Package)}
    {st : CMState} {P D : Package} {t : String} {mn : String} {md : Package}
    (hd : (D.type == "go-package") = true)
    (hl : isLocalVersion D.version = true)
    (hmm : match_parent_module D.name (m.map Prod.fst) = some mn)
    (hf : alFind mn m = some md) :
    process_go_package m st P (D.withVersion md.version) t
      = process_go_package m st P D t := by
  have e1 : get_local_go_package_dep_purl m st.gomod_data P D
      = (to_purl (D.withVersion md.version) none) >>= fun u =>
          .ok (u, D.withVersion md.version) := by
    unfold get_local_go_package_dep_purl
    rw [if_neg (by simp [hl])]
    simp only [hmm, hf]
  have e2 : isLocalVersion md.version = true →
      get_local_go_package_dep_purl m st.gomod_data P (D.withVersion md.version)
      = (to_purl (D.withVersion md.version) none) >>= fun u =>
          .ok (u, D.withVersion md.version) := by
    intro hv
    unfold get_local_go_package_dep_purl
    rw [Package.withVersion_version, if_neg (by simp [hv])]
    simp only [Package.withVersion_name, hmm, hf,
      Package.withVersion_withVersion]
  unfold process_go_package
  rw [Package.withVersion_type, if_pos hd, if_pos hd,
    Package.withVersion_version, if_pos hl, e1]
  by_cases hv : isLocalVersion md.version = true
  · rw [if_pos hv, e2 hv]
  · rw [if_neg hv]
    cases hx : to_purl (D.withVersion md.version) none <;> simp [hx]

/-- Reprocessing an already version-normalized dependency gives the same
result: the in-place mutation is stable. -/
theorem processDep_norm_stable (r : Request) (m : List (String × Package))
    (st : CMState) (P D : Package) (t : String) :
    processDep r m st P (normDep m P D) t = processDep r m st P D t := by
  by_cases hc : (P.type == "go-package" && D.type == "go-package"
      && isLocalVersion D.version) = true
  · have hc' := hc
    rw [Bool.and_eq_true, Bool.and_eq_true] at hc'
    obtain ⟨⟨hgp, hd⟩, hl⟩ := hc'
    unfold normDep
    rw [if_pos hc]
    cases hmm : match_parent_module D.name (m.map Prod.fst) with
    | none => rfl
    | some mn =>
      cases hf : alFind mn m with
      | none => simp only [hf]
      | some md =>
        simp only [hf]
        unfold processDep
        rw [if_pos hgp, if_pos hgp]
        exact process_go_package_norm_stable hd hl hmm hf
  · unfold normDep
    rw [if_neg hc]

/-- No processing step reads the `dependencies` field of the owning package. -/
theorem processDep_withDeps (r : Request) (m : List (String × Package))
    (st : CMState) (P : Package) (e : List Package) (D : Package) (t : String) :
    processDep r m st (P.withDependencies e) D t = processDep r m st P D t := by
  cases P
  rfl

theorem seedIcmPackage_withDeps (r : Request) (st : CMState) (P : Package)
    (e : List Package) :
    seedIcmPackage r st (P.withDependencies e) = seedIcmPackage r st P := by
  cases P
  rfl

theorem seedSbomPackage_withDeps (r : Request) (st : CMState) (P : Package)
    (e : List Package) :
    seedSbomPackage r st (P.withDependencies e) = seedSbomPackage r st P := by
  cases P
  rfl

theorem processDeps_norm_stable (r : Request) (m : List (String × Package))
    (t : String) (P : Package) :
    ∀ (ds : List Package) (st : CMState),
      processDeps r m t P st (ds.map (normDep m P)) = processDeps r m t P st ds
  | [], st => rfl
  | d :: rest, st => by
    simp only [List.map_cons, processDeps, processDep_norm_stable]
    cases hd : processDep r m st P d t with
    | error e => rfl
    | ok x =>
      simp only [except_bind_ok]
      rw [processDeps_norm_stable r m t P rest x.2]

theorem processDeps_withDeps (r : Request) (m : List (String × Package))
    (t : String) (P : Package) (e : List Package) :
    ∀ (ds : List Package) (st : CMState),
      processDeps r m t (P.withDependencies e) st ds = processDeps r m t P st ds
  | [], st => rfl
  | d :: rest, st => by
    simp only [processDeps, processDep_withDeps]
    cases hd : processDep r m st P d t with
    | error e => rfl
    | ok x =>
      simp only [except_bind_ok]
      rw [processDeps_withDeps r m t P e rest x.2]

theorem mapNorm_cons (m : List (String × Package)) (p : Package)
    (ps : List Package) :
    mapNorm m (p :: ps) = normPkg m p :: mapNorm m ps := rfl

theorem processAll_norm_stable (r : Request) (m : List (String × Package))
    (t : String) :
    ∀ (ps : List Package) (st : CMState),
      processAll r m t st (mapNorm m ps) = processAll r m t st ps
  | [], st => rfl
  | p :: rest, st => by
    simp only [mapNorm_cons, processAll, normPkg,
      Package.withDependencies_dependencies, processDeps_withDeps,
      processDeps_norm_stable, Package.withDependencies_withDependencies]
    cases hd : processDeps r m t p st p.dependencies with
    | error e => rfl
    | ok x =>
      simp only [except_bind_ok]
      have hrec := processAll_norm_stable r m t rest x.2
      rw [show mapNorm m rest = List.map (normPkg m) rest from rfl] at hrec
      rw [hrec]

theorem seedIcm_norm (r : Request) (m : List (String × Package)) :
    ∀ (ps : List Package) (st : CMState),
      seedIcm r st (mapNorm m ps) = seedIcm r st ps
  | [], st => rfl
  | p :: rest, st => by
    simp only [mapNorm_cons, seedIcm, normPkg, seedIcmPackage_withDeps]
    cases hs : seedIcmPackage r st p with
    | error e => rfl
    | ok st1 =>
      simp only [except_bind_ok]
      exact seedIcm_norm r m rest st1

theorem seedSbom_norm (r : Request) (m : List (String × Package)) :
    ∀ (ps : List Package) (st : CMState),
      seedSbom r st (mapNorm m ps) = seedSbom r st ps
  | [], st => rfl
  | p :: rest, st => by
    simp only [mapNorm_cons, seedSbom, normPkg, seedSbomPackage_withDeps]
    cases hs : seedSbomPackage r st p with
    | error e => rfl
    | ok st1 =>
      simp only [except_bind_ok]
      exact seedSbom_norm r m rest st1

theorem normPkg_of_not_gopkg {m : List (String × Package)} {p : Package}
    (h : (p.type == "go-package") = false) : normPkg m p = p := by
  unfold normPkg
  have he : List.map (normDep m p) p.dependencies
      = List.map id p.dependencies :=
    List.map_congr_left (fun d _ => normDep_of_false (by simp [h]))
  rw [he, List.map_id, Package.withDependencies_self]

theorem filter_gomod_mapNorm (m : List (String × Package)) :
    ∀ ps : List Package,
      (mapNorm m ps).filter (fun p => p.type == "gomod")
        = ps.filter (fun p => p.type == "gomod")
  | [] => rfl
  | p :: rest => by
    have ht : (normPkg m p).type = p.type := Package.withDependencies_type ..
    simp only [mapNorm_cons, List.filter_cons, ht]
    by_cases hg : (p.type == "gomod") = true
    · have h2 : p.type = "gomod" := by simpa using hg
      have hgp : (p.type == "go-package") = false := by rw [h2]; rfl
      rw [normPkg_of_not_gopkg hgp]
      simp only [hg, ite_true, filter_gomod_mapNorm m rest]
    · have hg' : (p.type == "gomod") = false := by
        revert hg; cases p.type == "gomod" <;> simp
      simp only [hg', Bool.false_eq_true, if_false, filter_gomod_mapNorm m rest]

theorem go_modules_by_name_mapNorm (m : List (String × Package))
    (ps : List Package) :
    go_modules_by_name (mapNorm m ps) = go_modules_by_name ps := by
  unfold go_modules_by_name
  rw [filter_gomod_mapNorm]

theorem toJsonCore_norm (r : Request) (ps : List Package) (st : CMState) :
    toJsonCore r (mapNorm (go_modules_by_name ps) ps) st
      = toJsonCore r ps st := by
  simp only [toJsonCore, go_modules_by_name_mapNorm, seedIcm_norm,
    processAll_norm_stable]

theorem sbomCore_norm (r : Request) (ps : List Package) (st : CMState) :
    sbomCore r (mapNorm (go_modules_by_name ps) ps) st
      = sbomCore r ps st := by
  simp only [sbomCore, go_modules_by_name_mapNorm, seedSbom_norm,
    processAll_norm_stable]

/-- Substitute the `_sbom_components` field (used to show `to_json` neither
reads nor keeps it). -/
def setSb (st : CMState) (L : List SbomComponent) : CMState :=
  { st with sbom_components := L }

theorem resetIcm_setSb (st : CMState) :
    st.resetIcm = setSb CMState.empty st.sbom_components := rfl

theorem appendGomodDep_setSb (st : CMState) (L : List SbomComponent)
    (n u : String) :
    appendGomodDep (setSb st L) n u
      = (appendGomodDep st n u).map (fun s => setSb s L) := by
  unfold appendGomodDep
  have hg : (setSb st L).gomod_data = st.gomod_data := rfl
  rw [hg]
  cases h : alFind n st.gomod_data <;> rfl

theorem appendGopkgDep_setSb (st : CMState) (L : List SbomComponent)
    (k : PkgId) (u : String) :
    appendGopkgDep (setSb st L) k u
      = (appendGopkgDep st k u).map (fun s => setSb s L) := by
  unfold appendGopkgDep
  have hg : (setSb st L).gopkg_data = st.gopkg_data := rfl
  rw [hg]
  cases h : alFind k st.gopkg_data <;> rfl

theorem stdDataOf_setSb (st : CMState) (L : List SbomComponent)
    (t : String) :
    stdDataOf (setSb st L) t = stdDataOf st t := by
  unfold stdDataOf
  rfl

theorem setStdData_setSb (st : CMState) (L : List SbomComponent)
    (t : String) (m : List (PkgId × StdEntry)) :
    setStdData (setSb st L) t m = setSb (setStdData st t m) L := by
  unfold setStdData
  by_cases h1 : (t == "npm") = true
  · rw [if_pos h1, if_pos h1]; rfl
  · rw [if_neg h1, if_neg h1]
    by_cases h2 : (t == "pip") = true
    · rw [if_pos h2, if_pos h2]; rfl
    · rw [if_neg h2, if_neg h2]
      by_cases h3 : (t == "yarn") = true
      · rw [if_pos h3, if_pos h3]; rfl
      · rw [if_neg h3, if_neg h3]
        by_cases h4 : (t == "rubygems") = true
        · rw [if_pos h4, if_pos h4]; rfl
        · rw [if_neg h4, if_neg h4]

theorem process_standard_package_setSb (st : CMState)
    (L : List SbomComponent) (pt : String) (P D : Package) :
    process_standard_package (setSb st L) pt P D
      = (process_standard_package st pt P D).map (fun s => setSb s L) := by
  unfold process_standard_package
  rw [stdDataOf_setSb]
  cases hd : stdDataOf st pt with
  | error e => rfl
  | ok data =>
    simp only [except_bind_ok]
    cases hu : to_purl D none with
    | error e => rfl
    | ok u =>
      simp only [except_bind_ok]
      cases hf : alFind P.ident data with
      | none => rfl
      | some e =>
        simp only [setStdData_setSb]
        rfl

theorem process_gomod_setSb (st : CMState) (L : List SbomComponent)
    (P D : Package) :
    process_gomod (setSb st L) P D "icm"
      = (process_gomod st P D "icm").map (fun s => setSb s L) := by
  unfold process_gomod
  have hg : (setSb st L).gomod_data = st.gomod_data := rfl
  rw [hg]
  by_cases h1 : (D.type == "gomod") = true
  · rw [if_pos h1, if_pos h1]
    cases hpr : gomodParentAndRel st.gomod_data P D with
    | error e => rfl
    | ok pr =>
      cases pr with
      | mk pmn rel =>
        cases pmn with
        | none => rfl
        | some mn =>
          cases hf : alFind mn st.gomod_data with
          | none => simp only [hf]; rfl
          | some pe =>
            cases hu : to_purl D rel with
            | error e => simp only [hf, hu]; rfl
            | ok dp =>
              simp only [hf, hu, except_bind_ok]
              rw [if_pos (by rfl), if_pos (by rfl)]
              exact appendGomodDep_setSb st L P.name
                (replace_parent_purl_placeholder dp pe.purl)
  · rw [if_neg h1, if_neg h1]
    rfl

theorem get_local_setSb (m : List (String × Package)) (st : CMState)
    (L : List SbomComponent) (P D : Package) :
    get_local_go_package_dep_purl m (setSb st L).gomod_data P D
      = get_local_go_package_dep_purl m st.gomod_data P D := rfl

theorem process_go_package_setSb (m : List (String × Package)) (st : CMState)
    (L : List SbomComponent) (P D : Package) :
    process_go_package m (setSb st L) P D "icm"
      = (process_go_package m st P D "icm").map
          (fun x => (x.1, setSb x.2 L)) := by
  unfold process_go_package
  by_cases h1 : (D.type == "go-package") = true
  · rw [if_pos h1, if_pos h1]
    rw [get_local_setSb]
    by_cases hl : isLocalVersion D.version = true
    · rw [if_pos hl, if_pos hl]
      cases hx : get_local_go_package_dep_purl m st.gomod_data P D with
      | error e => rfl
      | ok y =>
        cases y with
        | mk u d2 =>
          simp only [hx, except_bind_ok]
          rw [if_pos (by rfl), if_pos (by rfl)]
          rw [appendGopkgDep_setSb]
          cases ha : appendGopkgDep st P.ident u <;> rfl
    · rw [if_neg hl, if_neg hl]
      cases hu : to_purl D none with
      | error e => rfl
      | ok u =>
        simp only [hu, except_bind_ok, except_pure_eq]
        rw [if_pos (by rfl), if_pos (by rfl)]
        rw [appendGopkgDep_setSb]
        cases ha : appendGopkgDep st P.ident u <;> rfl
  · rw [if_neg h1, if_neg h1]
    rfl

theorem process_npm_package_setSb (st : CMState) (L : List SbomComponent)
    (P D : Package) :
    process_npm_package (setSb st L) P D "icm"
      = (process_npm_package st P D "icm").map (fun s => setSb s L) := by
  unfold process_npm_package
  by_cases h1 : (D.type == "npm") = true
  · rw [if_pos h1, if_pos h1, if_pos (by rfl), if_pos (by rfl)]
    exact process_standard_package_setSb st L "npm" P D
  · rw [if_neg h1, if_neg h1]
    rfl

theorem process_pip_package_setSb (st : CMState) (L : List SbomComponent)
    (P D : Package) :
    process_pip_package (setSb st L) P D "icm"
      = (process_pip_package st P D "icm").map (fun s => setSb s L) := by
  unfold process_pip_package
  by_cases h1 : (D.type == "pip") = true
  · rw [if_pos h1, if_pos h1, if_pos (by rfl), if_pos (by rfl)]
    exact process_standard_package_setSb st L "pip" P D
  · rw [if_neg h1, if_neg h1]
    rfl

theorem process_yarn_package_setSb (st : CMState) (L : List SbomComponent)
    (P D : Package) :
    process_yarn_package (setSb st L) P D "icm"
      = (process_yarn_package st P D "icm").map (fun s => setSb s L) := by
  unfold process_yarn_package
  by_cases h1 : (D.type == "yarn") = true
  · rw [if_pos h1, if_pos h1, if_pos (by rfl), if_pos (by rfl)]
    exact process_standard_package_setSb st L "yarn" P D
  · rw [if_neg h1, if_neg h1]
    rfl

theorem process_rubygems_package_setSb (r : Request) (st : CMState)
    (L : List SbomComponent) (P D : Package) :
    process_rubygems_package r (setSb st L) P D "icm"
      = (process_rubygems_package r st P D "icm").map (fun s => setSb s L) := by
  unfold process_rubygems_package
  by_cases h1 : (D.type == "rubygems") = true
  · rw [if_pos h1, if_pos h1]
    cases hu : to_purl D P.path with
    | error e => rfl
    | ok dp =>
      simp only [hu, except_bind_ok]
      rw [if_pos (by rfl), if_pos (by rfl)]
      have hr : (setSb st L).rubygems_data = st.rubygems_data := rfl
      rw [hr]
      cases hf : alFind P.ident st.rubygems_data with
      | none => simp only [hf]; rfl
      | some e => simp only [hf]; rfl
  · rw [if_neg h1, if_neg h1]
    rfl

theorem processDep_setSb (r : Request) (m : List (String × Package))
    (st : CMState) (L : List SbomComponent) (P D : Package) :
    processDep r m (setSb st L) P D "icm"
      = (processDep r m st P D "icm").map (fun x => (x.1, setSb x.2 L)) := by
  unfold processDep
  by_cases h1 : (P.type == "go-package") = true
  · rw [if_pos h1, if_pos h1]
    exact process_go_package_setSb m st L P D
  · rw [if_neg h1, if_neg h1]
    by_cases h2 : (P.type == "gomod") = true
    · rw [if_pos h2, if_pos h2, process_gomod_setSb]
      cases hx : process_gomod st P D "icm" <;> rfl
    · rw [if_neg h2, if_neg h2]
      by_cases h3 : (P.type == "npm") = true
      · rw [if_pos h3, if_pos h3, process_npm_package_setSb]
        cases hx : process_npm_package st P D "icm" <;> rfl
      · rw [if_neg h3, if_neg h3]
        by_cases h4 : (P.type == "pip") = true
        · rw [if_pos h4, if_pos h4, process_pip_package_setSb]
          cases hx : process_pip_package st P D "icm" <;> rfl
        · rw [if_neg h4, if_neg h4]
          by_cases h5 : (P.type == "yarn") = true
          · rw [if_pos h5, if_pos h5, process_yarn_package_setSb]
            cases hx : process_yarn_package st P D "icm" <;> rfl
          · rw [if_neg h5, if_neg h5]
            by_cases h6 : (P.type == "rubygems") = true
            · rw [if_pos h6, if_pos h6, process_rubygems_package_setSb]
              cases hx : process_rubygems_package r st P D "icm" <;> rfl
            · rw [if_neg h6, if_neg h6]
              rfl

theorem processDeps_setSb (r : Request) (m : List (String × Package))
    (P : Package) (L : List SbomComponent) :
    ∀ (ds : List Package) (st : CMState),
      processDeps r m "icm" P (setSb st L) ds
        = (processDeps r m "icm" P st ds).map
            (fun x => (x.1, setSb x.2 L))
  | [], st => rfl
  | d :: rest, st => by
    simp only [processDeps]
    rw [processDep_setSb]
    cases h1 : processDep r m st P d "icm" with
    | error e => rfl
    | ok x =>
      simp only [Except.map, except_bind_ok]
      rw [processDeps_setSb r m P L rest x.2]
      cases h2 : processDeps r m "icm" P x.2 rest <;> rfl

theorem processAll_setSb (r : Request) (m : List (String × Package))
    (L : List SbomComponent) :
    ∀ (ps : List Package) (st : CMState),
      processAll r m "icm" (setSb st L) ps
        = (processAll r m "icm" st ps).map (fun x => (x.1, setSb x.2 L))
  | [], st => rfl
  | p :: rest, st => by
    simp only [processAll]
    rw [processDeps_setSb]
    cases h1 : processDeps r m "icm" p st p.dependencies with
    | error e => rfl
    | ok x =>
      simp only [Except.map, except_bind_ok]
      rw [processAll_setSb r m L rest x.2]
      cases h2 : processAll r m "icm" x.2 rest <;> rfl

theorem seedIcmPackage_setSb (r : Request) (st : CMState)
    (L : List SbomComponent) (p : Package) :
    seedIcmPackage r (setSb st L) p
      = (seedIcmPackage r st p).map (fun s => setSb s L) := by
  unfold seedIcmPackage
  by_cases h1 : (p.type == "go-package") = true
  · rw [if_pos h1, if_pos h1]
    cases hu : to_top_level_purl p r p.path with
    | error e => rfl
    | ok u => simp only [hu, except_bind_ok]; rfl
  · rw [if_neg h1, if_neg h1]
    by_cases h2 : (p.type == "gomod") = true
    · rw [if_pos h2, if_pos h2]
      cases hu : to_top_level_purl p r p.path with
      | error e => rfl
      | ok u => simp only [hu, except_bind_ok]; rfl
    · rw [if_neg h2, if_neg h2]
      by_cases h3 : (p.type == "npm" || p.type == "pip" || p.type == "yarn"
          || p.type == "rubygems") = true
      · rw [if_pos h3, if_pos h3]
        cases hu : to_top_level_purl p r p.path with
        | error e => rfl
        | ok u =>
          simp only [hu, except_bind_ok]
          rw [stdDataOf_setSb]
          cases hd : stdDataOf st p.type with
          | error e => rfl
          | ok data =>
            simp only [except_bind_ok]
            rw [setStdData_setSb]
            rfl
      · rw [if_neg h3, if_neg h3]
        by_cases h4 : (p.type == "git-submodule") = true
        · rw [if_pos h4, if_pos h4]
          cases hu : to_top_level_purl p r p.path with
          | error e => rfl
          | ok u => simp only [hu, except_bind_ok]; rfl
        · rw [if_neg h4, if_neg h4]
          rfl

theorem seedIcm_setSb (r : Request) (L : List SbomComponent) :
    ∀ (ps : List Package) (st : CMState),
      seedIcm r (setSb st L) ps
        = (seedIcm r st ps).map (fun s => setSb s L)
  | [], st => rfl
  | p :: rest, st => by
    simp only [seedIcm]
    rw [seedIcmPackage_setSb]
    cases h1 : seedIcmPackage r st p with
    | error e => rfl
    | ok st1 =>
      simp only [Except.map, except_bind_ok]
      exact seedIcm_setSb r L rest st1

theorem set_go_package_sources_setSb (st : CMState)
    (L : List SbomComponent) :
    set_go_package_sources (setSb st L)
      = (set_go_package_sources st).map (fun x => (setSb x.1 L, x.2)) := by
  unfold set_go_package_sources
  rw [show (setSb st L).gomod_data = st.gomod_data from rfl,
      show (setSb st L).gopkg_data = st.gopkg_data from rfl]
  cases h1 : sgpsList st.gomod_data st.gopkg_data with
  | error e => rfl
  | ok y => simp only [except_bind_ok]; rfl

theorem topLevelEntries_setSb (st : CMState) (L : List SbomComponent) :
    topLevelEntries (setSb st L) = topLevelEntries st := rfl

theorem toJsonCore_setSb (r : Request) (ps : List Package) (st : CMState)
    (L : List SbomComponent) :
    toJsonCore r ps (setSb st L)
      = (toJsonCore r ps st).map (fun x => (x.1, x.2.1, setSb x.2.2 L)) := by
  simp only [toJsonCore]
  rw [show (setSb st L).resetIcm = setSb st.resetIcm L from rfl,
      seedIcm_setSb]
  cases h1 : seedIcm r st.resetIcm ps with
  | error e => rfl
  | ok st1 =>
    simp only [Except.map, except_bind_ok]
    rw [processAll_setSb]
    cases h2 : processAll r (go_modules_by_name ps) "icm" st1 ps with
    | error e => rfl
    | ok y =>
      cases y with
      | mk pkgs2 st2 =>
        simp only [Except.map, except_bind_ok]
        rw [set_go_package_sources_setSb]
        cases h3 : set_go_package_sources st2 with
        | error e => rfl
        | ok z =>
          cases z with
          | mk st3 ws =>
            simp only [Except.map, except_bind_ok]
            rw [topLevelEntries_setSb]

theorem toJsonCore_state_indep (r : Request) (ps : List Package)
    (st : CMState) :
    (toJsonCore r ps st).map (fun x => (x.1, x.2.1))
      = (toJsonCore r ps CMState.empty).map (fun x => (x.1, x.2.1)) := by
  have h1 : toJsonCore r ps st
      = toJsonCore r ps (setSb CMState.empty st.sbom_components) := by
    unfold toJsonCore
    rw [show (setSb CMState.empty st.sbom_components).resetIcm
        = st.resetIcm from rfl]
  rw [h1, toJsonCore_setSb]
  cases hx : toJsonCore r ps CMState.empty <;> rfl

/-- Substitute every working map except `_gomod_data` and `_sbom_components`
(used to show `sbom_components_list` neither reads nor keeps the others). -/
def setOther (st b : CMState) : CMState :=
  { b with gomod_data := st.gomod_data,
           sbom_components := st.sbom_components }

theorem resetSbom_setOther (st : CMState) :
    st.resetSbom = setOther CMState.empty st := rfl

theorem process_gomod_setOther (s b : CMState) (P D : Package) :
    process_gomod (setOther s b) P D "sbom"
      = (process_gomod s P D "sbom").map (fun s2 => setOther s2 b) := by
  unfold process_gomod
  rw [show (setOther s b).gomod_data = s.gomod_data from rfl]
  by_cases h1 : (D.type == "gomod") = true
  · rw [if_pos h1, if_pos h1]
    cases hpr : gomodParentAndRel s.gomod_data P D with
    | error e => rfl
    | ok pr =>
      cases pr with
      | mk pmn rel =>
        cases pmn with
        | none => rfl
        | some mn =>
          cases hf : alFind mn s.gomod_data with
          | none => simp only [hf]; rfl
          | some pe =>
            cases hu : to_purl D rel with
            | error e => simp only [hf, hu]; rfl
            | ok dp =>
              simp only [hf, hu, except_bind_ok]
              rw [if_neg (show ¬(("sbom" : String) == "icm") = true by decide), if_neg (show ¬(("sbom" : String) == "icm") = true by decide),
                  if_pos (show (("sbom" : String) == "sbom") = true from rfl), if_pos (show (("sbom" : String) == "sbom") = true from rfl)]
              rfl
  · rw [if_neg h1, if_neg h1]
    rfl

theorem process_go_package_setOther (m : List (String × Package))
    (s b : CMState) (P D : Package) :
    process_go_package m (setOther s b) P D "sbom"
      = (process_go_package m s P D "sbom").map
          (fun x => (x.1, setOther x.2 b)) := by
  unfold process_go_package
  by_cases h1 : (D.type == "go-package") = true
  · rw [if_pos h1, if_pos h1]
    rw [show (setOther s b).gomod_data = s.gomod_data from rfl]
    by_cases hl : isLocalVersion D.version = true
    · rw [if_pos hl, if_pos hl]
      cases hx : get_local_go_package_dep_purl m s.gomod_data P D with
      | error e => rfl
      | ok y =>
        cases y with
        | mk u d2 =>
          simp only [hx, except_bind_ok]
          rw [if_neg (show ¬(("sbom" : String) == "icm") = true by decide), if_neg (show ¬(("sbom" : String) == "icm") = true by decide),
              if_pos (show (("sbom" : String) == "sbom") = true from rfl), if_pos (show (("sbom" : String) == "sbom") = true from rfl)]
          rfl
    · rw [if_neg hl, if_neg hl]
      cases hu : to_purl D none with
      | error e => rfl
      | ok u =>
        simp only [hu, except_bind_ok, except_pure_eq]
        rw [if_neg (show ¬(("sbom" : String) == "icm") = true by decide), if_neg (show ¬(("sbom" : String) == "icm") = true by decide),
            if_pos (show (("sbom" : String) == "sbom") = true from rfl), if_pos (show (("sbom" : String) == "sbom") = true from rfl)]
        rfl
  · rw [if_neg h1, if_neg h1]
    rfl

theorem process_standard_package_sbom_setOther (s b : CMState) (D : Package) :
    process_standard_package_sbom (setOther s b) D
      = (process_standard_package_sbom s D).map (fun s2 => setOther s2 b) := by
  unfold process_standard_package_sbom
  cases hu : to_purl D none with
  | error e => rfl
  | ok u => simp only [hu, except_bind_ok]; rfl

theorem process_npm_package_setOther (s b : CMState) (P D : Package) :
    process_npm_package (setOther s b) P D "sbom"
      = (process_npm_package s P D "sbom").map (fun s2 => setOther s2 b) := by
  unfold process_npm_package
  by_cases h1 : (D.type == "npm") = true
  · rw [if_pos h1, if_pos h1, if_neg (show ¬(("sbom" : String) == "icm") = true by decide), if_neg (show ¬(("sbom" : String) == "icm") = true by decide),
        if_pos (show (("sbom" : String) == "sbom") = true from rfl), if_pos (show (("sbom" : String) == "sbom") = true from rfl)]
    exact process_standard_package_sbom_setOther s b D
  · rw [if_neg h1, if_neg h1]
    rfl

theorem process_pip_package_setOther (s b : CMState) (P D : Package) :
    process_pip_package (setOther s b) P D "sbom"
      = (process_pip_package s P D "sbom").map (fun s2 => setOther s2 b) := by
  unfold process_pip_package
  by_cases h1 : (D.type == "pip") = true
  · rw [if_pos h1, if_pos h1, if_neg (show ¬(("sbom" : String) == "icm") = true by decide), if_neg (show ¬(("sbom" : String) == "icm") = true by decide),
        if_pos (show (("sbom" : String) == "sbom") = true from rfl), if_pos (show (("sbom" : String) == "sbom") = true from rfl)]
    exact process_standard_package_sbom_setOther s b D
  · rw [if_neg h1, if_neg h1]
    rfl

theorem process_yarn_package_setOther (s b : CMState) (P D : Package) :
    process_yarn_package (setOther s b) P D "sbom"
      = (process_yarn_package s P D "sbom").map (fun s2 => setOther s2 b) := by
  unfold process_yarn_package
  by_cases h1 : (D.type == "yarn") = true
  · rw [if_pos h1, if_pos h1, if_neg (show ¬(("sbom" : String) == "icm") = true by decide), if_neg (show ¬(("sbom" : String) == "icm") = true by decide),
        if_pos (show (("sbom" : String) == "sbom") = true from rfl), if_pos (show (("sbom" : String) == "sbom") = true from rfl)]
    exact process_standard_package_sbom_setOther s b D
  · rw [if_neg h1, if_neg h1]
    rfl

theorem process_rubygems_package_setOther (r : Request) (s b : CMState)
    (P D : Package) :
    process_rubygems_package r (setOther s b) P D "sbom"
      = (process_rubygems_package r s P D "sbom").map
          (fun s2 => setOther s2 b) := by
  unfold process_rubygems_package
  by_cases h1 : (D.type == "rubygems") = true
  · rw [if_pos h1, if_pos h1]
    cases hu : to_purl D P.path with
    | error e => rfl
    | ok dp =>
      simp only [hu, except_bind_ok]
      rw [if_neg (show ¬(("sbom" : String) == "icm") = true by decide), if_neg (show ¬(("sbom" : String) == "icm") = true by decide),
          if_pos (show (("sbom" : String) == "sbom") = true from rfl), if_pos (show (("sbom" : String) == "sbom") = true from rfl)]
      rfl
  · rw [if_neg h1, if_neg h1]
    rfl

theorem processDep_setOther (r : Request) (m : List (String × Package))
    (s b : CMState) (P D : Package) :
    processDep r m (setOther s b) P D "sbom"
      = (processDep r m s P D "sbom").map
          (fun x => (x.1, setOther x.2 b)) := by
  unfold processDep
  by_cases h1 : (P.type == "go-package") = true
  · rw [if_pos h1, if_pos h1]
    exact process_go_package_setOther m s b P D
  · rw [if_neg h1, if_neg h1]
    by_cases h2 : (P.type == "gomod") = true
    · rw [if_pos h2, if_pos h2, process_gomod_setOther]
      cases hx : process_gomod s P D "sbom" <;> rfl
    · rw [if_neg h2, if_neg h2]
      by_cases h3 : (P.type == "npm") = true
      · rw [if_pos h3, if_pos h3, process_npm_package_setOther]
        cases hx : process_npm_package s P D "sbom" <;> rfl
      · rw [if_neg h3, if_neg h3]
        by_cases h4 : (P.type == "pip") = true
        · rw [if_pos h4, if_pos h4, process_pip_package_setOther]
          cases hx : process_pip_package s P D "sbom" <;> rfl
        · rw [if_neg h4, if_neg h4]
          by_cases h5 : (P.type == "yarn") = true
          · rw [if_pos h5, if_pos h5, process_yarn_package_setOther]
            cases hx : process_yarn_package s P D "sbom" <;> rfl
          · rw [if_neg h5, if_neg h5]
            by_cases h6 : (P.type == "rubygems") = true
            · rw [if_pos h6, if_pos h6, process_rubygems_package_setOther]
              cases hx : process_rubygems_package r s P D "sbom" <;> rfl
            · rw [if_neg h6, if_neg h6]
              rfl

theorem processDeps_setOther (r : Request) (m : List (String × Package))
    (P : Package) (b : CMState) :
    ∀ (ds : List Package) (s : CMState),
      processDeps r m "sbom" P (setOther s b) ds
        = (processDeps r m "sbom" P s ds).map
            (fun x => (x.1, setOther x.2 b))
  | [], s => rfl
  | d :: rest, s => by
    simp only [processDeps]
    rw [processDep_setOther]
    cases h1 : processDep r m s P d "sbom" with
    | error e => rfl
    | ok x =>
      simp only [Except.map, except_bind_ok]
      rw [processDeps_setOther r m P b rest x.2]
      cases h2 : processDeps r m "sbom" P x.2 rest <;> rfl

theorem processAll_setOther (r : Request) (m : List (String × Package))
    (b : CMState) :
    ∀ (ps : List Package) (s : CMState),
      processAll r m "sbom" (setOther s b) ps
        = (processAll r m "sbom" s ps).map (fun x => (x.1, setOther x.2 b))
  | [], s => rfl
  | p :: rest, s => by
    simp only [processAll]
    rw [processDeps_setOther]
    cases h1 : processDeps r m "sbom" p s p.dependencies with
    | error e => rfl
    | ok x =>
      simp only [Except.map, except_bind_ok]
      rw [processAll_setOther r m b rest x.2]
      cases h2 : processAll r m "sbom" x.2 rest <;> rfl

theorem seedSbomPackage_setOther (r : Request) (s b : CMState) (p : Package) :
    seedSbomPackage r (setOther s b) p
      = (seedSbomPackage r s p).map (fun s2 => setOther s2 b) := by
  unfold seedSbomPackage
  by_cases h1 : sbomSupportedType p.type = true
  · rw [if_pos h1, if_pos h1]
    cases hu : to_top_level_purl p r p.path with
    | error e => rfl
    | ok u =>
      simp only [hu, except_bind_ok]
      by_cases h2 : (p.type == "gomod") = true
      · rw [if_pos h2, if_pos h2]
        rfl
      · rw [if_neg h2, if_neg h2]
        rfl
  · rw [if_neg h1, if_neg h1]
    rfl

theorem seedSbom_setOther (r : Request) (b : CMState) :
    ∀ (ps : List Package) (s : CMState),
      seedSbom r (setOther s b) ps
        = (seedSbom r s ps).map (fun s2 => setOther s2 b)
  | [], s => rfl
  | p :: rest, s => by
    simp only [seedSbom]
    rw [seedSbomPackage_setOther]
    cases h1 : seedSbomPackage r s p with
    | error e => rfl
    | ok st1 =>
      simp only [Except.map, except_bind_ok]
      exact seedSbom_setOther r b rest st1

theorem sbomCore_setOther (r : Request) (ps : List Package) (st : CMState) :
    sbomCore r ps st
      = (sbomCore r ps CMState.empty).map
          (fun x => (x.1, x.2.1, setOther x.2.2 st)) := by
  simp only [sbomCore]
  rw [show st.resetSbom = setOther CMState.empty st from rfl,
      show CMState.empty.resetSbom = CMState.empty from rfl,
      seedSbom_setOther]
  cases h1 : seedSbom r CMState.empty ps with
  | error e => rfl
  | ok st1 =>
    simp only [Except.map, except_bind_ok]
    rw [processAll_setOther]
    cases h2 : processAll r (go_modules_by_name ps) "sbom" st1 ps with
    | error e => rfl
    | ok y =>
      cases y with
      | mk pkgs2 st2 =>
        simp only [Except.map, except_bind_ok]
        rfl

theorem sbomCore_state_indep (r : Request) (ps : List Package)
    (st : CMState) :
    (sbomCore r ps st).map (fun x => (x.1, x.2.1))
      = (sbomCore r ps CMState.empty).map (fun x => (x.1, x.2.1)) := by
  rw [sbomCore_setOther]
  cases hx : sbomCore r ps CMState.empty <;> rfl

theorem toJsonCore_out_indep (r : Request) (ps : List Package)
    (st st2 : CMState) :
    (toJsonCore r ps st).map (fun x => x.1)
      = (toJsonCore r ps st2).map (fun x => x.1) := by
  have e1 : (toJsonCore r ps st).map (fun x => x.1)
      = ((toJsonCore r ps st).map (fun x => (x.1, x.2.1))).map Prod.fst := by
    cases toJsonCore r ps st <;> rfl
  have e2 : (toJsonCore r ps st2).map (fun x => x.1)
      = ((toJsonCore r ps st2).map (fun x => (x.1, x.2.1))).map Prod.fst := by
    cases toJsonCore r ps st2 <;> rfl
  rw [e1, e2, toJsonCore_state_indep r ps st, toJsonCore_state_indep r ps st2]

theorem sbomCore_out_indep (r : Request) (ps : List Package)
    (st st2 : CMState) :
    (sbomCore r ps st).map (fun x => x.1)
      = (sbomCore r ps st2).map (fun x => x.1) := by
  have e1 : (sbomCore r ps st).map (fun x => x.1)
      = ((sbomCore r ps st).map (fun x => (x.1, x.2.1))).map Prod.fst := by
    cases sbomCore r ps st <;> rfl
  have e2 : (sbomCore r ps st2).map (fun x => x.1)
      = ((sbomCore r ps st2).map (fun x => (x.1, x.2.1))).map Prod.fst := by
    cases sbomCore r ps st2 <;> rfl
  rw [e1, e2, sbomCore_state_indep r ps st, sbomCore_state_indep r ps st2]

theorem to_json_fst (cm : ContentManifest) :
    cm.to_json.map Prod.fst
      = (toJsonCore cm.request cm.packages cm.state).map (fun x => x.1) := by
  unfold ContentManifest.to_json
  cases hx : toJsonCore cm.request cm.packages cm.state <;> rfl

theorem sbom_list_fst (cm : ContentManifest) :
    cm.sbom_components_list.map Prod.fst
      = (sbomCore cm.request cm.packages cm.state).map (fun x => x.1) := by
  unfold ContentManifest.sbom_components_list
  cases hx : sbomCore cm.request cm.packages cm.state <;> rfl

/-- C4: to_json() and sbom_components_list() behave as on a freshly
constructed instance: each call returns the same output as the call on a
fresh instance with the same request and packages; after a successful
to_json() a second to_json() returns the same output again, and a following
sbom_components_list() returns exactly what it would have returned alone;
and symmetrically after a successful sbom_components_list(). -/
theorem c4_entry_points_state_independent (cm : ContentManifest) :
    (cm.to_json.map Prod.fst
      = ((ContentManifest.init cm.request cm.packages).to_json).map Prod.fst)
    ∧ (cm.sbom_components_list.map Prod.fst
      = ((ContentManifest.init cm.request
            cm.packages).sbom_components_list).map Prod.fst)
    ∧ (∀ out cm2, cm.to_json = .ok (out, cm2) →
        cm2.to_json.map Prod.fst = .ok out
        ∧ cm2.sbom_components_list.map Prod.fst
            = cm.sbom_components_list.map Prod.fst)
    ∧ (∀ comps cm2, cm.sbom_components_list = .ok (comps, cm2) →
        cm2.sbom_components_list.map Prod.fst = .ok comps
        ∧ cm2.to_json.map Prod.fst = cm.to_json.map Prod.fst) := by
  refine ⟨?_, ?_, ?_, ?_⟩
  · rw [to_json_fst cm,
      to_json_fst (ContentManifest.init cm.request cm.packages)]
    exact toJsonCore_out_indep cm.request cm.packages cm.state CMState.empty
  · rw [sbom_list_fst cm,
      sbom_list_fst (ContentManifest.init cm.request cm.packages)]
    exact sbomCore_out_indep cm.request cm.packages cm.state CMState.empty
  · intro out cm2 h
    unfold ContentManifest.to_json at h
    simp only [except_bind_ok_iff] at h
    obtain ⟨⟨icm0, pkgs2, stF⟩, hcore, hok⟩ := h
    replace hok := Except.ok.inj hok
    obtain ⟨ho1, ho2⟩ := Prod.mk.injEq .. ▸ hok
    have hcm2 : cm2 = { cm with packages := pkgs2, state := stF } := ho2.symm
    have hcore2 := hcore
    unfold toJsonCore at hcore2
    simp only [except_bind_ok_iff] at hcore2
    obtain ⟨st1, hseed, ⟨pkgs3, st2⟩, hpa, ⟨st3, ws⟩, hsg, hfin⟩ := hcore2
    replace hfin := Except.ok.inj hfin
    obtain ⟨hf1, hf2⟩ := Prod.mk.injEq .. ▸ hfin
    obtain ⟨hg1, hg2⟩ := Prod.mk.injEq .. ▸ hf2
    have hmap : pkgs2
        = mapNorm (go_modules_by_name cm.packages) cm.packages := by
      rw [← hg1]
      exact processAll_fst hpa
    constructor
    · rw [hcm2, to_json_fst]
      show (toJsonCore cm.request pkgs2 stF).map (fun x => x.1) = .ok out
      rw [hmap, toJsonCore_norm,
          toJsonCore_out_indep cm.request cm.packages stF cm.state, hcore]
      simpa [Except.map] using ho1
    · rw [hcm2, sbom_list_fst, sbom_list_fst cm]
      show (sbomCore cm.request pkgs2 stF).map (fun x => x.1)
        = (sbomCore cm.request cm.packages cm.state).map (fun x => x.1)
      rw [hmap, sbomCore_norm]
      exact sbomCore_out_indep cm.request cm.packages stF cm.state
  · intro comps cm2 h
    unfold ContentManifest.sbom_components_list at h
    simp only [except_bind_ok_iff] at h
    obtain ⟨⟨comps0, pkgs2, stF⟩, hcore, hok⟩ := h
    replace hok := Except.ok.inj hok
    obtain ⟨ho1, ho2⟩ := Prod.mk.injEq .. ▸ hok
    have hcm2 : cm2 = { cm with packages := pkgs2, state := stF } := ho2.symm
    have hcore2 := hcore
    unfold sbomCore at hcore2
    simp only [except_bind_ok_iff] at hcore2
    obtain ⟨st1, hseed, ⟨pkgs3, st2⟩, hpa, hfin⟩ := hcore2
    replace hfin := Except.ok.inj hfin
    obtain ⟨hf1, hf2⟩ := Prod.mk.injEq .. ▸ hfin
    obtain ⟨hg1, hg2⟩ := Prod.mk.injEq .. ▸ hf2
    have hmap : pkgs2
        = mapNorm (go_modules_by_name cm.packages) cm.packages := by
      rw [← hg1]
      exact processAll_fst hpa
    constructor
    · rw [hcm2, sbom_list_fst]
      show (sbomCore cm.request pkgs2 stF).map (fun x => x.1) = .ok comps
      rw [hmap, sbomCore_norm,
          sbomCore_out_indep cm.request cm.packages stF cm.state, hcore]
      simpa [Except.map] using ho1
    · rw [hcm2, to_json_fst, to_json_fst cm]
      show (toJsonCore cm.request pkgs2 stF).map (fun x => x.1)
        = (toJsonCore cm.request cm.packages cm.state).map (fun x => x.1)
      rw [hmap, toJsonCore_norm]
      exact toJsonCore_out_indep cm.request cm.packages stF cm.state
